import Mathlib

/-!
Verification of the TCG IR optimization pass (constant folding, copy
propagation and algebraic simplification) against its specification.

The definitions below are a shallow embedding of the C source
(`tcg_constant_folding` and its helpers).  Machine integers
(`TCGArg` = `tcg_target_ulong`, 64-bit host) are modelled as `Nat`
with explicit reduction modulo `2^64` / `2^32` where the C arithmetic
wraps; C shifts whose count can reach the operand width are modelled by
the corresponding mathematical shift (modulo the word size), which is
the resolution of the C-level undefinedness used throughout.
-/

namespace TCGOpt

/-- `2^32`, the modulus of 32-bit host arithmetic. -/
def M32 : Nat := 4294967296

/-- `2^64`, the modulus of 64-bit host arithmetic (`tcg_target_ulong`). -/
def M64 : Nat := 18446744073709551616

/-- Truncation to 32 bits, i.e. a value cast to `uint32_t`. -/
def mask32 (x : Nat) : Nat := x % M32

/-- Truncation to 64 bits, i.e. a value cast to `uint64_t`. -/
def mask64 (x : Nat) : Nat := x % M64

/-- 64-bit wrapping subtraction `a - b` (unsigned C subtraction). -/
def sub64 (a b : Nat) : Nat := (a + (M64 - b % M64)) % M64

/-- Bitwise complement of a 64-bit value (`~x` at type `tcg_target_ulong`). -/
def not64 (x : Nat) : Nat := mask64 x ^^^ (M64 - 1)

/-- Sign extension of the low 8 bits of `x` into 64 bits (`(int8_t)x`
converted back to `tcg_target_ulong`). -/
def sext8 (x : Nat) : Nat :=
  let b := x % 256
  if b < 128 then b else b + (M64 - 256)

/-- Sign extension of the low 16 bits of `x` into 64 bits. -/
def sext16 (x : Nat) : Nat :=
  let b := x % 65536
  if b < 32768 then b else b + (M64 - 65536)

/-- Sign extension of the low 32 bits of `x` into 64 bits. -/
def sext32 (x : Nat) : Nat :=
  let b := x % M32
  if b < 2147483648 then b else b + (M64 - M32)

/-- Arithmetic right shift of the 32-bit value `x` by `y`
(`(int32_t)x >> (int32_t)y`), result converted to 64 bits.  For a
negative operand the shift is expressed through complementation. -/
def sar32 (x y : Nat) : Nat :=
  let v := mask32 x
  if v < 2147483648 then v >>> y
  else (M64 - 1) - ((M32 - 1 - v) >>> y)

/-- Arithmetic right shift of the 64-bit value `x` by `y`. -/
def sar64 (x y : Nat) : Nat :=
  let v := mask64 x
  if v < 9223372036854775808 then v >>> y
  else (M64 - 1) - ((M64 - 1 - v) >>> y)

/-- Signed 32-bit comparison `x < y` on the unsigned representatives. -/
def slt32 (x y : Nat) : Bool :=
  (mask32 x + 2147483648) % M32 < (mask32 y + 2147483648) % M32

/-- Signed 64-bit comparison `x < y` on the unsigned representatives. -/
def slt64 (x y : Nat) : Bool :=
  (mask64 x + 9223372036854775808) % M64 < (mask64 y + 9223372036854775808) % M64

/-!  Condition codes.  Modelled from the spec (§4.D): the numeric
values are the `TCGCond` enumeration of the enclosing code generator,
whose header is not part of the sources; only their distinctness is
relied upon. -/

def TCG_COND_EQ : Nat := 8
def TCG_COND_NE : Nat := 9
def TCG_COND_LT : Nat := 2
def TCG_COND_GE : Nat := 3
def TCG_COND_LE : Nat := 10
def TCG_COND_GT : Nat := 11
def TCG_COND_LTU : Nat := 6
def TCG_COND_GEU : Nat := 7
def TCG_COND_LEU : Nat := 14
def TCG_COND_GTU : Nat := 15

/-- The ten comparison predicates handled by the pass. -/
def validCond (c : Nat) : Prop :=
  c = TCG_COND_EQ ∨ c = TCG_COND_NE ∨ c = TCG_COND_LT ∨ c = TCG_COND_GE ∨
  c = TCG_COND_LE ∨ c = TCG_COND_GT ∨ c = TCG_COND_LTU ∨ c = TCG_COND_GEU ∨
  c = TCG_COND_LEU ∨ c = TCG_COND_GTU

instance (c : Nat) : Decidable (validCond c) := by
  unfold validCond; infer_instance

/-- `tcg_swap_cond`: predicate rewrite used when the operands of a
comparison are exchanged.  Modelled from the spec (`LT↔GT`, `LE↔GE`,
unsigned likewise; `EQ`/`NE` unchanged); the header defining it is not
part of the sources. -/
def tcg_swap_cond (c : Nat) : Nat :=
  if c = TCG_COND_LT then TCG_COND_GT
  else if c = TCG_COND_GT then TCG_COND_LT
  else if c = TCG_COND_LE then TCG_COND_GE
  else if c = TCG_COND_GE then TCG_COND_LE
  else if c = TCG_COND_LTU then TCG_COND_GTU
  else if c = TCG_COND_GTU then TCG_COND_LTU
  else if c = TCG_COND_LEU then TCG_COND_GEU
  else if c = TCG_COND_GEU then TCG_COND_LEU
  else c

/-- `tcg_invert_cond`: predicate negation.  Modelled from the spec
(`EQ↔NE`, `LT↔GE`, `LE↔GT`, unsigned likewise); the header defining it
is not part of the sources. -/
def tcg_invert_cond (c : Nat) : Nat :=
  if c = TCG_COND_EQ then TCG_COND_NE
  else if c = TCG_COND_NE then TCG_COND_EQ
  else if c = TCG_COND_LT then TCG_COND_GE
  else if c = TCG_COND_GE then TCG_COND_LT
  else if c = TCG_COND_LE then TCG_COND_GT
  else if c = TCG_COND_GT then TCG_COND_LE
  else if c = TCG_COND_LTU then TCG_COND_GEU
  else if c = TCG_COND_GEU then TCG_COND_LTU
  else if c = TCG_COND_LEU then TCG_COND_GTU
  else if c = TCG_COND_GTU then TCG_COND_LEU
  else c

/-- `do_constant_folding_cond_32`: evaluate a predicate on two 32-bit
constants.  `none` models `tcg_abort()` on an unknown predicate. -/
def do_constant_folding_cond_32 (x y c : Nat) : Option Bool :=
  let x := mask32 x
  let y := mask32 y
  if c = TCG_COND_EQ then some (x = y)
  else if c = TCG_COND_NE then some (x ≠ y)
  else if c = TCG_COND_LT then some (slt32 x y)
  else if c = TCG_COND_GE then some (¬ slt32 x y)
  else if c = TCG_COND_LE then some (¬ slt32 y x)
  else if c = TCG_COND_GT then some (slt32 y x)
  else if c = TCG_COND_LTU then some (x < y)
  else if c = TCG_COND_GEU then some (x ≥ y)
  else if c = TCG_COND_LEU then some (x ≤ y)
  else if c = TCG_COND_GTU then some (x > y)
  else none

/-- `do_constant_folding_cond_64`: evaluate a predicate on two 64-bit
constants. -/
def do_constant_folding_cond_64 (x y c : Nat) : Option Bool :=
  let x := mask64 x
  let y := mask64 y
  if c = TCG_COND_EQ then some (x = y)
  else if c = TCG_COND_NE then some (x ≠ y)
  else if c = TCG_COND_LT then some (slt64 x y)
  else if c = TCG_COND_GE then some (¬ slt64 x y)
  else if c = TCG_COND_LE then some (¬ slt64 y x)
  else if c = TCG_COND_GT then some (slt64 y x)
  else if c = TCG_COND_LTU then some (x < y)
  else if c = TCG_COND_GEU then some (x ≥ y)
  else if c = TCG_COND_LEU then some (x ≤ y)
  else if c = TCG_COND_GTU then some (x > y)
  else none

/-- `do_constant_folding_cond_eq`: result of a predicate whose two
operands are known to be equal. -/
def do_constant_folding_cond_eq (c : Nat) : Option Nat :=
  if c = TCG_COND_GT ∨ c = TCG_COND_LTU ∨ c = TCG_COND_LT ∨
     c = TCG_COND_GTU ∨ c = TCG_COND_NE then some 0
  else if c = TCG_COND_GE ∨ c = TCG_COND_GEU ∨ c = TCG_COND_LE ∨
          c = TCG_COND_LEU ∨ c = TCG_COND_EQ then some 1
  else none

/-!  Opcodes.  The enumeration lists every opcode the pass dispatches
on; `other` stands for any further opcode of the generator, carrying
the metadata the pass consults for it. -/

set_option maxHeartbeats 2000000 in
inductive TCGOpcode where
  | mov_i32 | movi_i32 | mov_i64 | movi_i64
  | add_i32 | add_i64 | sub_i32 | sub_i64 | mul_i32 | mul_i64
  | and_i32 | and_i64 | or_i32 | or_i64 | xor_i32 | xor_i64
  | shl_i32 | shl_i64 | shr_i32 | shr_i64 | sar_i32 | sar_i64
  | rotl_i32 | rotl_i64 | rotr_i32 | rotr_i64
  | andc_i32 | andc_i64 | orc_i32 | orc_i64 | eqv_i32 | eqv_i64
  | nand_i32 | nand_i64 | nor_i32 | nor_i64
  | not_i32 | not_i64 | neg_i32 | neg_i64
  | ext8s_i32 | ext8s_i64 | ext16s_i32 | ext16s_i64
  | ext8u_i32 | ext8u_i64 | ext16u_i32 | ext16u_i64
  | ext32s_i64 | ext32u_i64
  | deposit_i32 | deposit_i64
  | setcond_i32 | setcond_i64 | brcond_i32 | brcond_i64
  | movcond_i32 | movcond_i64
  | add2_i32 | sub2_i32 | mulu2_i32 | brcond2_i32 | setcond2_i32
  | call | br | nop
  | other (nOargs nIargs nCargs : Nat) (f64 bbEnd : Bool)
deriving Repr

/-- Tag-tuple encoding of opcodes, used only to give a shallow
`DecidableEq` instance (the derived instance's matcher over 67 x 67
constructor pairs is a very deeply nested expression). -/
def TCGOpcode.enc : TCGOpcode -> Nat × Nat × Nat × Nat × Bool × Bool
  | .mov_i32 => (0, 0, 0, 0, false, false)
  | .movi_i32 => (1, 0, 0, 0, false, false)
  | .mov_i64 => (2, 0, 0, 0, false, false)
  | .movi_i64 => (3, 0, 0, 0, false, false)
  | .add_i32 => (4, 0, 0, 0, false, false)
  | .add_i64 => (5, 0, 0, 0, false, false)
  | .sub_i32 => (6, 0, 0, 0, false, false)
  | .sub_i64 => (7, 0, 0, 0, false, false)
  | .mul_i32 => (8, 0, 0, 0, false, false)
  | .mul_i64 => (9, 0, 0, 0, false, false)
  | .and_i32 => (10, 0, 0, 0, false, false)
  | .and_i64 => (11, 0, 0, 0, false, false)
  | .or_i32 => (12, 0, 0, 0, false, false)
  | .or_i64 => (13, 0, 0, 0, false, false)
  | .xor_i32 => (14, 0, 0, 0, false, false)
  | .xor_i64 => (15, 0, 0, 0, false, false)
  | .shl_i32 => (16, 0, 0, 0, false, false)
  | .shl_i64 => (17, 0, 0, 0, false, false)
  | .shr_i32 => (18, 0, 0, 0, false, false)
  | .shr_i64 => (19, 0, 0, 0, false, false)
  | .sar_i32 => (20, 0, 0, 0, false, false)
  | .sar_i64 => (21, 0, 0, 0, false, false)
  | .rotl_i32 => (22, 0, 0, 0, false, false)
  | .rotl_i64 => (23, 0, 0, 0, false, false)
  | .rotr_i32 => (24, 0, 0, 0, false, false)
  | .rotr_i64 => (25, 0, 0, 0, false, false)
  | .andc_i32 => (26, 0, 0, 0, false, false)
  | .andc_i64 => (27, 0, 0, 0, false, false)
  | .orc_i32 => (28, 0, 0, 0, false, false)
  | .orc_i64 => (29, 0, 0, 0, false, false)
  | .eqv_i32 => (30, 0, 0, 0, false, false)
  | .eqv_i64 => (31, 0, 0, 0, false, false)
  | .nand_i32 => (32, 0, 0, 0, false, false)
  | .nand_i64 => (33, 0, 0, 0, false, false)
  | .nor_i32 => (34, 0, 0, 0, false, false)
  | .nor_i64 => (35, 0, 0, 0, false, false)
  | .not_i32 => (36, 0, 0, 0, false, false)
  | .not_i64 => (37, 0, 0, 0, false, false)
  | .neg_i32 => (38, 0, 0, 0, false, false)
  | .neg_i64 => (39, 0, 0, 0, false, false)
  | .ext8s_i32 => (40, 0, 0, 0, false, false)
  | .ext8s_i64 => (41, 0, 0, 0, false, false)
  | .ext16s_i32 => (42, 0, 0, 0, false, false)
  | .ext16s_i64 => (43, 0, 0, 0, false, false)
  | .ext8u_i32 => (44, 0, 0, 0, false, false)
  | .ext8u_i64 => (45, 0, 0, 0, false, false)
  | .ext16u_i32 => (46, 0, 0, 0, false, false)
  | .ext16u_i64 => (47, 0, 0, 0, false, false)
  | .ext32s_i64 => (48, 0, 0, 0, false, false)
  | .ext32u_i64 => (49, 0, 0, 0, false, false)
  | .deposit_i32 => (50, 0, 0, 0, false, false)
  | .deposit_i64 => (51, 0, 0, 0, false, false)
  | .setcond_i32 => (52, 0, 0, 0, false, false)
  | .setcond_i64 => (53, 0, 0, 0, false, false)
  | .brcond_i32 => (54, 0, 0, 0, false, false)
  | .brcond_i64 => (55, 0, 0, 0, false, false)
  | .movcond_i32 => (56, 0, 0, 0, false, false)
  | .movcond_i64 => (57, 0, 0, 0, false, false)
  | .add2_i32 => (58, 0, 0, 0, false, false)
  | .sub2_i32 => (59, 0, 0, 0, false, false)
  | .mulu2_i32 => (60, 0, 0, 0, false, false)
  | .brcond2_i32 => (61, 0, 0, 0, false, false)
  | .setcond2_i32 => (62, 0, 0, 0, false, false)
  | .call => (63, 0, 0, 0, false, false)
  | .br => (64, 0, 0, 0, false, false)
  | .nop => (65, 0, 0, 0, false, false)
  | .other a b c f e => (66, a, b, c, f, e)

/-- Left inverse of `TCGOpcode.enc`. -/
def TCGOpcode.undata (p : Nat × Nat × Nat × Nat × Bool × Bool) :
    TCGOpcode :=
  if p.1 = 0 then .mov_i32
  else if p.1 = 1 then .movi_i32
  else if p.1 = 2 then .mov_i64
  else if p.1 = 3 then .movi_i64
  else if p.1 = 4 then .add_i32
  else if p.1 = 5 then .add_i64
  else if p.1 = 6 then .sub_i32
  else if p.1 = 7 then .sub_i64
  else if p.1 = 8 then .mul_i32
  else if p.1 = 9 then .mul_i64
  else if p.1 = 10 then .and_i32
  else if p.1 = 11 then .and_i64
  else if p.1 = 12 then .or_i32
  else if p.1 = 13 then .or_i64
  else if p.1 = 14 then .xor_i32
  else if p.1 = 15 then .xor_i64
  else if p.1 = 16 then .shl_i32
  else if p.1 = 17 then .shl_i64
  else if p.1 = 18 then .shr_i32
  else if p.1 = 19 then .shr_i64
  else if p.1 = 20 then .sar_i32
  else if p.1 = 21 then .sar_i64
  else if p.1 = 22 then .rotl_i32
  else if p.1 = 23 then .rotl_i64
  else if p.1 = 24 then .rotr_i32
  else if p.1 = 25 then .rotr_i64
  else if p.1 = 26 then .andc_i32
  else if p.1 = 27 then .andc_i64
  else if p.1 = 28 then .orc_i32
  else if p.1 = 29 then .orc_i64
  else if p.1 = 30 then .eqv_i32
  else if p.1 = 31 then .eqv_i64
  else if p.1 = 32 then .nand_i32
  else if p.1 = 33 then .nand_i64
  else if p.1 = 34 then .nor_i32
  else if p.1 = 35 then .nor_i64
  else if p.1 = 36 then .not_i32
  else if p.1 = 37 then .not_i64
  else if p.1 = 38 then .neg_i32
  else if p.1 = 39 then .neg_i64
  else if p.1 = 40 then .ext8s_i32
  else if p.1 = 41 then .ext8s_i64
  else if p.1 = 42 then .ext16s_i32
  else if p.1 = 43 then .ext16s_i64
  else if p.1 = 44 then .ext8u_i32
  else if p.1 = 45 then .ext8u_i64
  else if p.1 = 46 then .ext16u_i32
  else if p.1 = 47 then .ext16u_i64
  else if p.1 = 48 then .ext32s_i64
  else if p.1 = 49 then .ext32u_i64
  else if p.1 = 50 then .deposit_i32
  else if p.1 = 51 then .deposit_i64
  else if p.1 = 52 then .setcond_i32
  else if p.1 = 53 then .setcond_i64
  else if p.1 = 54 then .brcond_i32
  else if p.1 = 55 then .brcond_i64
  else if p.1 = 56 then .movcond_i32
  else if p.1 = 57 then .movcond_i64
  else if p.1 = 58 then .add2_i32
  else if p.1 = 59 then .sub2_i32
  else if p.1 = 60 then .mulu2_i32
  else if p.1 = 61 then .brcond2_i32
  else if p.1 = 62 then .setcond2_i32
  else if p.1 = 63 then .call
  else if p.1 = 64 then .br
  else if p.1 = 65 then .nop
  else .other p.2.1 p.2.2.1 p.2.2.2.1 p.2.2.2.2.1 p.2.2.2.2.2

instance : DecidableEq TCGOpcode := fun x y =>
  decidable_of_iff (TCGOpcode.enc x = TCGOpcode.enc y)
    ⟨fun h => by
        have hh := congrArg TCGOpcode.undata h
        have hx : TCGOpcode.undata (TCGOpcode.enc x) = x := by
          cases x <;> rfl
        have hy : TCGOpcode.undata (TCGOpcode.enc y) = y := by
          cases y <;> rfl
        rw [hx, hy] at hh
        exact hh,
      fun h => by rw [h]⟩

namespace TCGOpcode

/-- Per-opcode metadata (`TCGOpDef`): arity split, width flag
(`TCG_OPF_64BIT`) and basic-block-end flag (`TCG_OPF_BB_END`). -/
structure OpDef where
  nb_oargs : Nat
  nb_iargs : Nat
  nb_cargs : Nat
  f64 : Bool
  bbEnd : Bool
deriving DecidableEq, Repr

/-- Modelled from the spec: the opcode metadata table `tcg_op_defs`
(§4.A, §6); the generator's opcode table is not part of the sources.
Arities follow the generator's standard operation formats
(outputs, inputs, then immediates such as conditions and labels). -/
def opdef : TCGOpcode → OpDef
  | mov_i32 => ⟨1, 1, 0, false, false⟩
  | movi_i32 => ⟨1, 0, 1, false, false⟩
  | mov_i64 => ⟨1, 1, 0, true, false⟩
  | movi_i64 => ⟨1, 0, 1, true, false⟩
  | add_i32 => ⟨1, 2, 0, false, false⟩
  | add_i64 => ⟨1, 2, 0, true, false⟩
  | sub_i32 => ⟨1, 2, 0, false, false⟩
  | sub_i64 => ⟨1, 2, 0, true, false⟩
  | mul_i32 => ⟨1, 2, 0, false, false⟩
  | mul_i64 => ⟨1, 2, 0, true, false⟩
  | and_i32 => ⟨1, 2, 0, false, false⟩
  | and_i64 => ⟨1, 2, 0, true, false⟩
  | or_i32 => ⟨1, 2, 0, false, false⟩
  | or_i64 => ⟨1, 2, 0, true, false⟩
  | xor_i32 => ⟨1, 2, 0, false, false⟩
  | xor_i64 => ⟨1, 2, 0, true, false⟩
  | shl_i32 => ⟨1, 2, 0, false, false⟩
  | shl_i64 => ⟨1, 2, 0, true, false⟩
  | shr_i32 => ⟨1, 2, 0, false, false⟩
  | shr_i64 => ⟨1, 2, 0, true, false⟩
  | sar_i32 => ⟨1, 2, 0, false, false⟩
  | sar_i64 => ⟨1, 2, 0, true, false⟩
  | rotl_i32 => ⟨1, 2, 0, false, false⟩
  | rotl_i64 => ⟨1, 2, 0, true, false⟩
  | rotr_i32 => ⟨1, 2, 0, false, false⟩
  | rotr_i64 => ⟨1, 2, 0, true, false⟩
  | andc_i32 => ⟨1, 2, 0, false, false⟩
  | andc_i64 => ⟨1, 2, 0, true, false⟩
  | orc_i32 => ⟨1, 2, 0, false, false⟩
  | orc_i64 => ⟨1, 2, 0, true, false⟩
  | eqv_i32 => ⟨1, 2, 0, false, false⟩
  | eqv_i64 => ⟨1, 2, 0, true, false⟩
  | nand_i32 => ⟨1, 2, 0, false, false⟩
  | nand_i64 => ⟨1, 2, 0, true, false⟩
  | nor_i32 => ⟨1, 2, 0, false, false⟩
  | nor_i64 => ⟨1, 2, 0, true, false⟩
  | not_i32 => ⟨1, 1, 0, false, false⟩
  | not_i64 => ⟨1, 1, 0, true, false⟩
  | neg_i32 => ⟨1, 1, 0, false, false⟩
  | neg_i64 => ⟨1, 1, 0, true, false⟩
  | ext8s_i32 => ⟨1, 1, 0, false, false⟩
  | ext8s_i64 => ⟨1, 1, 0, true, false⟩
  | ext16s_i32 => ⟨1, 1, 0, false, false⟩
  | ext16s_i64 => ⟨1, 1, 0, true, false⟩
  | ext8u_i32 => ⟨1, 1, 0, false, false⟩
  | ext8u_i64 => ⟨1, 1, 0, true, false⟩
  | ext16u_i32 => ⟨1, 1, 0, false, false⟩
  | ext16u_i64 => ⟨1, 1, 0, true, false⟩
  | ext32s_i64 => ⟨1, 1, 0, true, false⟩
  | ext32u_i64 => ⟨1, 1, 0, true, false⟩
  | deposit_i32 => ⟨1, 2, 2, false, false⟩
  | deposit_i64 => ⟨1, 2, 2, true, false⟩
  | setcond_i32 => ⟨1, 2, 1, false, false⟩
  | setcond_i64 => ⟨1, 2, 1, true, false⟩
  | brcond_i32 => ⟨0, 2, 2, false, true⟩
  | brcond_i64 => ⟨0, 2, 2, true, true⟩
  | movcond_i32 => ⟨1, 4, 1, false, false⟩
  | movcond_i64 => ⟨1, 4, 1, true, false⟩
  | add2_i32 => ⟨2, 4, 0, false, false⟩
  | sub2_i32 => ⟨2, 4, 0, false, false⟩
  | mulu2_i32 => ⟨2, 2, 0, false, false⟩
  | brcond2_i32 => ⟨0, 4, 2, false, true⟩
  | setcond2_i32 => ⟨1, 4, 1, false, false⟩
  | call => ⟨0, 0, 0, false, false⟩
  | br => ⟨0, 0, 1, false, true⟩
  | nop => ⟨0, 0, 0, false, false⟩
  | other a b c f e => ⟨a, b, c, f, e⟩

/-- `def->nb_args`. -/
def nb_args (op : TCGOpcode) : Nat :=
  (opdef op).nb_oargs + (opdef op).nb_iargs + (opdef op).nb_cargs

end TCGOpcode

open TCGOpcode in
/-- `op_bits`: declared width of an opcode (32 or 64), decided by the
`TCG_OPF_64BIT` flag. -/
def op_bits (op : TCGOpcode) : Nat :=
  if (TCGOpcode.opdef op).f64 then 64 else 32

/-- `op_to_movi`: the `movi` opcode of the same width. -/
def op_to_movi (op : TCGOpcode) : TCGOpcode :=
  if op_bits op = 32 then TCGOpcode.movi_i32 else TCGOpcode.movi_i64

/-- `op_to_mov`: the `mov` opcode of the same width. -/
def op_to_mov (op : TCGOpcode) : TCGOpcode :=
  if op_bits op = 32 then TCGOpcode.mov_i32 else TCGOpcode.mov_i64

open TCGOpcode in
/-- `do_constant_folding_2`: the opcode fold table on raw 64-bit host
values.  `none` models `tcg_abort()` for an opcode with no entry. -/
def do_constant_folding_2 (op : TCGOpcode) (x y : Nat) : Option Nat :=
  match op with
  | add_i32 | add_i64 => some (mask64 (x + y))
  | sub_i32 | sub_i64 => some (sub64 x y)
  | mul_i32 | mul_i64 => some (mask64 (x * y))
  | and_i32 | and_i64 => some (x &&& y)
  | or_i32 | or_i64 => some (x ||| y)
  | xor_i32 | xor_i64 => some (x ^^^ y)
  | shl_i32 => some (mask32 (mask32 x <<< y))
  | shl_i64 => some (mask64 (mask64 x <<< y))
  | shr_i32 => some (mask32 x >>> y)
  | shr_i64 => some (mask64 x >>> y)
  | sar_i32 => some (sar32 x y)
  | sar_i64 => some (sar64 x y)
  | rotr_i32 => some (mask32 (mask32 x <<< sub64 32 y) ||| (mask32 x >>> y))
  | rotr_i64 => some (mask64 (mask64 x <<< sub64 64 y) ||| (mask64 x >>> y))
  | rotl_i32 => some (mask32 (mask32 x <<< y) ||| (mask32 x >>> sub64 32 y))
  | rotl_i64 => some (mask64 (mask64 x <<< y) ||| (mask64 x >>> sub64 64 y))
  | not_i32 | not_i64 => some (not64 x)
  | neg_i32 | neg_i64 => some (sub64 0 x)
  | andc_i32 | andc_i64 => some (x &&& not64 y)
  | orc_i32 | orc_i64 => some (mask64 x ||| not64 y)
  | eqv_i32 | eqv_i64 => some (not64 (x ^^^ y))
  | nand_i32 | nand_i64 => some (not64 (x &&& y))
  | nor_i32 | nor_i64 => some (not64 (x ||| y))
  | ext8s_i32 | ext8s_i64 => some (sext8 x)
  | ext16s_i32 | ext16s_i64 => some (sext16 x)
  | ext8u_i32 | ext8u_i64 => some (x % 256)
  | ext16u_i32 | ext16u_i64 => some (x % 65536)
  | ext32s_i64 => some (sext32 x)
  | ext32u_i64 => some (mask32 x)
  | _ => none

/-- `do_constant_folding`: fold and mask the result to 32 bits when the
opcode's declared width is 32. -/
def do_constant_folding (op : TCGOpcode) (x y : Nat) : Option Nat :=
  (do_constant_folding_2 op x y).map fun res =>
    if op_bits op = 32 then res &&& 4294967295 else res

/-!  Temporary state table. -/

/-- `tcg_temp_state`. -/
inductive TempState where
  | undef | const | copy
deriving DecidableEq, Repr

/-- `struct tcg_temp_info`. -/
structure TempInfo where
  state : TempState
  prev_copy : Nat
  next_copy : Nat
  val : Nat
deriving DecidableEq, Repr

/-- The zero-initialized entry produced by `memset`. -/
def TempInfo.zero : TempInfo := ⟨TempState.undef, 0, 0, 0⟩

/-- The state table `temps`, as a map from temp index to entry. -/
def Temps := Nat → TempInfo

/-- Point update of the state table (one array store). -/
def upd (st : Temps) (i : Nat) (v : TempInfo) : Temps :=
  fun j => if j = i then v else st j

/-- The all-`UNDEF` table at pass entry. -/
def initTemps : Temps := fun _ => TempInfo.zero

/-- `memset(temps, 0, nb_temps * sizeof(struct tcg_temp_info))`:
zero the first `n` entries. -/
def memsetTemps (n : Nat) (st : Temps) : Temps :=
  fun j => if j < n then TempInfo.zero else st j

/-- The read-only part of `TCGContext` the pass consults: temp count,
global count, and each temp's declared type/width and locality. -/
structure Ctx where
  nb_globals : Nat
  nb_temps : Nat
  ttype : Nat → Bool
  temp_local : Nat → Bool

/-- `reset_temp`: detach `temp` from its ring (converting a surviving
single mate to `UNDEF`) and set its state to `UNDEF`. -/
def reset_temp (st : Temps) (t : Nat) : Temps :=
  let st2 :=
    if (st t).state = TempState.copy then
      if (st t).prev_copy = (st t).next_copy then
        upd st ((st t).next_copy)
          { st ((st t).next_copy) with state := TempState.undef }
      else
        let st1 := upd st ((st t).next_copy)
          { st ((st t).next_copy) with prev_copy := (st t).prev_copy }
        upd st1 ((st1 t).prev_copy)
          { st1 ((st1 t).prev_copy) with next_copy := (st1 t).next_copy }
    else st
  upd st2 t { st2 t with state := TempState.undef }

/-- Fuel bound for ring walks; `TCG_MAX_TEMPS` bounds every ring the C
code can build, so the fueled walks below agree with the unbounded
walks of the source on all well-formed states. -/
def TCG_MAX_TEMPS : Nat := 512

/-- Walk `next_copy` pointers from `i` until returning to `t`,
looking for an index satisfying `p` (the loop shape shared by
`find_better_copy` and `temps_are_copies`). -/
def ring_find (st : Temps) (t : Nat) (p : Nat → Bool) :
    Nat → Nat → Option Nat
  | 0, _ => none
  | fuel + 1, i =>
    if i = t then none
    else if p i then some i
    else ring_find st t p fuel ((st i).next_copy)

/-- `find_better_copy`: canonical representative of a copy class
(prefer a global, then a temp local). -/
def find_better_copy (ctx : Ctx) (st : Temps) (t : Nat) : Nat :=
  if t < ctx.nb_globals then t
  else
    match ring_find st t (fun i => i < ctx.nb_globals) TCG_MAX_TEMPS
        ((st t).next_copy) with
    | some i => i
    | none =>
      if ¬ ctx.temp_local t then
        (ring_find st t (fun i => ctx.temp_local i) TCG_MAX_TEMPS
          ((st t).next_copy)).getD t
      else t

/-- `temps_are_copies`: equality or shared ring membership. -/
def temps_are_copies (st : Temps) (a b : Nat) : Bool :=
  if a = b then true
  else if (st a).state ≠ TempState.copy ∨ (st b).state ≠ TempState.copy then
    false
  else
    (ring_find st a (fun i => i = b) TCG_MAX_TEMPS ((st a).next_copy)).isSome

/-- `tcg_opt_gen_mov`: reset `dst`, check the no-constant-source
assertion (`none` models the `assert` firing), join `dst` into `src`'s
ring when the declared types agree, and emit the two mov arguments. -/
def tcg_opt_gen_mov (ctx : Ctx) (st : Temps) (dst src : Nat) :
    Option (Temps × List Nat) :=
  let st0 := reset_temp st dst
  if (st0 src).state = TempState.const then none
  else
    let st4 :=
      if ctx.ttype src = ctx.ttype dst then
        let stA :=
          if (st0 src).state ≠ TempState.copy then
            upd st0 src { st0 src with
              state := TempState.copy, next_copy := src, prev_copy := src }
          else st0
        let stB := upd stA dst { stA dst with
          state := TempState.copy,
          next_copy := (stA src).next_copy, prev_copy := src }
        let stC := upd stB ((stB dst).next_copy)
          { stB ((stB dst).next_copy) with prev_copy := dst }
        upd stC src { stC src with next_copy := dst }
      else st0
    some (st4, [dst, src])

/-- `tcg_opt_gen_movi`: reset `dst`, record `CONST(val)`, emit the two
movi arguments. -/
def tcg_opt_gen_movi (st : Temps) (dst val : Nat) : Temps × List Nat :=
  let st0 := reset_temp st dst
  (upd st0 dst { st0 dst with state := TempState.const, val := val },
   [dst, val])

/-- `do_constant_folding_cond`: fold a single-word comparison given the
current temp states; `some 2` means "cannot be simplified". -/
def do_constant_folding_cond (st : Temps) (op : TCGOpcode)
    (x y c : Nat) : Option Nat :=
  if (st x).state = TempState.const ∧ (st y).state = TempState.const then
    if op_bits op = 32 then
      (do_constant_folding_cond_32 (st x).val (st y).val c).map
        fun b => if b then 1 else 0
    else
      (do_constant_folding_cond_64 (st x).val (st y).val c).map
        fun b => if b then 1 else 0
  else if temps_are_copies st x y then
    do_constant_folding_cond_eq c
  else if (st y).state = TempState.const ∧ (st y).val = 0 then
    if c = TCG_COND_LTU then some 0
    else if c = TCG_COND_GEU then some 1
    else some 2
  else some 2

/-- `do_constant_folding_cond2`: fold a double-word comparison on the
four 32-bit halves. -/
def do_constant_folding_cond2 (st : Temps) (al ah bl bh c : Nat) :
    Option Nat :=
  if (st bl).state = TempState.const ∧ (st bh).state = TempState.const then
    let b := mask64 ((st bh).val <<< 32) ||| mask32 (st bl).val
    if (st al).state = TempState.const ∧
       (st ah).state = TempState.const then
      let a := mask64 ((st ah).val <<< 32) ||| mask32 (st al).val
      (do_constant_folding_cond_64 a b c).map fun r => if r then 1 else 0
    else if b = 0 ∧ c = TCG_COND_LTU then some 0
    else if b = 0 ∧ c = TCG_COND_GEU then some 1
    else if temps_are_copies st al bl ∧ temps_are_copies st ah bh then
      do_constant_folding_cond_eq c
    else some 2
  else if temps_are_copies st al bl ∧ temps_are_copies st ah bh then
    do_constant_folding_cond_eq c
  else some 2

/-- `(TCGArg)-1`, the sentinel destination in `swap_commutative`
calls for operations without a destination. -/
def NEG1 : Nat := M64 - 1

/-- `swap_commutative`: move a constant operand into the second slot
(or prefer `op d, d, x`); returns the swap flag and the two operands. -/
def swap_commutative (st : Temps) (dest a1 a2 : Nat) :
    Bool × Nat × Nat :=
  let sum : Int :=
    (if (st a1).state = TempState.const then 1 else 0) -
    (if (st a2).state = TempState.const then 1 else 0)
  if sum > 0 ∨ (sum = 0 ∧ dest = a2) then (true, a2, a1)
  else (false, a1, a2)

/-- `swap_commutative2`: jointly swap two double-word operand pairs
when the first pair has more constant halves. -/
def swap_commutative2 (st : Temps) (p10 p11 p20 p21 : Nat) :
    Bool × Nat × Nat × Nat × Nat :=
  let sum : Int :=
    (if (st p10).state = TempState.const then 1 else 0) +
    (if (st p11).state = TempState.const then 1 else 0) -
    (if (st p20).state = TempState.const then 1 else 0) -
    (if (st p21).state = TempState.const then 1 else 0)
  if sum > 0 then (true, p20, p21, p10, p11)
  else (false, p10, p11, p20, p21)

/-!  The rewriting driver `tcg_constant_folding`. -/

/-- Modelled from the spec: call flag bits `TCG_CALL_NO_READ_GLOBALS`
and `TCG_CALL_NO_WRITE_GLOBALS` (§4.A); the header defining them is
not part of the sources, only the mask of their disjunction is used. -/
def TCG_CALL_NO_GLOBALS_MASK : Nat := 48

namespace TCGOpcode

/-- Opcodes of the `shift/rot r, 0, a => movi r, 0` rule. -/
def isShiftRot : TCGOpcode → Bool
  | shl_i32 | shl_i64 | shr_i32 | shr_i64 | sar_i32 | sar_i64
  | rotl_i32 | rotl_i64 | rotr_i32 | rotr_i64 => true
  | _ => false

/-- Opcodes of the `op r, a, 0 => mov r, a` rule. -/
def isZeroRightMov : TCGOpcode → Bool
  | add_i32 | add_i64 | sub_i32 | sub_i64
  | shl_i32 | shl_i64 | shr_i32 | shr_i64 | sar_i32 | sar_i64
  | rotl_i32 | rotl_i64 | rotr_i32 | rotr_i64
  | or_i32 | or_i64 | xor_i32 | xor_i64 => true
  | _ => false

/-- Opcodes of the `op r, a, 0 => movi r, 0` rule. -/
def isZeroRightMovi : TCGOpcode → Bool
  | and_i32 | and_i64 | mul_i32 | mul_i64 => true
  | _ => false

/-- Opcodes of the `op r, a, a => mov r, a` rule. -/
def isOrAnd : TCGOpcode → Bool
  | or_i32 | or_i64 | and_i32 | and_i64 => true
  | _ => false

/-- Opcodes of the `op r, a, a => movi r, 0` rule. -/
def isSubXor : TCGOpcode → Bool
  | sub_i32 | sub_i64 | xor_i32 | xor_i64 => true
  | _ => false

/-- The commutative binary opcodes canonicalized in phase 2. -/
def isCommut : TCGOpcode → Bool
  | add_i32 | add_i64 | mul_i32 | mul_i64 | and_i32 | and_i64
  | or_i32 | or_i64 | xor_i32 | xor_i64 | eqv_i32 | eqv_i64
  | nand_i32 | nand_i64 | nor_i32 | nor_i64 => true
  | _ => false

/-- The unary opcodes folded when their operand is constant. -/
def isUnaryFold : TCGOpcode → Bool
  | not_i32 | not_i64 | neg_i32 | neg_i64
  | ext8s_i32 | ext8s_i64 | ext8u_i32 | ext8u_i64
  | ext16s_i32 | ext16s_i64 | ext16u_i32 | ext16u_i64
  | ext32s_i64 | ext32u_i64 => true
  | _ => false

/-- The binary opcodes folded when both operands are constant. -/
def isBinaryFold : TCGOpcode → Bool
  | add_i32 | add_i64 | sub_i32 | sub_i64 | mul_i32 | mul_i64
  | or_i32 | or_i64 | and_i32 | and_i64 | xor_i32 | xor_i64
  | shl_i32 | shl_i64 | shr_i32 | shr_i64 | sar_i32 | sar_i64
  | rotl_i32 | rotl_i64 | rotr_i32 | rotr_i64
  | andc_i32 | andc_i64 | orc_i32 | orc_i64 | eqv_i32 | eqv_i64
  | nand_i32 | nand_i64 | nor_i32 | nor_i64 => true
  | _ => false

def isMov : TCGOpcode → Bool
  | mov_i32 | mov_i64 => true
  | _ => false

def isMovi : TCGOpcode → Bool
  | movi_i32 | movi_i64 => true
  | _ => false

def isDeposit : TCGOpcode → Bool
  | deposit_i32 | deposit_i64 => true
  | _ => false

def isSetcond : TCGOpcode → Bool
  | setcond_i32 | setcond_i64 => true
  | _ => false

def isBrcond : TCGOpcode → Bool
  | brcond_i32 | brcond_i64 => true
  | _ => false

def isMovcond : TCGOpcode → Bool
  | movcond_i32 | movcond_i64 => true
  | _ => false

end TCGOpcode

open TCGOpcode

/-- Number of input-stream arguments one operation occupies (for a
call, decoded from its first argument word). -/
def argCount (op : TCGOpcode) (args : List Nat) : Nat :=
  if op = TCGOpcode.call then
    (args.headD 0 >>> 16) + (args.headD 0 &&& 65535) + 3
  else op.nb_args

/-- Phase 1, copy propagation: replace every `COPY` input argument by
its canonical representative. -/
def copy_propagate (ctx : Ctx) (st : Temps) (op : TCGOpcode)
    (a : List Nat) : List Nat :=
  let lohi :=
    if op = TCGOpcode.call then
      ((a.headD 0 >>> 16) + 1, (a.headD 0 >>> 16) + (a.headD 0 &&& 65535) + 1)
    else ((opdef op).nb_oargs, (opdef op).nb_oargs + (opdef op).nb_iargs)
  a.mapIdx fun i x =>
    if lohi.1 ≤ i ∧ i < lohi.2 ∧ (st x).state = TempState.copy then
      find_better_copy ctx st x
    else x

/-- Phase 2, commutativity canonicalization. -/
def canonicalize (st : Temps) (op : TCGOpcode) (a : List Nat) :
    List Nat :=
  if op.isCommut then
    match a with
    | a0 :: a1 :: a2 :: rest =>
      let s := swap_commutative st a0 a1 a2
      a0 :: s.2.1 :: s.2.2 :: rest
    | _ => a
  else if op.isBrcond then
    match a with
    | a0 :: a1 :: c :: rest =>
      let s := swap_commutative st NEG1 a0 a1
      s.2.1 :: s.2.2 :: (if s.1 then tcg_swap_cond c else c) :: rest
    | _ => a
  else if op.isSetcond then
    match a with
    | a0 :: a1 :: a2 :: c :: rest =>
      let s := swap_commutative st a0 a1 a2
      a0 :: s.2.1 :: s.2.2 :: (if s.1 then tcg_swap_cond c else c) :: rest
    | _ => a
  else if op.isMovcond then
    match a with
    | a0 :: a1 :: a2 :: a3 :: a4 :: c :: rest =>
      let s := swap_commutative st NEG1 a1 a2
      let c1 := if s.1 then tcg_swap_cond c else c
      let s2 := swap_commutative st a0 a4 a3
      let c2 := if s2.1 then tcg_invert_cond c1 else c1
      a0 :: s.2.1 :: s.2.2 :: s2.2.2 :: s2.2.1 :: c2 :: rest
    | _ => a
  else if op = TCGOpcode.add2_i32 then
    match a with
    | a0 :: a1 :: a2 :: a3 :: a4 :: a5 :: rest =>
      let s := swap_commutative st a0 a2 a4
      let s2 := swap_commutative st a1 a3 a5
      a0 :: a1 :: s.2.1 :: s2.2.1 :: s.2.2 :: s2.2.2 :: rest
    | _ => a
  else if op = TCGOpcode.mulu2_i32 then
    match a with
    | a0 :: a1 :: a2 :: a3 :: rest =>
      let s := swap_commutative st a0 a2 a3
      a0 :: a1 :: s.2.1 :: s.2.2 :: rest
    | _ => a
  else if op = TCGOpcode.brcond2_i32 then
    match a with
    | a0 :: a1 :: a2 :: a3 :: c :: rest =>
      let s := swap_commutative2 st a0 a1 a2 a3
      s.2.1 :: s.2.2.1 :: s.2.2.2.1 :: s.2.2.2.2 ::
        (if s.1 then tcg_swap_cond c else c) :: rest
    | _ => a
  else if op = TCGOpcode.setcond2_i32 then
    match a with
    | a0 :: a1 :: a2 :: a3 :: a4 :: c :: rest =>
      let s := swap_commutative2 st a1 a2 a3 a4
      a0 :: s.2.1 :: s.2.2.1 :: s.2.2.2.1 :: s.2.2.2.2 ::
        (if s.1 then tcg_swap_cond c else c) :: rest
    | _ => a
  else a

/-- `reset_temp` over a list of output arguments. -/
def reset_list (st : Temps) (xs : List Nat) : Temps :=
  xs.foldl reset_temp st

/-- The result of processing one operation: new table, rewritten
opcode slot(s), emitted output arguments, input arguments consumed,
extra opcode slots consumed (for the double-word folds). -/
abbrev StepRes := Temps × List TCGOpcode × List Nat × Nat × Nat

/-- The fold-and-propagate switch (phase 4/5) on the canonicalized
arguments `a` of one operation.  Mirrors the big `switch` of
`tcg_constant_folding`; `none` models an `assert`/`tcg_abort`. -/
def bigSwitch (ctx : Ctx) (st : Temps) (op : TCGOpcode)
    (nextOp : Option TCGOpcode) (a : List Nat) (k : Nat) :
    Option StepRes :=
  let g := fun i => a.getD i 0
  let doDefault : Option StepRes :=
    let st' :=
      if (opdef op).bbEnd then memsetTemps ctx.nb_temps st
      else reset_list st (a.take (opdef op).nb_oargs)
    some (st', [op], a, k, 0)
  if op.isMov then
    if temps_are_copies st (g 0) (g 1) then
      some (st, [TCGOpcode.nop], [], k, 0)
    else if (st (g 1)).state ≠ TempState.const then
      match tcg_opt_gen_mov ctx st (g 0) (g 1) with
      | none => none
      | some (st', em) => some (st', [op], em, k, 0)
    else
      let r := tcg_opt_gen_movi st (g 0) ((st (g 1)).val)
      some (r.1, [op_to_movi op], r.2, k, 0)
  else if op.isMovi then
    let r := tcg_opt_gen_movi st (g 0) (g 1)
    some (r.1, [op], r.2, k, 0)
  else if op.isUnaryFold then
    if (st (g 1)).state = TempState.const then
      match do_constant_folding op ((st (g 1)).val) 0 with
      | none => none
      | some tmp =>
        let r := tcg_opt_gen_movi st (g 0) tmp
        some (r.1, [op_to_movi op], r.2, k, 0)
    else doDefault
  else if op.isBinaryFold then
    if (st (g 1)).state = TempState.const ∧
       (st (g 2)).state = TempState.const then
      match do_constant_folding op ((st (g 1)).val) ((st (g 2)).val) with
      | none => none
      | some tmp =>
        let r := tcg_opt_gen_movi st (g 0) tmp
        some (r.1, [op_to_movi op], r.2, k, 0)
    else doDefault
  else if op.isDeposit then
    if (st (g 1)).state = TempState.const ∧
       (st (g 2)).state = TempState.const then
      let m := sub64 (mask64 (1 <<< g 4)) 1
      let tmp := ((st (g 1)).val &&& not64 (mask64 (m <<< g 3))) |||
                 mask64 (((st (g 2)).val &&& m) <<< g 3)
      let r := tcg_opt_gen_movi st (g 0) tmp
      some (r.1, [op_to_movi op], r.2, k, 0)
    else doDefault
  else if op.isSetcond then
    match do_constant_folding_cond st op (g 1) (g 2) (g 3) with
    | none => none
    | some tmp =>
      if tmp ≠ 2 then
        let r := tcg_opt_gen_movi st (g 0) tmp
        some (r.1, [op_to_movi op], r.2, k, 0)
      else doDefault
  else if op.isBrcond then
    match do_constant_folding_cond st op (g 0) (g 1) (g 2) with
    | none => none
    | some tmp =>
      if tmp ≠ 2 then
        if tmp ≠ 0 then
          some (memsetTemps ctx.nb_temps st, [TCGOpcode.br], [g 3], k, 0)
        else
          some (st, [TCGOpcode.nop], [], k, 0)
      else doDefault
  else if op.isMovcond then
    match do_constant_folding_cond st op (g 1) (g 2) (g 5) with
    | none => none
    | some tmp =>
      if tmp ≠ 2 then
        if temps_are_copies st (g 0) (g (4 - tmp)) then
          some (st, [TCGOpcode.nop], [], k, 0)
        else if (st (g (4 - tmp))).state = TempState.const then
          let r := tcg_opt_gen_movi st (g 0) ((st (g (4 - tmp))).val)
          some (r.1, [op_to_movi op], r.2, k, 0)
        else
          match tcg_opt_gen_mov ctx st (g 0) (g (4 - tmp)) with
          | none => none
          | some (st', em) => some (st', [op_to_mov op], em, k, 0)
      else doDefault
  else if op = TCGOpcode.add2_i32 ∨ op = TCGOpcode.sub2_i32 then
    if (st (g 2)).state = TempState.const ∧
       (st (g 3)).state = TempState.const ∧
       (st (g 4)).state = TempState.const ∧
       (st (g 5)).state = TempState.const then
      let av := (mask32 ((st (g 3)).val) <<< 32) ||| mask32 ((st (g 2)).val)
      let bv := (mask32 ((st (g 5)).val) <<< 32) ||| mask32 ((st (g 4)).val)
      let rv := if op = TCGOpcode.add2_i32 then mask64 (av + bv)
                else sub64 av bv
      if nextOp = some TCGOpcode.nop then
        let r1 := tcg_opt_gen_movi st (g 0) (mask32 rv)
        let r2 := tcg_opt_gen_movi r1.1 (g 1) (mask32 (rv >>> 32))
        some (r2.1, [TCGOpcode.movi_i32, TCGOpcode.movi_i32],
              r1.2 ++ r2.2, k, 1)
      else none
    else doDefault
  else if op = TCGOpcode.mulu2_i32 then
    if (st (g 2)).state = TempState.const ∧
       (st (g 3)).state = TempState.const then
      let rv := mask32 ((st (g 2)).val) * mask32 ((st (g 3)).val)
      if nextOp = some TCGOpcode.nop then
        let r1 := tcg_opt_gen_movi st (g 0) (mask32 rv)
        let r2 := tcg_opt_gen_movi r1.1 (g 1) (mask32 (rv >>> 32))
        some (r2.1, [TCGOpcode.movi_i32, TCGOpcode.movi_i32],
              r1.2 ++ r2.2, k, 1)
      else none
    else doDefault
  else if op = TCGOpcode.brcond2_i32 then
    match do_constant_folding_cond2 st (g 0) (g 1) (g 2) (g 3) (g 4) with
    | none => none
    | some tmp =>
      if tmp ≠ 2 then
        if tmp ≠ 0 then
          some (memsetTemps ctx.nb_temps st, [TCGOpcode.br], [g 5], k, 0)
        else
          some (st, [TCGOpcode.nop], [], k, 0)
      else if (g 4 = TCG_COND_LT ∨ g 4 = TCG_COND_GE) ∧
              (st (g 2)).state = TempState.const ∧
              (st (g 3)).state = TempState.const ∧
              (st (g 2)).val = 0 ∧ (st (g 3)).val = 0 then
        some (memsetTemps ctx.nb_temps st, [TCGOpcode.brcond_i32],
              [g 1, g 3, g 4, g 5], k, 0)
      else doDefault
  else if op = TCGOpcode.setcond2_i32 then
    match do_constant_folding_cond2 st (g 1) (g 2) (g 3) (g 4) (g 5) with
    | none => none
    | some tmp =>
      if tmp ≠ 2 then
        let r := tcg_opt_gen_movi st (g 0) tmp
        some (r.1, [TCGOpcode.movi_i32], r.2, k, 0)
      else if (g 5 = TCG_COND_LT ∨ g 5 = TCG_COND_GE) ∧
              (st (g 3)).state = TempState.const ∧
              (st (g 4)).state = TempState.const ∧
              (st (g 3)).val = 0 ∧ (st (g 4)).val = 0 then
        some (st, [TCGOpcode.setcond_i32],
              [g 0, g 2, g 4, g 5], k, 0)
      else doDefault
  else if op = TCGOpcode.call then
    let nbo := g 0 >>> 16
    let nbCall := nbo + (g 0 &&& 65535)
    let st1 :=
      if g (nbCall + 1) &&& TCG_CALL_NO_GLOBALS_MASK = 0 then
        reset_list st (List.range ctx.nb_globals)
      else st
    let st2 := reset_list st1 ((a.drop 1).take nbo)
    some (st2, [op], a, k, 0)
  else doDefault

/-- Process one operation of the stream: copy propagation,
canonicalization, the identity simplifications, then the main switch. -/
def step (ctx : Ctx) (st : Temps) (op : TCGOpcode)
    (nextOp : Option TCGOpcode) (args : List Nat) : Option StepRes :=
  let k := argCount op args
  if args.length < k then none
  else
    let a := canonicalize st op (copy_propagate ctx st op (args.take k))
    let g := fun i => a.getD i 0
    if op.isShiftRot ∧ (st (g 1)).state = TempState.const ∧
       (st (g 1)).val = 0 then
      let r := tcg_opt_gen_movi st (g 0) 0
      some (r.1, [op_to_movi op], r.2, k, 0)
    else if op.isZeroRightMov ∧ (st (g 1)).state ≠ TempState.const ∧
            (st (g 2)).state = TempState.const ∧ (st (g 2)).val = 0 then
      if temps_are_copies st (g 0) (g 1) then
        some (st, [TCGOpcode.nop], [], k, 0)
      else
        match tcg_opt_gen_mov ctx st (g 0) (g 1) with
        | none => none
        | some (st', em) => some (st', [op_to_mov op], em, k, 0)
    else if op.isZeroRightMovi ∧ (st (g 2)).state = TempState.const ∧
            (st (g 2)).val = 0 then
      let r := tcg_opt_gen_movi st (g 0) 0
      some (r.1, [op_to_movi op], r.2, k, 0)
    else if op.isOrAnd ∧ temps_are_copies st (g 1) (g 2) then
      if temps_are_copies st (g 0) (g 1) then
        some (st, [TCGOpcode.nop], [], k, 0)
      else
        match tcg_opt_gen_mov ctx st (g 0) (g 1) with
        | none => none
        | some (st', em) => some (st', [op_to_mov op], em, k, 0)
    else if op.isSubXor ∧ temps_are_copies st (g 1) (g 2) then
      let r := tcg_opt_gen_movi st (g 0) 0
      some (r.1, [op_to_movi op], r.2, k, 0)
    else bigSwitch ctx st op nextOp a k

/-- `tcg_constant_folding`: scan the whole stream once, threading the
state table; returns the final table, the rewritten opcode buffer, the
emitted output arguments and the unconsumed input arguments. -/
def optrun (ctx : Ctx) : Nat → Temps → List TCGOpcode → List Nat →
    Option (Temps × List TCGOpcode × List Nat × List Nat)
  | _, st, [], args => some (st, [], [], args)
  | 0, _, _ :: _, _ => none
  | fuel + 1, st, op :: rest, args =>
    match step ctx st op rest.head? args with
    | none => none
    | some (st', opsO, em, k, extra) =>
      match optrun ctx fuel st' (rest.drop extra) (args.drop k) with
      | none => none
      | some (stF, opsF, emF, leftover) =>
        some (stF, opsO ++ opsF, em ++ emF, leftover)

/-- `tcg_optimize`: the pass entry point, starting from the
zero-initialized table.  The fuel `ops.length` is an upper bound on the
number of loop iterations: each iteration consumes at least one opcode,
so the fuel never runs out. -/
def tcg_optimize (ctx : Ctx) (ops : List TCGOpcode) (args : List Nat) :
    Option (Temps × List TCGOpcode × List Nat × List Nat) :=
  optrun ctx ops.length initTemps ops args

/-!  Spec-side execution semantics.  Modelled from the spec: the
semantics-preservation property speaks of "executing" a stream with
concrete runtime values, so these definitions give the reference
straight-line executor for the opcode subset exercised below.  They are
compared with what `tcg_optimize` produces, never used inside the
translation of the source. -/

/-- Modelled from the spec: runtime environments map temp indices to
concrete runtime values. -/
def envUpd (env : Nat → Nat) (t v : Nat) : Nat → Nat :=
  fun u => if u = t then v else env u

/-- Modelled from the spec: execute one operation on a runtime
environment.  32-bit destinations hold their value masked to 32 bits;
`setcond2_i32` compares the composed `high:low` 64-bit values.
Opcodes outside the modelled subset yield `none`. -/
def evalOp (env : Nat → Nat) (op : TCGOpcode) (a : List Nat) :
    Option (Nat → Nat) :=
  let g := fun i => a.getD i 0
  match op with
  | TCGOpcode.nop => some env
  | TCGOpcode.movi_i32 => some (envUpd env (g 0) (mask32 (g 1)))
  | TCGOpcode.mov_i32 => some (envUpd env (g 0) (mask32 (env (g 1))))
  | TCGOpcode.and_i32 =>
      some (envUpd env (g 0) (mask32 (env (g 1) &&& env (g 2))))
  | TCGOpcode.setcond_i32 =>
      (do_constant_folding_cond_32 (env (g 1)) (env (g 2)) (g 3)).map
        fun b => envUpd env (g 0) (if b then 1 else 0)
  | TCGOpcode.setcond2_i32 =>
      (do_constant_folding_cond_64
          ((mask32 (env (g 2))) <<< 32 ||| mask32 (env (g 1)))
          ((mask32 (env (g 4))) <<< 32 ||| mask32 (env (g 3)))
          (g 5)).map
        fun b => envUpd env (g 0) (if b then 1 else 0)
  | _ => none

/-- Modelled from the spec: execute a stream, consuming arguments with
the same cursor discipline as the pass. -/
def evalStream : Nat → (Nat → Nat) → List TCGOpcode → List Nat →
    Option (Nat → Nat)
  | _, env, [], _ => some env
  | 0, _, _ :: _, _ => none
  | fuel + 1, env, op :: rest, args =>
    let k := argCount op args
    if args.length < k then none
    else
      match evalOp env op (args.take k) with
      | none => none
      | some env1 => evalStream fuel env1 rest (args.drop k)

/-- Walk `next_copy` pointers `m` steps from `t` (the notion of "ring
membership" used when stating the copy-ring invariant). -/
def nextIter (st : Temps) : Nat → Nat → Nat
  | 0, t => t
  | m + 1, t => (st (nextIter st m t)).next_copy

/-- Positional well-formedness of an op/argument stream: for every
operation reachable by the driver's cursor discipline (any number of
ops may additionally be skipped after one step, covering the nop
skipping of the double-word foldings), the output and input argument
words of a non-call operation are temp indices below the temp count.
Constant, condition and label argument words are unconstrained. -/
def WfArgsStream (N : Nat) : Nat → List TCGOpcode → List Nat → Prop
  | _, [], _ => True
  | 0, _ :: _, _ => True
  | fuel + 1, op :: rest, args =>
    (¬ op = TCGOpcode.call →
      ∀ i, i < (opdef op).nb_oargs + (opdef op).nb_iargs →
        args.getD i 0 < N) ∧
    ∀ e, WfArgsStream N fuel (rest.drop e) (args.drop (argCount op args))

/-!  Spec-side constant-folding algebra.  These definitions follow the
words of the specification's fold table (§4.D) and are compared with
the source-derived `do_constant_folding`. -/

/-- Spec: `add` is integer arithmetic modulo `2^w`. -/
def spec_add (w x y : Nat) : Nat := (x + y) % 2 ^ w

/-- Spec: `sub` is integer arithmetic modulo `2^w`. -/
def spec_sub (w x y : Nat) : Nat :=
  (((x : Int) - (y : Int)) % ((2 : Int) ^ w)).toNat

/-- Spec: `mul` is integer arithmetic modulo `2^w`. -/
def spec_mul (w x y : Nat) : Nat := (x * y) % 2 ^ w

/-- Spec: bitwise complement within `w` bits. -/
def spec_not (w x : Nat) : Nat := (x % 2 ^ w) ^^^ (2 ^ w - 1)

/-- Spec: `neg = -x` modulo `2^w`. -/
def spec_neg (w x : Nat) : Nat := ((-(x : Int)) % ((2 : Int) ^ w)).toNat

/-- Spec: bitwise and, masked to `w`. -/
def spec_and (w x y : Nat) : Nat := (x &&& y) % 2 ^ w

/-- Spec: bitwise or, masked to `w`. -/
def spec_or (w x y : Nat) : Nat := (x ||| y) % 2 ^ w

/-- Spec: bitwise xor, masked to `w`. -/
def spec_xor (w x y : Nat) : Nat := (x ^^^ y) % 2 ^ w

/-- Spec: `andc(x,y) = x & ~y`, masked to `w`. -/
def spec_andc (w x y : Nat) : Nat := (x &&& spec_not w y) % 2 ^ w

/-- Spec: `orc(x,y) = x | ~y`, masked to `w`. -/
def spec_orc (w x y : Nat) : Nat := (x ||| spec_not w y) % 2 ^ w

/-- Spec: `eqv(x,y) = ~(x ^ y)`, masked to `w`. -/
def spec_eqv (w x y : Nat) : Nat := spec_not w (x ^^^ y)

/-- Spec: `nand(x,y) = ~(x & y)`, masked to `w`. -/
def spec_nand (w x y : Nat) : Nat := spec_not w (x &&& y)

/-- Spec: `nor(x,y) = ~(x | y)`, masked to `w`. -/
def spec_nor (w x y : Nat) : Nat := spec_not w (x ||| y)

/-- Spec: sign-extend the low `n` bits of `x` to `w` bits. -/
def spec_sext (w n x : Nat) : Nat :=
  let b := x % 2 ^ n
  if b < 2 ^ (n - 1) then b else b + (2 ^ w - 2 ^ n)

/-- Spec: zero-extend the low `n` bits of `x` (clear the upper bits). -/
def spec_zext (n x : Nat) : Nat := x % 2 ^ n

/-- Spec: rotate `x` left by `y` bits within a `w`-bit word. -/
def spec_rotl (w x y : Nat) : Nat :=
  (((x % 2 ^ w) <<< y) % 2 ^ w) ||| ((x % 2 ^ w) >>> (w - y))

/-- Spec: rotate `x` right by `y` bits within a `w`-bit word. -/
def spec_rotr (w x y : Nat) : Nat :=
  ((x % 2 ^ w) >>> y) ||| (((x % 2 ^ w) <<< (w - y)) % 2 ^ w)

/-!  Bitwise helper lemmas. -/

theorem land_two_pow_sub_one (x n : Nat) : x &&& (2 ^ n - 1) = x % 2 ^ n := by
  apply Nat.eq_of_testBit_eq
  intro i
  simp only [Nat.testBit_and, Nat.testBit_two_pow_sub_one,
    Nat.testBit_mod_two_pow]
  rw [Bool.and_comm]

theorem land_mod_two_pow (x y n : Nat) :
    (x &&& y) % 2 ^ n = (x % 2 ^ n) &&& (y % 2 ^ n) := by
  apply Nat.eq_of_testBit_eq
  intro i
  simp only [Nat.testBit_and, Nat.testBit_mod_two_pow]
  by_cases h : i < n <;> simp [h]

theorem lor_mod_two_pow (x y n : Nat) :
    (x ||| y) % 2 ^ n = (x % 2 ^ n) ||| (y % 2 ^ n) := by
  apply Nat.eq_of_testBit_eq
  intro i
  simp only [Nat.testBit_or, Nat.testBit_mod_two_pow]
  by_cases h : i < n <;> simp [h]

theorem lxor_mod_two_pow (x y n : Nat) :
    (x ^^^ y) % 2 ^ n = (x % 2 ^ n) ^^^ (y % 2 ^ n) := by
  apply Nat.eq_of_testBit_eq
  intro i
  simp only [Nat.testBit_xor, Nat.testBit_mod_two_pow]
  by_cases h : i < n <;> simp [h]

theorem n32 : (4294967296 : Nat) = 2 ^ 32 := by norm_num
theorem n32m : (4294967295 : Nat) = 2 ^ 32 - 1 := by norm_num
theorem n64 : M64 = 2 ^ 64 := by norm_num [M64]

theorem land32_eq_mod (x : Nat) : x &&& 4294967295 = x % 2 ^ 32 := by
  have h := land_two_pow_sub_one x 32
  rw [n32m]
  exact h

theorem mod64_mod32 (x : Nat) : x % 2 ^ 64 % 2 ^ 32 = x % 2 ^ 32 :=
  Nat.mod_mod_of_dvd x (by norm_num)

theorem mask64_eq (x : Nat) : mask64 x = x % 2 ^ 64 := by
  rw [mask64, n64]

theorem mask32_eq (x : Nat) : mask32 x = x % 2 ^ 32 := by
  rw [mask32]; norm_num [M32]

theorem spec_not_lt (w y : Nat) : spec_not w y < 2 ^ w := by
  have hp : (0:Nat) < 2 ^ w := Nat.pos_pow_of_pos w (by norm_num)
  exact Nat.xor_lt_two_pow (Nat.mod_lt _ hp) (by omega)

theorem not64_eq_spec (y : Nat) : not64 y = spec_not 64 y := by
  rw [not64, spec_not, mask64_eq, n64]

theorem not64_mod32 (y : Nat) : not64 y % 2 ^ 32 = spec_not 32 y := by
  rw [not64, spec_not, mask64_eq, n64, lxor_mod_two_pow, mod64_mod32]
  norm_num

theorem shiftRight_lt_two_pow {x n : Nat} (hx : x < 2 ^ n) (k : Nat) :
    x >>> k < 2 ^ n := by
  rw [Nat.shiftRight_eq_div_pow]
  exact lt_of_le_of_lt (Nat.div_le_self _ _) hx

theorem sub64_of_le {a b : Nat} (hb : b ≤ a) (ha : a < M64) :
    sub64 a b = a - b := by
  rw [sub64]
  simp only [M64] at ha ⊢
  omega

/-!  Per-opcode agreement of `do_constant_folding` with the spec
algebra. -/

theorem fold_add_i32 (x y : Nat) :
    do_constant_folding TCGOpcode.add_i32 x y = some (spec_add 32 x y) := by
  show some (mask64 (x + y) &&& 4294967295) = _
  rw [land32_eq_mod, mask64_eq, mod64_mod32, spec_add]

theorem fold_add_i64 (x y : Nat) :
    do_constant_folding TCGOpcode.add_i64 x y = some (spec_add 64 x y) := by
  show some (mask64 (x + y)) = _
  rw [mask64_eq, spec_add]

theorem fold_sub_i32 (x y : Nat) (hx : x < 2 ^ 64) (hy : y < 2 ^ 64) :
    do_constant_folding TCGOpcode.sub_i32 x y = some (spec_sub 32 x y) := by
  show some (sub64 x y &&& 4294967295) = _
  rw [land32_eq_mod, sub64, spec_sub]
  norm_num [M64]
  omega

theorem fold_sub_i64 (x y : Nat) (hx : x < 2 ^ 64) (hy : y < 2 ^ 64) :
    do_constant_folding TCGOpcode.sub_i64 x y = some (spec_sub 64 x y) := by
  show some (sub64 x y) = _
  rw [sub64, spec_sub]
  norm_num [M64]
  omega

theorem fold_mul_i32 (x y : Nat) :
    do_constant_folding TCGOpcode.mul_i32 x y = some (spec_mul 32 x y) := by
  show some (mask64 (x * y) &&& 4294967295) = _
  rw [land32_eq_mod, mask64_eq, mod64_mod32, spec_mul]

theorem fold_mul_i64 (x y : Nat) :
    do_constant_folding TCGOpcode.mul_i64 x y = some (spec_mul 64 x y) := by
  show some (mask64 (x * y)) = _
  rw [mask64_eq, spec_mul]

theorem fold_and_i32 (x y : Nat) :
    do_constant_folding TCGOpcode.and_i32 x y = some (spec_and 32 x y) := by
  show some ((x &&& y) &&& 4294967295) = _
  rw [land32_eq_mod, spec_and]

theorem fold_and_i64 (x y : Nat) (hy : y < 2 ^ 64) :
    do_constant_folding TCGOpcode.and_i64 x y = some (spec_and 64 x y) := by
  show some (x &&& y) = _
  rw [spec_and, Nat.mod_eq_of_lt (Nat.and_lt_two_pow x hy)]

theorem fold_or_i32 (x y : Nat) :
    do_constant_folding TCGOpcode.or_i32 x y = some (spec_or 32 x y) := by
  show some ((x ||| y) &&& 4294967295) = _
  rw [land32_eq_mod, spec_or]

theorem fold_or_i64 (x y : Nat) (hx : x < 2 ^ 64) (hy : y < 2 ^ 64) :
    do_constant_folding TCGOpcode.or_i64 x y = some (spec_or 64 x y) := by
  show some (x ||| y) = _
  rw [spec_or, Nat.mod_eq_of_lt (Nat.or_lt_two_pow hx hy)]

theorem fold_xor_i32 (x y : Nat) :
    do_constant_folding TCGOpcode.xor_i32 x y = some (spec_xor 32 x y) := by
  show some ((x ^^^ y) &&& 4294967295) = _
  rw [land32_eq_mod, spec_xor]

theorem fold_xor_i64 (x y : Nat) (hx : x < 2 ^ 64) (hy : y < 2 ^ 64) :
    do_constant_folding TCGOpcode.xor_i64 x y = some (spec_xor 64 x y) := by
  show some (x ^^^ y) = _
  rw [spec_xor, Nat.mod_eq_of_lt (Nat.xor_lt_two_pow hx hy)]

theorem fold_andc_i32 (x y : Nat) :
    do_constant_folding TCGOpcode.andc_i32 x y = some (spec_andc 32 x y) := by
  show some ((x &&& not64 y) &&& 4294967295) = _
  rw [land32_eq_mod, land_mod_two_pow, not64_mod32, spec_andc,
    land_mod_two_pow, Nat.mod_eq_of_lt (spec_not_lt 32 y)]

theorem fold_andc_i64 (x y : Nat) :
    do_constant_folding TCGOpcode.andc_i64 x y = some (spec_andc 64 x y) := by
  show some (x &&& not64 y) = _
  rw [not64_eq_spec, spec_andc,
    Nat.mod_eq_of_lt (Nat.and_lt_two_pow x (spec_not_lt 64 y))]

theorem fold_orc_i32 (x y : Nat) :
    do_constant_folding TCGOpcode.orc_i32 x y = some (spec_orc 32 x y) := by
  show some ((mask64 x ||| not64 y) &&& 4294967295) = _
  rw [land32_eq_mod, lor_mod_two_pow, mask64_eq, mod64_mod32, not64_mod32,
    spec_orc, lor_mod_two_pow, Nat.mod_eq_of_lt (spec_not_lt 32 y)]

theorem fold_orc_i64 (x y : Nat) (hx : x < 2 ^ 64) :
    do_constant_folding TCGOpcode.orc_i64 x y = some (spec_orc 64 x y) := by
  show some (mask64 x ||| not64 y) = _
  rw [mask64_eq, Nat.mod_eq_of_lt hx, not64_eq_spec, spec_orc,
    Nat.mod_eq_of_lt (Nat.or_lt_two_pow hx (spec_not_lt 64 y))]

theorem fold_eqv_i32 (x y : Nat) :
    do_constant_folding TCGOpcode.eqv_i32 x y = some (spec_eqv 32 x y) := by
  show some (not64 (x ^^^ y) &&& 4294967295) = _
  rw [land32_eq_mod, not64_mod32, spec_eqv]

theorem fold_eqv_i64 (x y : Nat) :
    do_constant_folding TCGOpcode.eqv_i64 x y = some (spec_eqv 64 x y) := by
  show some (not64 (x ^^^ y)) = _
  rw [not64_eq_spec, spec_eqv]

theorem fold_nand_i32 (x y : Nat) :
    do_constant_folding TCGOpcode.nand_i32 x y = some (spec_nand 32 x y) := by
  show some (not64 (x &&& y) &&& 4294967295) = _
  rw [land32_eq_mod, not64_mod32, spec_nand]

theorem fold_nand_i64 (x y : Nat) :
    do_constant_folding TCGOpcode.nand_i64 x y = some (spec_nand 64 x y) := by
  show some (not64 (x &&& y)) = _
  rw [not64_eq_spec, spec_nand]

theorem fold_nor_i32 (x y : Nat) :
    do_constant_folding TCGOpcode.nor_i32 x y = some (spec_nor 32 x y) := by
  show some (not64 (x ||| y) &&& 4294967295) = _
  rw [land32_eq_mod, not64_mod32, spec_nor]

theorem fold_nor_i64 (x y : Nat) :
    do_constant_folding TCGOpcode.nor_i64 x y = some (spec_nor 64 x y) := by
  show some (not64 (x ||| y)) = _
  rw [not64_eq_spec, spec_nor]

theorem fold_not_i32 (x y : Nat) :
    do_constant_folding TCGOpcode.not_i32 x y = some (spec_not 32 x) := by
  show some (not64 x &&& 4294967295) = _
  rw [land32_eq_mod, not64_mod32]

theorem fold_not_i64 (x y : Nat) :
    do_constant_folding TCGOpcode.not_i64 x y = some (spec_not 64 x) := by
  show some (not64 x) = _
  rw [not64_eq_spec]

theorem fold_neg_i32 (x y : Nat) (hx : x < 2 ^ 64) :
    do_constant_folding TCGOpcode.neg_i32 x y = some (spec_neg 32 x) := by
  show some (sub64 0 x &&& 4294967295) = _
  rw [land32_eq_mod, sub64, spec_neg]
  norm_num [M64]
  omega

theorem fold_neg_i64 (x y : Nat) (hx : x < 2 ^ 64) :
    do_constant_folding TCGOpcode.neg_i64 x y = some (spec_neg 64 x) := by
  show some (sub64 0 x) = _
  rw [sub64, spec_neg]
  norm_num [M64]
  omega

theorem fold_ext8s_i32 (x y : Nat) :
    do_constant_folding TCGOpcode.ext8s_i32 x y = some (spec_sext 32 8 x) := by
  show some (sext8 x &&& 4294967295) = _
  rw [land32_eq_mod, sext8, spec_sext]
  norm_num [M64]
  split_ifs <;> omega

theorem fold_ext8s_i64 (x y : Nat) :
    do_constant_folding TCGOpcode.ext8s_i64 x y = some (spec_sext 64 8 x) := by
  show some (sext8 x) = _
  rw [sext8, spec_sext]
  norm_num [M64]

theorem fold_ext16s_i32 (x y : Nat) :
    do_constant_folding TCGOpcode.ext16s_i32 x y =
      some (spec_sext 32 16 x) := by
  show some (sext16 x &&& 4294967295) = _
  rw [land32_eq_mod, sext16, spec_sext]
  norm_num [M64]
  split_ifs <;> omega

theorem fold_ext16s_i64 (x y : Nat) :
    do_constant_folding TCGOpcode.ext16s_i64 x y =
      some (spec_sext 64 16 x) := by
  show some (sext16 x) = _
  rw [sext16, spec_sext]
  norm_num [M64]

theorem fold_ext32s_i64 (x y : Nat) :
    do_constant_folding TCGOpcode.ext32s_i64 x y =
      some (spec_sext 64 32 x) := by
  show some (sext32 x) = _
  rw [sext32, spec_sext]
  norm_num [M64, M32]

theorem fold_ext8u_i32 (x y : Nat) :
    do_constant_folding TCGOpcode.ext8u_i32 x y = some (spec_zext 8 x) := by
  show some (x % 256 &&& 4294967295) = _
  rw [land32_eq_mod, spec_zext]
  norm_num
  omega

theorem fold_ext8u_i64 (x y : Nat) :
    do_constant_folding TCGOpcode.ext8u_i64 x y = some (spec_zext 8 x) := by
  show some (x % 256) = _
  rw [spec_zext]
  norm_num

theorem fold_ext16u_i32 (x y : Nat) :
    do_constant_folding TCGOpcode.ext16u_i32 x y = some (spec_zext 16 x) := by
  show some (x % 65536 &&& 4294967295) = _
  rw [land32_eq_mod, spec_zext]
  norm_num
  omega

theorem fold_ext16u_i64 (x y : Nat) :
    do_constant_folding TCGOpcode.ext16u_i64 x y = some (spec_zext 16 x) := by
  show some (x % 65536) = _
  rw [spec_zext]
  norm_num

theorem fold_ext32u_i64 (x y : Nat) :
    do_constant_folding TCGOpcode.ext32u_i64 x y = some (spec_zext 32 x) := by
  show some (mask32 x) = _
  rw [mask32_eq, spec_zext]

theorem fold_rotl_i32 (x y : Nat) (hx : x < 2 ^ 32) (hy : y < 32) :
    do_constant_folding TCGOpcode.rotl_i32 x y = some (spec_rotl 32 x y) := by
  show some ((mask32 (mask32 x <<< y) ||| (mask32 x >>> sub64 32 y)) &&&
      4294967295) = _
  simp only [mask32_eq]
  rw [Nat.mod_eq_of_lt hx, sub64_of_le (le_of_lt hy) (by norm_num [M64]),
    land32_eq_mod, spec_rotl, Nat.mod_eq_of_lt hx]
  exact congrArg some (Nat.mod_eq_of_lt (Nat.or_lt_two_pow
    (Nat.mod_lt _ (by norm_num)) (shiftRight_lt_two_pow hx _)))

theorem fold_rotr_i32 (x y : Nat) (hx : x < 2 ^ 32) (hy : y < 32) :
    do_constant_folding TCGOpcode.rotr_i32 x y = some (spec_rotr 32 x y) := by
  show some ((mask32 (mask32 x <<< sub64 32 y) ||| (mask32 x >>> y)) &&&
      4294967295) = _
  simp only [mask32_eq]
  rw [Nat.mod_eq_of_lt hx, sub64_of_le (le_of_lt hy) (by norm_num [M64]),
    land32_eq_mod, spec_rotr, Nat.mod_eq_of_lt hx,
    Nat.mod_eq_of_lt (Nat.or_lt_two_pow (Nat.mod_lt _ (by norm_num))
      (shiftRight_lt_two_pow hx _)), Nat.lor_comm]

theorem fold_rotl_i64 (x y : Nat) (hx : x < 2 ^ 64) (hy : y < 64) :
    do_constant_folding TCGOpcode.rotl_i64 x y = some (spec_rotl 64 x y) := by
  show some (mask64 (mask64 x <<< y) ||| (mask64 x >>> sub64 64 y)) = _
  simp only [mask64_eq]
  rw [Nat.mod_eq_of_lt hx, sub64_of_le (le_of_lt hy) (by norm_num [M64]),
    spec_rotl, Nat.mod_eq_of_lt hx]

theorem fold_rotr_i64 (x y : Nat) (hx : x < 2 ^ 64) (hy : y < 64) :
    do_constant_folding TCGOpcode.rotr_i64 x y = some (spec_rotr 64 x y) := by
  show some (mask64 (mask64 x <<< sub64 64 y) ||| (mask64 x >>> y)) = _
  simp only [mask64_eq]
  rw [Nat.mod_eq_of_lt hx, sub64_of_le (le_of_lt hy) (by norm_num [M64]),
    spec_rotr, Nat.mod_eq_of_lt hx, Nat.lor_comm]

/-- C2: for the add/sub/mul, bitwise, not/neg and sign/zero-extension
opcode families, `do_constant_folding` computes exactly the spec's
definition of the operation on all 64-bit constant operands, with the
result masked to 32 bits whenever the opcode's declared width is 32. -/
theorem claim_C2_fold_algebra (x y : Nat) (hx : x < 2 ^ 64)
    (hy : y < 2 ^ 64) :
    do_constant_folding TCGOpcode.add_i32 x y = some (spec_add 32 x y) ∧
    do_constant_folding TCGOpcode.add_i64 x y = some (spec_add 64 x y) ∧
    do_constant_folding TCGOpcode.sub_i32 x y = some (spec_sub 32 x y) ∧
    do_constant_folding TCGOpcode.sub_i64 x y = some (spec_sub 64 x y) ∧
    do_constant_folding TCGOpcode.mul_i32 x y = some (spec_mul 32 x y) ∧
    do_constant_folding TCGOpcode.mul_i64 x y = some (spec_mul 64 x y) ∧
    do_constant_folding TCGOpcode.and_i32 x y = some (spec_and 32 x y) ∧
    do_constant_folding TCGOpcode.and_i64 x y = some (spec_and 64 x y) ∧
    do_constant_folding TCGOpcode.or_i32 x y = some (spec_or 32 x y) ∧
    do_constant_folding TCGOpcode.or_i64 x y = some (spec_or 64 x y) ∧
    do_constant_folding TCGOpcode.xor_i32 x y = some (spec_xor 32 x y) ∧
    do_constant_folding TCGOpcode.xor_i64 x y = some (spec_xor 64 x y) ∧
    do_constant_folding TCGOpcode.andc_i32 x y = some (spec_andc 32 x y) ∧
    do_constant_folding TCGOpcode.andc_i64 x y = some (spec_andc 64 x y) ∧
    do_constant_folding TCGOpcode.orc_i32 x y = some (spec_orc 32 x y) ∧
    do_constant_folding TCGOpcode.orc_i64 x y = some (spec_orc 64 x y) ∧
    do_constant_folding TCGOpcode.eqv_i32 x y = some (spec_eqv 32 x y) ∧
    do_constant_folding TCGOpcode.eqv_i64 x y = some (spec_eqv 64 x y) ∧
    do_constant_folding TCGOpcode.nand_i32 x y = some (spec_nand 32 x y) ∧
    do_constant_folding TCGOpcode.nand_i64 x y = some (spec_nand 64 x y) ∧
    do_constant_folding TCGOpcode.nor_i32 x y = some (spec_nor 32 x y) ∧
    do_constant_folding TCGOpcode.nor_i64 x y = some (spec_nor 64 x y) ∧
    do_constant_folding TCGOpcode.not_i32 x y = some (spec_not 32 x) ∧
    do_constant_folding TCGOpcode.not_i64 x y = some (spec_not 64 x) ∧
    do_constant_folding TCGOpcode.neg_i32 x y = some (spec_neg 32 x) ∧
    do_constant_folding TCGOpcode.neg_i64 x y = some (spec_neg 64 x) ∧
    do_constant_folding TCGOpcode.ext8s_i32 x y = some (spec_sext 32 8 x) ∧
    do_constant_folding TCGOpcode.ext8s_i64 x y = some (spec_sext 64 8 x) ∧
    do_constant_folding TCGOpcode.ext16s_i32 x y = some (spec_sext 32 16 x) ∧
    do_constant_folding TCGOpcode.ext16s_i64 x y = some (spec_sext 64 16 x) ∧
    do_constant_folding TCGOpcode.ext32s_i64 x y = some (spec_sext 64 32 x) ∧
    do_constant_folding TCGOpcode.ext8u_i32 x y = some (spec_zext 8 x) ∧
    do_constant_folding TCGOpcode.ext8u_i64 x y = some (spec_zext 8 x) ∧
    do_constant_folding TCGOpcode.ext16u_i32 x y = some (spec_zext 16 x) ∧
    do_constant_folding TCGOpcode.ext16u_i64 x y = some (spec_zext 16 x) ∧
    do_constant_folding TCGOpcode.ext32u_i64 x y = some (spec_zext 32 x) :=
  ⟨fold_add_i32 x y, fold_add_i64 x y, fold_sub_i32 x y hx hy,
   fold_sub_i64 x y hx hy, fold_mul_i32 x y, fold_mul_i64 x y,
   fold_and_i32 x y, fold_and_i64 x y hy, fold_or_i32 x y,
   fold_or_i64 x y hx hy, fold_xor_i32 x y, fold_xor_i64 x y hx hy,
   fold_andc_i32 x y, fold_andc_i64 x y, fold_orc_i32 x y,
   fold_orc_i64 x y hx, fold_eqv_i32 x y, fold_eqv_i64 x y,
   fold_nand_i32 x y, fold_nand_i64 x y, fold_nor_i32 x y,
   fold_nor_i64 x y, fold_not_i32 x y, fold_not_i64 x y,
   fold_neg_i32 x y hx, fold_neg_i64 x y hx, fold_ext8s_i32 x y,
   fold_ext8s_i64 x y, fold_ext16s_i32 x y, fold_ext16s_i64 x y,
   fold_ext32s_i64 x y, fold_ext8u_i32 x y, fold_ext8u_i64 x y,
   fold_ext16u_i32 x y, fold_ext16u_i64 x y, fold_ext32u_i64 x y⟩

/-- Witness for C2 at the concrete operands `x = 4294967295`,
`y = 3`. -/
theorem claim_C2_fold_algebra_witness :
    (4294967295 : Nat) < 2 ^ 64 ∧ (3 : Nat) < 2 ^ 64 ∧
    do_constant_folding TCGOpcode.add_i32 4294967295 3 =
      some (spec_add 32 4294967295 3) ∧
    spec_add 32 4294967295 3 = 2 ∧
    do_constant_folding TCGOpcode.sub_i64 4294967295 3 =
      some (spec_sub 64 4294967295 3) ∧
    spec_sub 64 4294967295 3 = 4294967292 :=
  ⟨by norm_num, by norm_num,
   (claim_C2_fold_algebra 4294967295 3 (by norm_num) (by norm_num)).1,
   by decide,
   (claim_C2_fold_algebra 4294967295 3 (by norm_num)
     (by norm_num)).2.2.2.1,
   by decide⟩

/-- C3: for both widths, folding `rotl`/`rotr` of a `w`-bit constant by
any amount `0 ≤ y < w` (including `y = 0`) yields exactly the spec's
rotation within a `w`-bit word. -/
theorem claim_C3_rot_folding :
    (∀ x y : Nat, x < 2 ^ 32 → y < 32 →
      do_constant_folding TCGOpcode.rotl_i32 x y =
        some (spec_rotl 32 x y) ∧
      do_constant_folding TCGOpcode.rotr_i32 x y =
        some (spec_rotr 32 x y)) ∧
    (∀ x y : Nat, x < 2 ^ 64 → y < 64 →
      do_constant_folding TCGOpcode.rotl_i64 x y =
        some (spec_rotl 64 x y) ∧
      do_constant_folding TCGOpcode.rotr_i64 x y =
        some (spec_rotr 64 x y)) :=
  ⟨fun x y hx hy => ⟨fold_rotl_i32 x y hx hy, fold_rotr_i32 x y hx hy⟩,
   fun x y hx hy => ⟨fold_rotl_i64 x y hx hy, fold_rotr_i64 x y hx hy⟩⟩

/-- Witness for C3, in particular at rotation amount zero. -/
theorem claim_C3_rot_folding_witness :
    do_constant_folding TCGOpcode.rotl_i32 5 0 = some (spec_rotl 32 5 0) ∧
    spec_rotl 32 5 0 = 5 ∧
    do_constant_folding TCGOpcode.rotr_i32 5 0 = some (spec_rotr 32 5 0) ∧
    spec_rotr 32 5 0 = 5 ∧
    do_constant_folding TCGOpcode.rotl_i64 3 1 = some (spec_rotl 64 3 1) ∧
    spec_rotl 64 3 1 = 6 ∧
    do_constant_folding TCGOpcode.rotr_i64 3 1 = some (spec_rotr 64 3 1) ∧
    spec_rotr 64 3 1 = 9223372036854775809 :=
  ⟨(claim_C3_rot_folding.1 5 0 (by norm_num) (by norm_num)).1, by decide,
   (claim_C3_rot_folding.1 5 0 (by norm_num) (by norm_num)).2, by decide,
   (claim_C3_rot_folding.2 3 1 (by norm_num) (by norm_num)).1, by decide,
   (claim_C3_rot_folding.2 3 1 (by norm_num) (by norm_num)).2, by decide⟩

/-!  Ring invariant machinery. -/

/-- Ring well-formedness: every `COPY` temp has `COPY` neighbours and
symmetric `prev`/`next` links. -/
def WfRing (st : Temps) : Prop :=
  ∀ t, (st t).state = TempState.copy →
    (st ((st t).next_copy)).state = TempState.copy ∧
    (st ((st t).prev_copy)).state = TempState.copy ∧
    (st ((st t).next_copy)).prev_copy = t ∧
    (st ((st t).prev_copy)).next_copy = t

/-- All `COPY` temps live below the temp count. -/
def BoundedCopy (N : Nat) (st : Temps) : Prop :=
  ∀ t, (st t).state = TempState.copy → t < N

/-- The combined driver invariant on the state table. -/
def Inv (N : Nat) (st : Temps) : Prop := WfRing st ∧ BoundedCopy N st

theorem reset_eq_notcopy {st : Temps} {t : Nat}
    (h : ¬ (st t).state = TempState.copy) :
    reset_temp st t = upd st t { st t with state := TempState.undef } := by
  rw [reset_temp]
  simp [h]

theorem reset_eq_single {st : Temps} {t : Nat}
    (hc : (st t).state = TempState.copy)
    (hpn : (st t).prev_copy = (st t).next_copy) :
    reset_temp st t =
      (fun st2 => upd st2 t { st2 t with state := TempState.undef })
        (upd st ((st t).next_copy)
          { st ((st t).next_copy) with state := TempState.undef }) := by
  rw [reset_temp]
  simp [hc, hpn]

theorem reset_eq_multi {st : Temps} {t : Nat}
    (hc : (st t).state = TempState.copy)
    (hpn : ¬ (st t).prev_copy = (st t).next_copy) :
    reset_temp st t =
      (fun st2 => upd st2 t { st2 t with state := TempState.undef })
        ((fun st1 => upd st1 ((st1 t).prev_copy)
            { st1 ((st1 t).prev_copy) with next_copy := (st1 t).next_copy })
          (upd st ((st t).next_copy)
            { st ((st t).next_copy) with prev_copy := (st t).prev_copy })) := by
  rw [reset_temp]
  simp [hc, hpn]

/-- Pointwise effect of `reset_temp` on a temp that is not in `COPY`
state: only its own state changes. -/
theorem reset_notcopy_pt (st : Temps) (t : Nat)
    (hc : ¬ (st t).state = TempState.copy) :
    (reset_temp st t) t = { st t with state := TempState.undef } ∧
    ∀ u, u ≠ t → (reset_temp st t) u = st u := by
  rw [reset_eq_notcopy hc]
  constructor
  · simp [upd]
  · intro u hut
    simp [upd, hut]

/-- Pointwise effect of `reset_temp` on a self-loop. -/
theorem reset_self_pt (st : Temps) (t : Nat)
    (hc : (st t).state = TempState.copy)
    (hpn : (st t).prev_copy = (st t).next_copy)
    (hqt : (st t).next_copy = t) :
    (reset_temp st t) t = { st t with state := TempState.undef } ∧
    ∀ u, u ≠ t → (reset_temp st t) u = st u := by
  rw [reset_eq_single hc hpn, hqt]
  constructor
  · simp [upd]
  · intro u hut
    simp [upd, hut]

/-- Pointwise effect of `reset_temp` on a two-element ring: both `t`
and its single mate become `UNDEF`. -/
theorem reset_pair_pt (st : Temps) (t : Nat)
    (hc : (st t).state = TempState.copy)
    (hpn : (st t).prev_copy = (st t).next_copy)
    (hqt : (st t).next_copy ≠ t) :
    (reset_temp st t) t = { st t with state := TempState.undef } ∧
    (reset_temp st t) ((st t).next_copy) =
      { st ((st t).next_copy) with state := TempState.undef } ∧
    ∀ u, u ≠ t → u ≠ (st t).next_copy → (reset_temp st t) u = st u := by
  rw [reset_eq_single hc hpn]
  refine ⟨?_, ?_, ?_⟩
  · simp [upd, hqt.symm]
  · simp [upd, hqt]
  · intro u hut huq
    simp [upd, hut, huq]

/-- Pointwise effect of `reset_temp` on a ring of three or more
temps: the two mates are relinked past `t`. -/
theorem reset_multi_pt (st : Temps) (t : Nat)
    (hc : (st t).state = TempState.copy)
    (hpn : ¬ (st t).prev_copy = (st t).next_copy)
    (hqt : (st t).next_copy ≠ t) (hrt : (st t).prev_copy ≠ t) :
    (reset_temp st t) t = { st t with state := TempState.undef } ∧
    (reset_temp st t) ((st t).next_copy) =
      { st ((st t).next_copy) with prev_copy := (st t).prev_copy } ∧
    (reset_temp st t) ((st t).prev_copy) =
      { st ((st t).prev_copy) with next_copy := (st t).next_copy } ∧
    ∀ u, u ≠ t → u ≠ (st t).next_copy → u ≠ (st t).prev_copy →
      (reset_temp st t) u = st u := by
  have hrq : (st t).prev_copy ≠ (st t).next_copy := hpn
  rw [reset_eq_multi hc hpn]
  refine ⟨?_, ?_, ?_, ?_⟩
  · simp [upd, hqt.symm, hrt.symm, hqt, hrt]
  · simp [upd, hqt.symm, hrt.symm, hqt, hrt, hrq, hrq.symm]
  · simp [upd, hqt.symm, hrt.symm, hqt, hrt, hrq, hrq.symm]
  · intro u hut huq hur
    simp [upd, hqt.symm, hrt.symm, hut, huq, hur]

/-- `reset_temp` preserves ring well-formedness; afterwards every
`COPY` temp was already a `COPY` temp, is distinct from the reset
temp, and no surviving link points at the reset temp. -/
theorem reset_temp_spec (st : Temps) (t : Nat) (hW : WfRing st) :
    WfRing (reset_temp st t) ∧
    (∀ u, ((reset_temp st t) u).state = TempState.copy →
       (st u).state = TempState.copy ∧ u ≠ t ∧
       ((reset_temp st t) u).next_copy ≠ t ∧
       ((reset_temp st t) u).prev_copy ≠ t) := by
  by_cases hc : (st t).state = TempState.copy
  · obtain ⟨Hq, Hr, Hqp, Hrn⟩ := hW t hc
    by_cases hpn : (st t).prev_copy = (st t).next_copy
    · by_cases hqt : (st t).next_copy = t
      · -- self-loop
        obtain ⟨P1, P4⟩ := reset_self_pt st t hc hpn hqt
        have neigh : ∀ u, (st u).state = TempState.copy → u ≠ t →
            (st u).next_copy ≠ t ∧ (st u).prev_copy ≠ t := by
          intro u hu hut
          obtain ⟨_, _, B3, B4⟩ := hW u hu
          constructor
          · intro e
            rw [e] at B3
            rw [hpn, hqt] at B3
            exact hut B3.symm
          · intro e
            rw [e] at B4
            rw [hqt] at B4
            exact hut B4.symm
        constructor
        · intro u hu
          by_cases hut : u = t
          · rw [hut, P1] at hu
            simp at hu
          · rw [P4 u hut] at hu
            obtain ⟨B1, B2, B3, B4⟩ := hW u hu
            obtain ⟨hn, hp⟩ := neigh u hu hut
            rw [P4 u hut, P4 _ hn, P4 _ hp]
            exact ⟨B1, B2, B3, B4⟩
        · intro u hu
          by_cases hut : u = t
          · rw [hut, P1] at hu
            simp at hu
          · rw [P4 u hut] at hu
            obtain ⟨hn, hp⟩ := neigh u hu hut
            rw [P4 u hut]
            exact ⟨hu, hut, hn, hp⟩
      · -- two-element ring
        obtain ⟨P1, P2, P4⟩ := reset_pair_pt st t hc hpn hqt
        have neigh : ∀ u, (st u).state = TempState.copy → u ≠ t →
            u ≠ (st t).next_copy →
            ((st u).next_copy ≠ t ∧ (st u).next_copy ≠ (st t).next_copy) ∧
            ((st u).prev_copy ≠ t ∧ (st u).prev_copy ≠ (st t).next_copy) := by
          intro u hu hut huq
          obtain ⟨_, _, B3, B4⟩ := hW u hu
          refine ⟨⟨?_, ?_⟩, ⟨?_, ?_⟩⟩
          · intro e
            rw [e] at B3
            exact huq (by rw [← B3, ← hpn])
          · intro e
            rw [e, Hqp] at B3
            exact hut B3.symm
          · intro e
            rw [e] at B4
            exact huq B4.symm
          · intro e
            rw [e] at B4
            rw [hpn] at Hrn
            rw [Hrn] at B4
            exact hut B4.symm
        constructor
        · intro u hu
          by_cases hut : u = t
          · rw [hut, P1] at hu
            simp at hu
          · by_cases huq : u = (st t).next_copy
            · rw [huq, P2] at hu
              simp at hu
            · rw [P4 u hut huq] at hu
              obtain ⟨B1, B2, B3, B4⟩ := hW u hu
              obtain ⟨⟨hn1, hn2⟩, hp1, hp2⟩ := neigh u hu hut huq
              rw [P4 u hut huq, P4 _ hn1 hn2, P4 _ hp1 hp2]
              exact ⟨B1, B2, B3, B4⟩
        · intro u hu
          by_cases hut : u = t
          · rw [hut, P1] at hu
            simp at hu
          · by_cases huq : u = (st t).next_copy
            · rw [huq, P2] at hu
              simp at hu
            · rw [P4 u hut huq] at hu
              obtain ⟨⟨hn1, _⟩, hp1, _⟩ := neigh u hu hut huq
              rw [P4 u hut huq]
              exact ⟨hu, hut, hn1, hp1⟩
    · -- ring of three or more
      have hqt : (st t).next_copy ≠ t := by
        intro e
        apply hpn
        rw [e] at Hqp
        rw [e, Hqp]
      have hrt : (st t).prev_copy ≠ t := by
        intro e
        apply hpn
        rw [e] at Hrn
        rw [e, Hrn]
      have hrq : (st t).prev_copy ≠ (st t).next_copy := hpn
      obtain ⟨P1, P2, P3, P4⟩ := reset_multi_pt st t hc hpn hqt hrt
      obtain ⟨A1, A2, A3, A4⟩ := hW ((st t).next_copy) Hq
      obtain ⟨C1, C2, C3, C4⟩ := hW ((st t).prev_copy) Hr
      -- neighbour disequalities for q := next t
      have hnq_t : (st ((st t).next_copy)).next_copy ≠ t := by
        intro e
        rw [e] at A3
        exact hrq A3
      have hnq_q : (st ((st t).next_copy)).next_copy ≠ (st t).next_copy := by
        intro e
        rw [e, Hqp] at A3
        exact hqt A3.symm
      -- neighbour disequalities for r := prev t
      have hpr_t : (st ((st t).prev_copy)).prev_copy ≠ t := by
        intro e
        rw [e] at C4
        exact hrq C4.symm
      have hpr_r : (st ((st t).prev_copy)).prev_copy ≠ (st t).prev_copy := by
        intro e
        rw [e] at C4
        rw [Hrn] at C4
        exact hrt C4.symm
      constructor
      · intro u hu
        by_cases hut : u = t
        · rw [hut, P1] at hu
          simp at hu
        · by_cases huq : u = (st t).next_copy
          · subst huq
            rw [P2]
            show (reset_temp st t ((st ((st t).next_copy)).next_copy)).state =
                TempState.copy ∧
              (reset_temp st t ((st t).prev_copy)).state = TempState.copy ∧
              (reset_temp st t
                ((st ((st t).next_copy)).next_copy)).prev_copy =
                (st t).next_copy ∧
              (reset_temp st t ((st t).prev_copy)).next_copy =
                (st t).next_copy
            refine ⟨?_, ?_, ?_, ?_⟩
            · by_cases hnqr :
                  (st ((st t).next_copy)).next_copy = (st t).prev_copy
              · rw [hnqr, P3]
                exact Hr
              · rw [P4 _ hnq_t hnq_q hnqr]
                exact A1
            · rw [P3]
              exact Hr
            · by_cases hnqr :
                  (st ((st t).next_copy)).next_copy = (st t).prev_copy
              · rw [hnqr, P3]
                show (st ((st t).prev_copy)).prev_copy = (st t).next_copy
                rw [← hnqr]
                exact A3
              · rw [P4 _ hnq_t hnq_q hnqr]
                exact A3
            · rw [P3]
          · by_cases hur : u = (st t).prev_copy
            · subst hur
              rw [P3]
              show (reset_temp st t ((st t).next_copy)).state =
                  TempState.copy ∧
                (reset_temp st t
                  ((st ((st t).prev_copy)).prev_copy)).state =
                  TempState.copy ∧
                (reset_temp st t ((st t).next_copy)).prev_copy =
                  (st t).prev_copy ∧
                (reset_temp st t
                  ((st ((st t).prev_copy)).prev_copy)).next_copy =
                  (st t).prev_copy
              refine ⟨?_, ?_, ?_, ?_⟩
              · rw [P2]
                exact Hq
              · by_cases hpru :
                    (st ((st t).prev_copy)).prev_copy = (st t).next_copy
                · rw [hpru, P2]
                  exact Hq
                · rw [P4 _ hpr_t hpru hpr_r]
                  exact C2
              · rw [P2]
              · by_cases hpru :
                    (st ((st t).prev_copy)).prev_copy = (st t).next_copy
                · rw [hpru, P2]
                  show (st ((st t).next_copy)).next_copy = (st t).prev_copy
                  rw [← hpru]
                  exact C4
                · rw [P4 _ hpr_t hpru hpr_r]
                  exact C4
            · rw [P4 u hut huq hur] at hu
              obtain ⟨B1, B2, B3, B4⟩ := hW u hu
              have hnu_t : (st u).next_copy ≠ t := by
                intro e
                rw [e] at B3
                exact hur B3.symm
              have hnu_q : (st u).next_copy ≠ (st t).next_copy := by
                intro e
                rw [e, Hqp] at B3
                exact hut B3.symm
              have hpu_t : (st u).prev_copy ≠ t := by
                intro e
                rw [e] at B4
                exact huq B4.symm
              have hpu_r : (st u).prev_copy ≠ (st t).prev_copy := by
                intro e
                rw [e, Hrn] at B4
                exact hut B4.symm
              rw [P4 u hut huq hur]
              refine ⟨?_, ?_, ?_, ?_⟩
              · by_cases hnur : (st u).next_copy = (st t).prev_copy
                · rw [hnur, P3]
                  exact Hr
                · rw [P4 _ hnu_t hnu_q hnur]
                  exact B1
              · by_cases hpuq : (st u).prev_copy = (st t).next_copy
                · rw [hpuq, P2]
                  exact Hq
                · rw [P4 _ hpu_t hpuq hpu_r]
                  exact B2
              · by_cases hnur : (st u).next_copy = (st t).prev_copy
                · rw [hnur, P3]
                  simp only
                  rw [← hnur]
                  exact B3
                · rw [P4 _ hnu_t hnu_q hnur]
                  exact B3
              · by_cases hpuq : (st u).prev_copy = (st t).next_copy
                · rw [hpuq, P2]
                  simp only
                  rw [← hpuq]
                  exact B4
                · rw [P4 _ hpu_t hpuq hpu_r]
                  exact B4
      · intro u hu
        by_cases hut : u = t
        · rw [hut, P1] at hu
          simp at hu
        · by_cases huq : u = (st t).next_copy
          · subst huq
            rw [P2] at hu ⊢
            exact ⟨hu, hut, hnq_t, hrt⟩
          · by_cases hur : u = (st t).prev_copy
            · subst hur
              rw [P3] at hu ⊢
              exact ⟨hu, hut, hqt, hpr_t⟩
            · rw [P4 u hut huq hur] at hu
              obtain ⟨_, _, B3, B4⟩ := hW u hu
              have hnu_t : (st u).next_copy ≠ t := by
                intro e
                rw [e] at B3
                exact hur B3.symm
              have hpu_t : (st u).prev_copy ≠ t := by
                intro e
                rw [e] at B4
                exact huq B4.symm
              rw [P4 u hut huq hur]
              exact ⟨hu, hut, hnu_t, hpu_t⟩
  · -- not a copy
    obtain ⟨P1, P4⟩ := reset_notcopy_pt st t hc
    constructor
    · intro u hu
      by_cases hut : u = t
      · rw [hut, P1] at hu
        simp at hu
      · rw [P4 u hut] at hu
        obtain ⟨B1, B2, B3, B4⟩ := hW u hu
        have hnut : (st u).next_copy ≠ t := fun e => hc (e ▸ B1)
        have hput : (st u).prev_copy ≠ t := fun e => hc (e ▸ B2)
        rw [P4 u hut, P4 _ hnut, P4 _ hput]
        exact ⟨B1, B2, B3, B4⟩
    · intro u hu
      by_cases hut : u = t
      · rw [hut, P1] at hu
        simp at hu
      · rw [P4 u hut] at hu
        obtain ⟨B1, B2, _, _⟩ := hW u hu
        have hnut : (st u).next_copy ≠ t := fun e => hc (e ▸ B1)
        have hput : (st u).prev_copy ≠ t := fun e => hc (e ▸ B2)
        rw [P4 u hut]
        exact ⟨hu, hut, hnut, hput⟩

/-!  Pointwise description of `tcg_opt_gen_mov`. -/

theorem gen_mov_mismatch_pt (ctx : Ctx) (st : Temps) (dst src : Nat)
    (hconst : ¬ ((reset_temp st dst) src).state = TempState.const)
    (hty : ¬ ctx.ttype src = ctx.ttype dst) :
    tcg_opt_gen_mov ctx st dst src =
      some (reset_temp st dst, [dst, src]) := by
  rw [tcg_opt_gen_mov]
  simp [hconst, hty]

/-- Join when the source is not in `COPY` state: a fresh two-element
ring of `src` and `dst` is created. -/
theorem gen_mov_joinA_pt (ctx : Ctx) (st : Temps) (dst src : Nat)
    (hconst : ¬ ((reset_temp st dst) src).state = TempState.const)
    (hty : ctx.ttype src = ctx.ttype dst) (hds : dst ≠ src)
    (hA : ¬ ((reset_temp st dst) src).state = TempState.copy) :
    ∀ st' em, tcg_opt_gen_mov ctx st dst src = some (st', em) →
      em = [dst, src] ∧
      st' dst = ⟨TempState.copy, src, src, ((reset_temp st dst) dst).val⟩ ∧
      st' src = ⟨TempState.copy, dst, dst, ((reset_temp st dst) src).val⟩ ∧
      ∀ u, u ≠ dst → u ≠ src → st' u = (reset_temp st dst) u := by
  intro st' em h
  simp only [tcg_opt_gen_mov] at h
  rw [if_neg hconst] at h
  rw [if_pos hty] at h
  rw [if_pos hA] at h
  rw [Option.some.injEq, Prod.mk.injEq] at h
  obtain ⟨h1, h2⟩ := h
  subst h1
  refine ⟨h2.symm, ?_, ?_, ?_⟩
  · simp [upd, hds, hds.symm]
  · simp [upd, hds, hds.symm]
  · intro u hud hus
    simp [upd, hud, hus]

/-- Join when the source is a self-loop `COPY`: the loop becomes the
two-element ring of `src` and `dst`. -/
theorem gen_mov_joinB1_pt (ctx : Ctx) (st : Temps) (dst src : Nat)
    (hconst : ¬ ((reset_temp st dst) src).state = TempState.const)
    (hty : ctx.ttype src = ctx.ttype dst) (hds : dst ≠ src)
    (hB : ((reset_temp st dst) src).state = TempState.copy)
    (hq : ((reset_temp st dst) src).next_copy = src) :
    ∀ st' em, tcg_opt_gen_mov ctx st dst src = some (st', em) →
      em = [dst, src] ∧
      st' dst = ⟨TempState.copy, src, src, ((reset_temp st dst) dst).val⟩ ∧
      st' src = { (reset_temp st dst) src with
        prev_copy := dst, next_copy := dst } ∧
      ∀ u, u ≠ dst → u ≠ src → st' u = (reset_temp st dst) u := by
  intro st' em h
  simp only [tcg_opt_gen_mov] at h
  rw [if_neg hconst] at h
  rw [if_pos hty] at h
  rw [if_neg (by simp [hB])] at h
  rw [Option.some.injEq, Prod.mk.injEq] at h
  obtain ⟨h1, h2⟩ := h
  subst h1
  refine ⟨h2.symm, ?_, ?_, ?_⟩
  · simp [upd, hds, hds.symm, hq]
  · simp [upd, hds, hds.symm, hq]
  · intro u hud hus
    simp [upd, hud, hus, hq]

/-- Join when the source is in a `COPY` ring with a distinct
successor `q`: `dst` is spliced between `src` and `q`. -/
theorem gen_mov_joinB2_pt (ctx : Ctx) (st : Temps) (dst src : Nat)
    (hconst : ¬ ((reset_temp st dst) src).state = TempState.const)
    (hty : ctx.ttype src = ctx.ttype dst) (hds : dst ≠ src)
    (hB : ((reset_temp st dst) src).state = TempState.copy)
    (hq : ((reset_temp st dst) src).next_copy ≠ src)
    (hqd : ((reset_temp st dst) src).next_copy ≠ dst) :
    ∀ st' em, tcg_opt_gen_mov ctx st dst src = some (st', em) →
      em = [dst, src] ∧
      st' dst = ⟨TempState.copy, src, ((reset_temp st dst) src).next_copy,
        ((reset_temp st dst) dst).val⟩ ∧
      st' src = { (reset_temp st dst) src with next_copy := dst } ∧
      st' ((reset_temp st dst) src).next_copy =
        { (reset_temp st dst) ((reset_temp st dst) src).next_copy with
          prev_copy := dst } ∧
      ∀ u, u ≠ dst → u ≠ src →
        u ≠ ((reset_temp st dst) src).next_copy →
        st' u = (reset_temp st dst) u := by
  intro st' em h
  simp only [tcg_opt_gen_mov] at h
  rw [if_neg hconst] at h
  rw [if_pos hty] at h
  rw [if_neg (by simp [hB])] at h
  rw [Option.some.injEq, Prod.mk.injEq] at h
  obtain ⟨h1, h2⟩ := h
  subst h1
  refine ⟨h2.symm, ?_, ?_, ?_, ?_⟩
  · simp [upd, hds, hds.symm, hq, hqd, hqd.symm]
  · simp [upd, hds, hds.symm, hq, hqd, hq.symm]
  · simp [upd, hds, hds.symm, hq, hqd, hq.symm, hqd.symm]
  · intro u hud hus huq
    simp [upd, hud, hus, huq]

/-- The reset temp itself always ends in `UNDEF` state. -/
theorem reset_state_self (st : Temps) (t : Nat) :
    ((reset_temp st t) t).state = TempState.undef := by
  rw [reset_temp]
  simp [upd]

/-- `tcg_opt_gen_mov` of a temp onto itself creates a self-loop. -/
theorem gen_mov_self_pt (ctx : Ctx) (st : Temps) (dst : Nat)
    (hconst : ¬ ((reset_temp st dst) dst).state = TempState.const) :
    ∀ st' em, tcg_opt_gen_mov ctx st dst dst = some (st', em) →
      em = [dst, dst] ∧
      st' dst = ⟨TempState.copy, dst, dst, ((reset_temp st dst) dst).val⟩ ∧
      ∀ u, u ≠ dst → st' u = (reset_temp st dst) u := by
  intro st' em h
  have hA : ¬ ((reset_temp st dst) dst).state = TempState.copy := by
    rw [reset_state_self]
    simp
  simp only [tcg_opt_gen_mov] at h
  rw [if_neg hconst] at h
  simp only [eq_self_iff_true, if_true] at h
  rw [if_pos hA] at h
  rw [Option.some.injEq, Prod.mk.injEq] at h
  obtain ⟨h1, h2⟩ := h
  subst h1
  refine ⟨h2.symm, by simp [upd], ?_⟩
  intro u hud
  simp [upd, hud]

/-- Pointwise description of `tcg_opt_gen_movi`. -/
theorem gen_movi_pt (st : Temps) (dst v : Nat) :
    (tcg_opt_gen_movi st dst v).2 = [dst, v] ∧
    (tcg_opt_gen_movi st dst v).1 dst =
      { (reset_temp st dst) dst with state := TempState.const, val := v } ∧
    ∀ u, u ≠ dst →
      (tcg_opt_gen_movi st dst v).1 u = (reset_temp st dst) u := by
  rw [tcg_opt_gen_movi]
  refine ⟨rfl, by simp [upd], ?_⟩
  intro u hud
  simp [upd, hud]

/-!  Invariant preservation by the state-mutating primitives. -/

theorem inv_init (N : Nat) : Inv N initTemps :=
  ⟨fun t ht => by simp [initTemps, TempInfo.zero] at ht,
   fun t ht => by simp [initTemps, TempInfo.zero] at ht⟩

theorem inv_reset {N : Nat} {st : Temps} (h : Inv N st) (t : Nat) :
    Inv N (reset_temp st t) :=
  ⟨(reset_temp_spec st t h.1).1,
   fun u hu => h.2 u ((reset_temp_spec st t h.1).2 u hu).1⟩

theorem inv_reset_list {N : Nat} {st : Temps} (h : Inv N st)
    (xs : List Nat) : Inv N (reset_list st xs) := by
  induction xs generalizing st with
  | nil => exact h
  | cons x xs ih =>
    rw [reset_list, List.foldl_cons]
    exact ih (inv_reset h x)

theorem inv_memset {N : Nat} {st : Temps} (h : BoundedCopy N st) :
    Inv N (memsetTemps N st) := by
  have hnone : ∀ u, (memsetTemps N st u).state ≠ TempState.copy := by
    intro u hu
    rw [memsetTemps] at hu
    by_cases hlt : u < N
    · simp [hlt, TempInfo.zero] at hu
    · rw [if_neg hlt] at hu
      exact hlt (h u hu)
  exact ⟨fun t ht => absurd ht (hnone t), fun t ht => absurd ht (hnone t)⟩

theorem inv_movi {N : Nat} {st : Temps} (h : Inv N st) (dst v : Nat) :
    Inv N (tcg_opt_gen_movi st dst v).1 := by
  obtain ⟨hW, hB⟩ := h
  obtain ⟨hW0, hsp⟩ := reset_temp_spec st dst hW
  obtain ⟨_, Pd, Pu⟩ := gen_movi_pt st dst v
  constructor
  · intro u hu
    by_cases hud : u = dst
    · rw [hud, Pd] at hu
      simp at hu
    · rw [Pu u hud] at hu
      obtain ⟨_, _, hn, hp⟩ := hsp u hu
      obtain ⟨B1, B2, B3, B4⟩ := hW0 u hu
      rw [Pu u hud, Pu _ hn, Pu _ hp]
      exact ⟨B1, B2, B3, B4⟩
  · intro u hu
    by_cases hud : u = dst
    · rw [hud, Pd] at hu
      simp at hu
    · rw [Pu u hud] at hu
      exact hB u (hsp u hu).1

theorem inv_mov {N : Nat} {ctx : Ctx} {st : Temps} {dst src : Nat}
    {st' : Temps} {em : List Nat} (h : Inv N st) (hdN : dst < N)
    (hsN : src < N)
    (hm : tcg_opt_gen_mov ctx st dst src = some (st', em)) :
    Inv N st' ∧ em = [dst, src] := by
  obtain ⟨hW, hB⟩ := h
  obtain ⟨hW0, hsp⟩ := reset_temp_spec st dst hW
  have hB0 : BoundedCopy N (reset_temp st dst) :=
    fun u hu => hB u (hsp u hu).1
  have hconst : ¬ ((reset_temp st dst) src).state = TempState.const := by
    intro hcc
    rw [tcg_opt_gen_mov] at hm
    simp [hcc] at hm
  by_cases hty : ctx.ttype src = ctx.ttype dst
  · by_cases hds : dst = src
    · -- dst = src: a self-loop is created
      obtain ⟨he, Pd, Pu⟩ :=
        gen_mov_self_pt ctx st dst (hds ▸ hconst) st' em (hds ▸ hm)
      refine ⟨⟨?_, ?_⟩, by rw [he, hds]⟩
      · intro u hu
        by_cases hud : u = dst
        · rw [hud] at hu ⊢
          rw [Pd]
          show (st' dst).state = TempState.copy ∧
            (st' dst).state = TempState.copy ∧
            (st' dst).prev_copy = dst ∧ (st' dst).next_copy = dst
          rw [Pd]
          exact ⟨rfl, rfl, rfl, rfl⟩
        · rw [Pu u hud] at hu
          obtain ⟨_, _, hn, hp⟩ := hsp u hu
          obtain ⟨B1, B2, B3, B4⟩ := hW0 u hu
          rw [Pu u hud, Pu _ hn, Pu _ hp]
          exact ⟨B1, B2, B3, B4⟩
      · intro u hu
        by_cases hud : u = dst
        · rw [hud]; exact hdN
        · rw [Pu u hud] at hu
          exact hB0 u hu
    · by_cases hBc : ((reset_temp st dst) src).state = TempState.copy
      · by_cases hqs : ((reset_temp st dst) src).next_copy = src
        · -- source is a self-loop
          obtain ⟨he, Pd, Ps, Pu⟩ :=
            gen_mov_joinB1_pt ctx st dst src hconst hty hds hBc hqs
              st' em hm
          have hps : ((reset_temp st dst) src).prev_copy = src := by
            obtain ⟨_, _, B3, _⟩ := hW0 src hBc
            rw [hqs] at B3
            exact B3
          refine ⟨⟨?_, ?_⟩, he⟩
          · intro u hu
            by_cases hud : u = dst
            · rw [hud] at hu ⊢
              rw [Pd]
              show (st' src).state = TempState.copy ∧
                (st' src).state = TempState.copy ∧
                (st' src).prev_copy = dst ∧ (st' src).next_copy = dst
              rw [Ps]
              exact ⟨hBc, hBc, rfl, rfl⟩
            · by_cases hus : u = src
              · rw [hus] at hu ⊢
                rw [Ps]
                show (st' dst).state = TempState.copy ∧
                  (st' dst).state = TempState.copy ∧
                  (st' dst).prev_copy = src ∧ (st' dst).next_copy = src
                rw [Pd]
                exact ⟨rfl, rfl, rfl, rfl⟩
              · rw [Pu u hud hus] at hu
                obtain ⟨_, _, hn, hp⟩ := hsp u hu
                obtain ⟨B1, B2, B3, B4⟩ := hW0 u hu
                have hns : ((reset_temp st dst) u).next_copy ≠ src := by
                  intro e
                  rw [e, hps] at B3
                  exact hus B3.symm
                have hpsrc : ((reset_temp st dst) u).prev_copy ≠ src := by
                  intro e
                  rw [e, hqs] at B4
                  exact hus B4.symm
                rw [Pu u hud hus, Pu _ hn hns, Pu _ hp hpsrc]
                exact ⟨B1, B2, B3, B4⟩
          · intro u hu
            by_cases hud : u = dst
            · rw [hud]; exact hdN
            · by_cases hus : u = src
              · rw [hus]; exact hsN
              · rw [Pu u hud hus] at hu
                exact hB0 u hu
        · -- source ring has a distinct successor q
          have hqd : ((reset_temp st dst) src).next_copy ≠ dst :=
            (hsp src hBc).2.2.1
          obtain ⟨he, Pd, Ps, Pq, Pu⟩ :=
            gen_mov_joinB2_pt ctx st dst src hconst hty hds hBc hqs
              hqd st' em hm
          obtain ⟨Hq0, Hp0, Hqp0, Hpn0⟩ := hW0 src hBc
          have hpd : ((reset_temp st dst) src).prev_copy ≠ dst :=
            (hsp src hBc).2.2.2
          have hpss : ((reset_temp st dst) src).prev_copy ≠ src := by
            intro e
            rw [e] at Hpn0
            exact hqs Hpn0
          refine ⟨⟨?_, ?_⟩, he⟩
          · intro u hu
            by_cases hud : u = dst
            · rw [hud] at hu ⊢
              rw [Pd]
              show (st' ((reset_temp st dst src).next_copy)).state =
                  TempState.copy ∧
                (st' src).state = TempState.copy ∧
                (st' ((reset_temp st dst src).next_copy)).prev_copy = dst ∧
                (st' src).next_copy = dst
              rw [Pq, Ps]
              exact ⟨Hq0, hBc, rfl, rfl⟩
            · by_cases hus : u = src
              · rw [hus] at hu ⊢
                rw [Ps]
                show (st' dst).state = TempState.copy ∧
                  (st' ((reset_temp st dst src).prev_copy)).state =
                    TempState.copy ∧
                  (st' dst).prev_copy = src ∧
                  (st' ((reset_temp st dst src).prev_copy)).next_copy = src
                refine ⟨?_, ?_, ?_, ?_⟩
                · rw [Pd]
                · by_cases hpq : (reset_temp st dst src).prev_copy =
                      (reset_temp st dst src).next_copy
                  · rw [hpq, Pq]
                    exact Hq0
                  · rw [Pu _ hpd hpss hpq]
                    exact Hp0
                · rw [Pd]
                · by_cases hpq : (reset_temp st dst src).prev_copy =
                      (reset_temp st dst src).next_copy
                  · rw [hpq] at Hpn0 ⊢
                    rw [Pq]
                    exact Hpn0
                  · rw [Pu _ hpd hpss hpq]
                    exact Hpn0
              · by_cases huq : u = (reset_temp st dst src).next_copy
                · rw [huq] at hu ⊢
                  rw [Pq]
                  obtain ⟨A1, A2, A3, A4⟩ := hW0 _ Hq0
                  have hnq_d :
                      ((reset_temp st dst)
                          ((reset_temp st dst src).next_copy)).next_copy ≠
                        dst := (hsp _ Hq0).2.2.1
                  have hnq_q :
                      ((reset_temp st dst)
                          ((reset_temp st dst src).next_copy)).next_copy ≠
                        (reset_temp st dst src).next_copy := by
                    intro e
                    rw [e, Hqp0] at A3
                    exact hqs A3.symm
                  show (st' ((reset_temp st dst
                      ((reset_temp st dst src).next_copy)).next_copy)).state =
                      TempState.copy ∧
                    (st' dst).state = TempState.copy ∧
                    (st' ((reset_temp st dst
                      ((reset_temp st dst src).next_copy)).next_copy)).prev_copy =
                      (reset_temp st dst src).next_copy ∧
                    (st' dst).next_copy = (reset_temp st dst src).next_copy
                  refine ⟨?_, ?_, ?_, ?_⟩
                  · by_cases hnqs : ((reset_temp st dst)
                        ((reset_temp st dst src).next_copy)).next_copy = src
                    · rw [hnqs, Ps]
                      exact hBc
                    · rw [Pu _ hnq_d hnqs hnq_q]
                      exact A1
                  · rw [Pd]
                  · by_cases hnqs : ((reset_temp st dst)
                        ((reset_temp st dst src).next_copy)).next_copy = src
                    · rw [hnqs] at A3 ⊢
                      rw [Ps]
                      exact A3
                    · rw [Pu _ hnq_d hnqs hnq_q]
                      exact A3
                  · rw [Pd]
                · rw [Pu u hud hus huq] at hu
                  obtain ⟨_, _, hn, hp⟩ := hsp u hu
                  obtain ⟨B1, B2, B3, B4⟩ := hW0 u hu
                  have hnuq : ((reset_temp st dst) u).next_copy ≠
                      (reset_temp st dst src).next_copy := by
                    intro e
                    rw [e, Hqp0] at B3
                    exact hus B3.symm
                  have hpus : ((reset_temp st dst) u).prev_copy ≠ src := by
                    intro e
                    rw [e] at B4
                    exact huq B4.symm
                  rw [Pu u hud hus huq]
                  refine ⟨?_, ?_, ?_, ?_⟩
                  · by_cases hnus : ((reset_temp st dst) u).next_copy = src
                    · rw [hnus, Ps]
                      exact hBc
                    · rw [Pu _ hn hnus hnuq]
                      exact B1
                  · by_cases hpuq : ((reset_temp st dst) u).prev_copy =
                        (reset_temp st dst src).next_copy
                    · rw [hpuq, Pq]
                      exact Hq0
                    · rw [Pu _ hp hpus hpuq]
                      exact B2
                  · by_cases hnus : ((reset_temp st dst) u).next_copy = src
                    · rw [hnus] at B3 ⊢
                      rw [Ps]
                      exact B3
                    · rw [Pu _ hn hnus hnuq]
                      exact B3
                  · by_cases hpuq : ((reset_temp st dst) u).prev_copy =
                        (reset_temp st dst src).next_copy
                    · rw [hpuq] at B4 ⊢
                      rw [Pq]
                      exact B4
                    · rw [Pu _ hp hpus hpuq]
                      exact B4
          · intro u hu
            by_cases hud : u = dst
            · rw [hud]; exact hdN
            · by_cases hus : u = src
              · rw [hus]; exact hsN
              · by_cases huq : u = (reset_temp st dst src).next_copy
                · rw [huq]
                  exact hB0 _ Hq0
                · rw [Pu u hud hus huq] at hu
                  exact hB0 u hu
      · -- source not yet a copy: fresh two-element ring
        obtain ⟨he, Pd, Ps, Pu⟩ :=
          gen_mov_joinA_pt ctx st dst src hconst hty hds hBc st' em hm
        refine ⟨⟨?_, ?_⟩, he⟩
        · intro u hu
          by_cases hud : u = dst
          · rw [hud] at hu ⊢
            rw [Pd]
            show (st' src).state = TempState.copy ∧
              (st' src).state = TempState.copy ∧
              (st' src).prev_copy = dst ∧ (st' src).next_copy = dst
            rw [Ps]
            exact ⟨rfl, rfl, rfl, rfl⟩
          · by_cases hus : u = src
            · rw [hus] at hu ⊢
              rw [Ps]
              show (st' dst).state = TempState.copy ∧
                (st' dst).state = TempState.copy ∧
                (st' dst).prev_copy = src ∧ (st' dst).next_copy = src
              rw [Pd]
              exact ⟨rfl, rfl, rfl, rfl⟩
            · rw [Pu u hud hus] at hu
              obtain ⟨_, _, hn, hp⟩ := hsp u hu
              obtain ⟨B1, B2, B3, B4⟩ := hW0 u hu
              have hns : ((reset_temp st dst) u).next_copy ≠ src :=
                fun e => hBc (e ▸ B1)
              have hpsrc : ((reset_temp st dst) u).prev_copy ≠ src :=
                fun e => hBc (e ▸ B2)
              rw [Pu u hud hus, Pu _ hn hns, Pu _ hp hpsrc]
              exact ⟨B1, B2, B3, B4⟩
        · intro u hu
          by_cases hud : u = dst
          · rw [hud]; exact hdN
          · by_cases hus : u = src
            · rw [hus]; exact hsN
            · rw [Pu u hud hus] at hu
              exact hB0 u hu
  · rw [gen_mov_mismatch_pt ctx st dst src hconst hty] at hm
    rw [Option.some.injEq, Prod.mk.injEq] at hm
    obtain ⟨h1, h2⟩ := hm
    subst h1
    exact ⟨⟨hW0, hB0⟩, h2.symm⟩

/-!  Claim C6: comparisons of copy-equal operands. -/

theorem cond_eq_val (c : Nat) (hc : validCond c) :
    do_constant_folding_cond_eq c =
      some (if c = TCG_COND_EQ ∨ c = TCG_COND_GE ∨ c = TCG_COND_GEU ∨
               c = TCG_COND_LE ∨ c = TCG_COND_LEU then 1 else 0) := by
  rcases hc with rfl|rfl|rfl|rfl|rfl|rfl|rfl|rfl|rfl|rfl <;> decide

theorem cond32_refl (v c : Nat) (hc : validCond c) :
    (do_constant_folding_cond_32 v v c).map (fun b => if b then 1 else 0) =
      do_constant_folding_cond_eq c := by
  rcases hc with rfl|rfl|rfl|rfl|rfl|rfl|rfl|rfl|rfl|rfl <;>
    simp [do_constant_folding_cond_32, do_constant_folding_cond_eq,
      TCG_COND_EQ, TCG_COND_NE, TCG_COND_LT, TCG_COND_GE, TCG_COND_LE,
      TCG_COND_GT, TCG_COND_LTU, TCG_COND_GEU, TCG_COND_LEU, TCG_COND_GTU,
      slt32]

theorem cond64_refl (v c : Nat) (hc : validCond c) :
    (do_constant_folding_cond_64 v v c).map (fun b => if b then 1 else 0) =
      do_constant_folding_cond_eq c := by
  rcases hc with rfl|rfl|rfl|rfl|rfl|rfl|rfl|rfl|rfl|rfl <;>
    simp [do_constant_folding_cond_64, do_constant_folding_cond_eq,
      TCG_COND_EQ, TCG_COND_NE, TCG_COND_LT, TCG_COND_GE, TCG_COND_LE,
      TCG_COND_GT, TCG_COND_LTU, TCG_COND_GEU, TCG_COND_LEU, TCG_COND_GTU,
      slt64]

theorem copies_state_copy {st : Temps} {x y : Nat} (hxy : x ≠ y)
    (h : temps_are_copies st x y = true) :
    (st x).state = TempState.copy ∧ (st y).state = TempState.copy := by
  rw [temps_are_copies] at h
  simp only [hxy, if_false] at h
  by_cases h1 : (st x).state = TempState.copy
  · by_cases h2 : (st y).state = TempState.copy
    · exact ⟨h1, h2⟩
    · simp [h2] at h
  · simp [h1] at h

/-- C6: whenever the two compared temps are identical or copy-equal,
`do_constant_folding_cond` returns the predicate-only answer: `1` for
EQ, GE, GEU, LE, LEU and `0` for NE, LT, LTU, GT, GTU. -/
theorem claim_C6_cond_copies (st : Temps) (op : TCGOpcode) (x y c : Nat)
    (hc : validCond c)
    (h : x = y ∨ temps_are_copies st x y = true) :
    do_constant_folding_cond st op x y c =
      some (if c = TCG_COND_EQ ∨ c = TCG_COND_GE ∨ c = TCG_COND_GEU ∨
               c = TCG_COND_LE ∨ c = TCG_COND_LEU then 1 else 0) := by
  have hcop : temps_are_copies st x y = true := by
    rcases h with rfl | h
    · rw [temps_are_copies]; simp
    · exact h
  rw [do_constant_folding_cond]
  by_cases hcc : (st x).state = TempState.const ∧
      (st y).state = TempState.const
  · have hxy : x = y := by
      by_contra hne
      exact absurd (copies_state_copy hne hcop).1 (by simp [hcc.1])
    subst hxy
    rw [if_pos hcc]
    by_cases hob : op_bits op = 32
    · rw [if_pos hob, cond32_refl _ c hc, cond_eq_val c hc]
    · rw [if_neg hob, cond64_refl _ c hc, cond_eq_val c hc]
  · rw [if_neg hcc, if_pos hcop, cond_eq_val c hc]

/-- Witness for C6: a same-temp comparison and a two-temp copy ring. -/
theorem claim_C6_cond_copies_witness :
    validCond TCG_COND_LT ∧ validCond TCG_COND_GEU ∧
    do_constant_folding_cond initTemps TCGOpcode.setcond_i32 3 3
      TCG_COND_LT = some 0 ∧
    do_constant_folding_cond
      (upd (upd initTemps 1 ⟨TempState.copy, 2, 2, 0⟩) 2
        ⟨TempState.copy, 1, 1, 0⟩)
      TCGOpcode.brcond_i64 1 2 TCG_COND_GEU = some 1 :=
  ⟨by decide, by decide,
   (claim_C6_cond_copies initTemps TCGOpcode.setcond_i32 3 3 TCG_COND_LT
       (by decide) (Or.inl rfl)).trans (by decide),
   (claim_C6_cond_copies
       (upd (upd initTemps 1 ⟨TempState.copy, 2, 2, 0⟩) 2
         ⟨TempState.copy, 1, 1, 0⟩)
       TCGOpcode.brcond_i64 1 2 TCG_COND_GEU (by decide)
       (Or.inr (by decide))).trans (by decide)⟩

/-!  Claim C8: the width check in `tcg_opt_gen_mov`. -/

/-- `reset_temp` leaves untouched any temp that is neither the reset
temp nor one of its ring neighbours. -/
theorem reset_untouched {st : Temps} (hW : WfRing st) (t u : Nat)
    (hut : u ≠ t)
    (hn : (st t).state = TempState.copy →
      u ≠ (st t).next_copy ∧ u ≠ (st t).prev_copy) :
    (reset_temp st t) u = st u := by
  by_cases hc : (st t).state = TempState.copy
  · obtain ⟨h1, h2⟩ := hn hc
    obtain ⟨Hq, Hr, Hqp, Hrn⟩ := hW t hc
    by_cases hpn : (st t).prev_copy = (st t).next_copy
    · by_cases hqt : (st t).next_copy = t
      · exact (reset_self_pt st t hc hpn hqt).2 u hut
      · exact (reset_pair_pt st t hc hpn hqt).2.2 u hut h1
    · have hqt : (st t).next_copy ≠ t := by
        intro e
        apply hpn
        rw [e] at Hqp
        rw [e, Hqp]
      have hrt : (st t).prev_copy ≠ t := by
        intro e
        apply hpn
        rw [e] at Hrn
        rw [e, Hrn]
      exact (reset_multi_pt st t hc hpn hqt hrt).2.2.2 u hut h1 h2
  · exact (reset_notcopy_pt st t hc).2 u hut

theorem gen_mov_some (ctx : Ctx) (st : Temps) (dst src : Nat)
    (hassert : ¬ ((reset_temp st dst) src).state = TempState.const) :
    ∃ st', tcg_opt_gen_mov ctx st dst src = some (st', [dst, src]) := by
  rw [tcg_opt_gen_mov]
  rw [if_neg hassert]
  exact ⟨_, rfl⟩

/-- C8: under the no-constant-source assertion, `tcg_opt_gen_mov`
always emits the mov arguments `dst, src`; when the declared types
agree (and the temps differ) `dst` is spliced into `src`'s ring
directly after `src`; when the types differ no copy relation is
recorded: `dst` is left `UNDEF` after its reset, `dst` and `src` are
not copies afterwards, and (when `src` is not the reset temp or one of
its ring neighbours) `src`'s entry is completely unchanged. -/
theorem claim_C8_gen_mov_width (ctx : Ctx) (st : Temps) (dst src : Nat)
    (hW : WfRing st)
    (hassert : ¬ ((reset_temp st dst) src).state = TempState.const) :
    ∃ st', tcg_opt_gen_mov ctx st dst src = some (st', [dst, src]) ∧
      (ctx.ttype src = ctx.ttype dst → dst ≠ src →
        (st' dst).state = TempState.copy ∧
        (st' src).state = TempState.copy ∧
        (st' src).next_copy = dst ∧ (st' dst).prev_copy = src) ∧
      (¬ ctx.ttype src = ctx.ttype dst →
        (st' dst).state = TempState.undef ∧
        (dst ≠ src → temps_are_copies st' dst src = false) ∧
        (dst ≠ src →
          ((st dst).state = TempState.copy →
            src ≠ (st dst).next_copy ∧ src ≠ (st dst).prev_copy) →
          st' src = st src)) := by
  obtain ⟨st', hrun⟩ := gen_mov_some ctx st dst src hassert
  refine ⟨st', hrun, ?_, ?_⟩
  · intro hty hds
    by_cases hBc : ((reset_temp st dst) src).state = TempState.copy
    · by_cases hqs : ((reset_temp st dst) src).next_copy = src
      · obtain ⟨_, Pd, Ps, _⟩ :=
          gen_mov_joinB1_pt ctx st dst src hassert hty hds hBc hqs
            st' [dst, src] hrun
        rw [Pd, Ps]
        exact ⟨rfl, hBc, rfl, rfl⟩
      · have hqd : ((reset_temp st dst) src).next_copy ≠ dst := by
          obtain ⟨_, hsp⟩ := reset_temp_spec st dst hW
          exact (hsp src hBc).2.2.1
        obtain ⟨_, Pd, Ps, _, _⟩ :=
          gen_mov_joinB2_pt ctx st dst src hassert hty hds hBc hqs hqd
            st' [dst, src] hrun
        rw [Pd, Ps]
        exact ⟨rfl, hBc, rfl, rfl⟩
    · obtain ⟨_, Pd, Ps, _⟩ :=
        gen_mov_joinA_pt ctx st dst src hassert hty hds hBc
          st' [dst, src] hrun
      rw [Pd, Ps]
      exact ⟨rfl, rfl, rfl, rfl⟩
  · intro hty
    have heq : st' = reset_temp st dst := by
      rw [gen_mov_mismatch_pt ctx st dst src hassert hty] at hrun
      rw [Option.some.injEq, Prod.mk.injEq] at hrun
      exact hrun.1.symm
    subst heq
    refine ⟨reset_state_self st dst, ?_, ?_⟩
    · intro hds
      rw [temps_are_copies]
      simp [hds, reset_state_self]
    · intro hds hneigh
      exact reset_untouched hW dst src (Ne.symm hds) hneigh

/-- Witness for C8 at a type-mismatched and a type-matched pair. -/
theorem claim_C8_gen_mov_width_witness :
    (tcg_opt_gen_mov ⟨1, 4, (fun i => decide (i = 2)), fun _ => false⟩
        initTemps 0 2).map
      (fun r => (r.2, (r.1 0).state, temps_are_copies r.1 0 2)) =
        some ([0, 2], TempState.undef, false) ∧
    (tcg_opt_gen_mov ⟨1, 4, (fun _ => false), fun _ => false⟩
        initTemps 0 2).map
      (fun r => (r.2, (r.1 0).state, (r.1 2).next_copy,
        (r.1 0).prev_copy)) =
        some ([0, 2], TempState.copy, 0, 2) := by
  constructor
  · obtain ⟨st', hrun, _, hmis⟩ :=
      claim_C8_gen_mov_width
        ⟨1, 4, (fun i => decide (i = 2)), fun _ => false⟩ initTemps 0 2
        (fun t ht => absurd ht (by simp [initTemps, TempInfo.zero]))
        (by decide)
    obtain ⟨hundef, hcopies, _⟩ := hmis (by decide)
    rw [hrun, Option.map]
    rw [hundef, hcopies (by decide)]
  · obtain ⟨st', hrun, hjoin, _⟩ :=
      claim_C8_gen_mov_width
        ⟨1, 4, (fun _ => false), fun _ => false⟩ initTemps 0 2
        (fun t ht => absurd ht (by simp [initTemps, TempInfo.zero]))
        (by decide)
    obtain ⟨hcopy, _, hnext, hprev⟩ := hjoin rfl (by decide)
    rw [hrun, Option.map]
    rw [hcopy, hnext, hprev]

/-!  Claim C5: the write cursor never overtakes the read cursor. -/

theorem class_props : ∀ op : TCGOpcode,
    (op.isMov || op.isMovi || op.isShiftRot || op.isZeroRightMov ||
     op.isZeroRightMovi || op.isOrAnd || op.isSubXor || op.isUnaryFold ||
     op.isBinaryFold || op.isDeposit || op.isSetcond || op.isBrcond ||
     op.isMovcond) = true →
    ¬ op = TCGOpcode.call ∧ 2 ≤ op.nb_args := by
  intro op h
  cases op <;> first
    | exact ⟨by decide, by decide⟩
    | exact Bool.noConfusion h

theorem argCount_ge {op : TCGOpcode} (args : List Nat)
    (h : (op.isMov || op.isMovi || op.isShiftRot || op.isZeroRightMov ||
      op.isZeroRightMovi || op.isOrAnd || op.isSubXor || op.isUnaryFold ||
      op.isBinaryFold || op.isDeposit || op.isSetcond || op.isBrcond ||
      op.isMovcond) = true) : 2 ≤ argCount op args := by
  obtain ⟨hnc, hge⟩ := class_props op h
  rw [argCount, if_neg hnc]
  exact hge

theorem copy_propagate_length (ctx : Ctx) (st : Temps) (op : TCGOpcode)
    (a : List Nat) : (copy_propagate ctx st op a).length = a.length := by
  rw [copy_propagate]
  exact List.length_mapIdx

theorem canonicalize_length (st : Temps) (op : TCGOpcode) (a : List Nat) :
    (canonicalize st op a).length = a.length := by
  delta canonicalize
  split_ifs <;>
    rcases a with _ | ⟨a0, _ | ⟨a1, _ | ⟨a2, _ | ⟨a3, _ | ⟨a4, _ |
      ⟨a5, rest⟩⟩⟩⟩⟩⟩ <;> simp

theorem gen_mov_em {ctx : Ctx} {st : Temps} {d s : Nat} {st' : Temps}
    {em : List Nat} (h : tcg_opt_gen_mov ctx st d s = some (st', em)) :
    em = [d, s] := by
  simp only [tcg_opt_gen_mov] at h
  by_cases hc : ((reset_temp st d) s).state = TempState.const
  · rw [if_pos hc] at h
    exact Option.noConfusion h
  · rw [if_neg hc] at h
    rw [Option.some.injEq, Prod.mk.injEq] at h
    exact h.2.symm

theorem gen_movi_em (st : Temps) (d v : Nat) :
    (tcg_opt_gen_movi st d v).2 = [d, v] := rfl

theorem bigSwitch_len {ctx : Ctx} {st : Temps} {op : TCGOpcode}
    {nx : Option TCGOpcode} {a : List Nat} {k : Nat} {st' : Temps}
    {opsO : List TCGOpcode} {em : List Nat} {k' extra : Nat}
    (ha : a.length = k) (hk : ¬ op = TCGOpcode.call → k = op.nb_args)
    (h : bigSwitch ctx st op nx a k = some (st', opsO, em, k', extra)) :
    em.length ≤ k ∧ k' = k := by
  have hcls :
      (op.isMov || op.isMovi || op.isShiftRot || op.isZeroRightMov ||
       op.isZeroRightMovi || op.isOrAnd || op.isSubXor || op.isUnaryFold ||
       op.isBinaryFold || op.isDeposit || op.isSetcond || op.isBrcond ||
       op.isMovcond) = true → 2 ≤ k := by
    intro hb
    obtain ⟨hnc, hge⟩ := class_props op hb
    rw [hk hnc]
    exact hge
  have step1 : ∀ X1 X2 X3 X5,
      (some (X1, X2, X3, k, X5) :
        Option (Temps × List TCGOpcode × List Nat × Nat × Nat)) =
        some (st', opsO, em, k', extra) →
      X3.length ≤ k → em.length ≤ k ∧ k' = k := by
    intro X1 X2 X3 X5 he hlen
    rw [Option.some.injEq, Prod.mk.injEq, Prod.mk.injEq, Prod.mk.injEq,
      Prod.mk.injEq] at he
    refine ⟨?_, he.2.2.2.1.symm⟩
    rw [← he.2.2.1]
    exact hlen
  have hdef : ∀ st0 : Temps,
      (some (st0, [op], a, k, 0) :
        Option (Temps × List TCGOpcode × List Nat × Nat × Nat)) =
        some (st', opsO, em, k', extra) → em.length ≤ k ∧ k' = k :=
    fun st0 he => step1 _ _ _ _ he (le_of_eq ha)
  simp only [bigSwitch] at h
  by_cases c1 : op.isMov = true
  · rw [if_pos c1] at h
    by_cases t1 : temps_are_copies st (a.getD 0 0) (a.getD 1 0) = true
    · rw [if_pos t1] at h
      exact step1 _ _ _ _ h (by simp)
    · rw [if_neg t1] at h
      by_cases t2 : (st (a.getD 1 0)).state ≠ TempState.const
      · rw [if_pos t2] at h
        cases hgm : tcg_opt_gen_mov ctx st (a.getD 0 0) (a.getD 1 0) with
        | none => rw [hgm] at h; exact Option.noConfusion h
        | some p =>
          obtain ⟨stx, emx⟩ := p
          rw [hgm] at h
          simp only [] at h
          refine step1 _ _ _ _ h ?_
          rw [gen_mov_em hgm]
          exact le_trans (by simp) (hcls (by simp [c1]))
      · rw [if_neg t2] at h
        refine step1 _ _ _ _ h ?_
        rw [gen_movi_em]
        exact le_trans (by simp) (hcls (by simp [c1]))
  · rw [if_neg c1] at h
    by_cases c2 : op.isMovi = true
    · rw [if_pos c2] at h
      refine step1 _ _ _ _ h ?_
      rw [gen_movi_em]
      exact le_trans (by simp) (hcls (by simp [c2]))
    · rw [if_neg c2] at h
      by_cases c3 : op.isUnaryFold = true
      · rw [if_pos c3] at h
        by_cases t3 : (st (a.getD 1 0)).state = TempState.const
        · rw [if_pos t3] at h
          cases hdc : do_constant_folding op ((st (a.getD 1 0)).val) 0 with
          | none => rw [hdc] at h; exact Option.noConfusion h
          | some tmp =>
            rw [hdc] at h
            simp only [] at h
            refine step1 _ _ _ _ h ?_
            rw [gen_movi_em]
            exact le_trans (by simp) (hcls (by simp [c3]))
        · rw [if_neg t3] at h
          exact hdef _ h
      · rw [if_neg c3] at h
        by_cases c4 : op.isBinaryFold = true
        · rw [if_pos c4] at h
          by_cases t4 : (st (a.getD 1 0)).state = TempState.const ∧
              (st (a.getD 2 0)).state = TempState.const
          · rw [if_pos t4] at h
            cases hdc : do_constant_folding op ((st (a.getD 1 0)).val)
                ((st (a.getD 2 0)).val) with
            | none => rw [hdc] at h; exact Option.noConfusion h
            | some tmp =>
              rw [hdc] at h
              simp only [] at h
              refine step1 _ _ _ _ h ?_
              rw [gen_movi_em]
              exact le_trans (by simp) (hcls (by simp [c4]))
          · rw [if_neg t4] at h
            exact hdef _ h
        · rw [if_neg c4] at h
          by_cases c5 : op.isDeposit = true
          · rw [if_pos c5] at h
            by_cases t5 : (st (a.getD 1 0)).state = TempState.const ∧
                (st (a.getD 2 0)).state = TempState.const
            · rw [if_pos t5] at h
              refine step1 _ _ _ _ h ?_
              rw [gen_movi_em]
              exact le_trans (by simp) (hcls (by simp [c5]))
            · rw [if_neg t5] at h
              exact hdef _ h
          · rw [if_neg c5] at h
            by_cases c6 : op.isSetcond = true
            · rw [if_pos c6] at h
              cases hdc : do_constant_folding_cond st op (a.getD 1 0)
                  (a.getD 2 0) (a.getD 3 0) with
              | none => rw [hdc] at h; exact Option.noConfusion h
              | some tmp =>
                rw [hdc] at h
                simp only [] at h
                by_cases t6 : tmp ≠ 2
                · rw [if_pos t6] at h
                  refine step1 _ _ _ _ h ?_
                  rw [gen_movi_em]
                  exact le_trans (by simp) (hcls (by simp [c6]))
                · rw [if_neg t6] at h
                  exact hdef _ h
            · rw [if_neg c6] at h
              by_cases c7 : op.isBrcond = true
              · rw [if_pos c7] at h
                cases hdc : do_constant_folding_cond st op (a.getD 0 0)
                    (a.getD 1 0) (a.getD 2 0) with
                | none => rw [hdc] at h; exact Option.noConfusion h
                | some tmp =>
                  rw [hdc] at h
                  simp only [] at h
                  by_cases t7 : tmp ≠ 2
                  · rw [if_pos t7] at h
                    by_cases t8 : tmp ≠ 0
                    · rw [if_pos t8] at h
                      refine step1 _ _ _ _ h ?_
                      exact le_trans (by simp) (hcls (by simp [c7]))
                    · rw [if_neg t8] at h
                      exact step1 _ _ _ _ h (by simp)
                  · rw [if_neg t7] at h
                    exact hdef _ h
              · rw [if_neg c7] at h
                by_cases c8 : op.isMovcond = true
                · rw [if_pos c8] at h
                  cases hdc : do_constant_folding_cond st op (a.getD 1 0)
                      (a.getD 2 0) (a.getD 5 0) with
                  | none => rw [hdc] at h; exact Option.noConfusion h
                  | some tmp =>
                    rw [hdc] at h
                    simp only [] at h
                    by_cases t9 : tmp ≠ 2
                    · rw [if_pos t9] at h
                      by_cases t10 : temps_are_copies st (a.getD 0 0)
                          (a.getD (4 - tmp) 0) = true
                      · rw [if_pos t10] at h
                        exact step1 _ _ _ _ h (by simp)
                      · rw [if_neg t10] at h
                        by_cases t11 : (st (a.getD (4 - tmp) 0)).state =
                            TempState.const
                        · rw [if_pos t11] at h
                          refine step1 _ _ _ _ h ?_
                          rw [gen_movi_em]
                          exact le_trans (by simp) (hcls (by simp [c8]))
                        · rw [if_neg t11] at h
                          cases hgm : tcg_opt_gen_mov ctx st (a.getD 0 0)
                              (a.getD (4 - tmp) 0) with
                          | none => rw [hgm] at h; exact Option.noConfusion h
                          | some p =>
                            obtain ⟨stx, emx⟩ := p
                            rw [hgm] at h
                            simp only [] at h
                            refine step1 _ _ _ _ h ?_
                            rw [gen_mov_em hgm]
                            exact le_trans (by simp) (hcls (by simp [c8]))
                    · rw [if_neg t9] at h
                      exact hdef _ h
                · rw [if_neg c8] at h
                  by_cases c9 : op = TCGOpcode.add2_i32 ∨
                      op = TCGOpcode.sub2_i32
                  · rw [if_pos c9] at h
                    have hk6 : k = 6 := by
                      rcases c9 with rfl | rfl <;>
                        simpa using hk (by decide)
                    by_cases t12 : (st (a.getD 2 0)).state =
                          TempState.const ∧
                        (st (a.getD 3 0)).state = TempState.const ∧
                        (st (a.getD 4 0)).state = TempState.const ∧
                        (st (a.getD 5 0)).state = TempState.const
                    · rw [if_pos t12] at h
                      by_cases t13 : nx = some TCGOpcode.nop
                      · rw [if_pos t13] at h
                        refine step1 _ _ _ _ h ?_
                        rw [List.length_append, gen_movi_em, gen_movi_em]
                        rw [hk6]
                        simp
                      · rw [if_neg t13] at h
                        exact Option.noConfusion h
                    · rw [if_neg t12] at h
                      exact hdef _ h
                  · rw [if_neg c9] at h
                    by_cases c10 : op = TCGOpcode.mulu2_i32
                    · rw [if_pos c10] at h
                      have hk4 : k = 4 := by
                        subst c10
                        simpa using hk (by decide)
                      by_cases t14 : (st (a.getD 2 0)).state =
                            TempState.const ∧
                          (st (a.getD 3 0)).state = TempState.const
                      · rw [if_pos t14] at h
                        by_cases t15 : nx = some TCGOpcode.nop
                        · rw [if_pos t15] at h
                          refine step1 _ _ _ _ h ?_
                          rw [List.length_append, gen_movi_em, gen_movi_em]
                          rw [hk4]
                          simp
                        · rw [if_neg t15] at h
                          exact Option.noConfusion h
                      · rw [if_neg t14] at h
                        exact hdef _ h
                    · rw [if_neg c10] at h
                      by_cases c11 : op = TCGOpcode.brcond2_i32
                      · rw [if_pos c11] at h
                        have hk6 : k = 6 := by
                          subst c11
                          simpa using hk (by decide)
                        cases hdc : do_constant_folding_cond2 st
                            (a.getD 0 0) (a.getD 1 0) (a.getD 2 0)
                            (a.getD 3 0) (a.getD 4 0) with
                        | none => rw [hdc] at h; exact Option.noConfusion h
                        | some tmp =>
                          rw [hdc] at h
                          simp only [] at h
                          by_cases t16 : tmp ≠ 2
                          · rw [if_pos t16] at h
                            by_cases t17 : tmp ≠ 0
                            · rw [if_pos t17] at h
                              refine step1 _ _ _ _ h ?_
                              rw [hk6]
                              simp
                            · rw [if_neg t17] at h
                              exact step1 _ _ _ _ h (by simp)
                          · rw [if_neg t16] at h
                            by_cases t18 : (a.getD 4 0 = TCG_COND_LT ∨
                                  a.getD 4 0 = TCG_COND_GE) ∧
                                (st (a.getD 2 0)).state = TempState.const ∧
                                (st (a.getD 3 0)).state = TempState.const ∧
                                (st (a.getD 2 0)).val = 0 ∧
                                (st (a.getD 3 0)).val = 0
                            · rw [if_pos t18] at h
                              refine step1 _ _ _ _ h ?_
                              rw [hk6]
                              simp
                            · rw [if_neg t18] at h
                              exact hdef _ h
                      · rw [if_neg c11] at h
                        by_cases c12 : op = TCGOpcode.setcond2_i32
                        · rw [if_pos c12] at h
                          have hk6 : k = 6 := by
                            subst c12
                            simpa using hk (by decide)
                          cases hdc : do_constant_folding_cond2 st
                              (a.getD 1 0) (a.getD 2 0) (a.getD 3 0)
                              (a.getD 4 0) (a.getD 5 0) with
                          | none =>
                            rw [hdc] at h; exact Option.noConfusion h
                          | some tmp =>
                            rw [hdc] at h
                            simp only [] at h
                            by_cases t19 : tmp ≠ 2
                            · rw [if_pos t19] at h
                              refine step1 _ _ _ _ h ?_
                              rw [gen_movi_em]
                              rw [hk6]
                              simp
                            · rw [if_neg t19] at h
                              by_cases t20 : (a.getD 5 0 = TCG_COND_LT ∨
                                    a.getD 5 0 = TCG_COND_GE) ∧
                                  (st (a.getD 3 0)).state =
                                    TempState.const ∧
                                  (st (a.getD 4 0)).state =
                                    TempState.const ∧
                                  (st (a.getD 3 0)).val = 0 ∧
                                  (st (a.getD 4 0)).val = 0
                              · rw [if_pos t20] at h
                                refine step1 _ _ _ _ h ?_
                                rw [hk6]
                                simp
                              · rw [if_neg t20] at h
                                exact hdef _ h
                        · rw [if_neg c12] at h
                          by_cases c13 : op = TCGOpcode.call
                          · rw [if_pos c13] at h
                            exact step1 _ _ _ _ h (le_of_eq ha)
                          · rw [if_neg c13] at h
                            exact hdef _ h

theorem step_len {ctx : Ctx} {st : Temps} {op : TCGOpcode}
    {nx : Option TCGOpcode} {args : List Nat} {st' : Temps}
    {opsO : List TCGOpcode} {em : List Nat} {k' extra : Nat}
    (h : step ctx st op nx args = some (st', opsO, em, k', extra)) :
    em.length ≤ k' ∧ k' ≤ args.length ∧ k' = argCount op args := by
  simp only [step] at h
  by_cases hl : args.length < argCount op args
  · rw [if_pos hl] at h
    exact Option.noConfusion h
  · rw [if_neg hl] at h
    have hka : argCount op args ≤ args.length := not_lt.mp hl
    have step1 : ∀ (X1 : Temps) (X2 : List TCGOpcode) (X3 : List Nat)
        (X5 : Nat),
        (some (X1, X2, X3, argCount op args, X5) :
          Option (Temps × List TCGOpcode × List Nat × Nat × Nat)) =
          some (st', opsO, em, k', extra) →
        X3.length ≤ argCount op args →
        em.length ≤ k' ∧ k' ≤ args.length ∧ k' = argCount op args := by
      intro X1 X2 X3 X5 he hlen
      rw [Option.some.injEq, Prod.mk.injEq, Prod.mk.injEq, Prod.mk.injEq,
        Prod.mk.injEq] at he
      refine ⟨?_, ?_, he.2.2.2.1.symm⟩
      · rw [← he.2.2.1, ← he.2.2.2.1]
        exact hlen
      · rw [← he.2.2.2.1]
        exact hka
    generalize hA : canonicalize st op
      (copy_propagate ctx st op (args.take (argCount op args))) = a at h
    have ha : a.length = argCount op args := by
      rw [← hA, canonicalize_length, copy_propagate_length,
        List.length_take]
      omega
    by_cases c1 : op.isShiftRot = true ∧
        (st (a.getD 1 0)).state = TempState.const ∧
        (st (a.getD 1 0)).val = 0
    · rw [if_pos c1] at h
      refine step1 _ _ _ _ h ?_
      rw [gen_movi_em]
      exact le_trans (by simp) (argCount_ge args (by simp [c1.1]))
    · rw [if_neg c1] at h
      by_cases c2 : op.isZeroRightMov = true ∧
          (st (a.getD 1 0)).state ≠ TempState.const ∧
          (st (a.getD 2 0)).state = TempState.const ∧
          (st (a.getD 2 0)).val = 0
      · rw [if_pos c2] at h
        by_cases t1 : temps_are_copies st (a.getD 0 0) (a.getD 1 0) = true
        · rw [if_pos t1] at h
          exact step1 _ _ _ _ h (by simp)
        · rw [if_neg t1] at h
          cases hgm : tcg_opt_gen_mov ctx st (a.getD 0 0) (a.getD 1 0) with
          | none => rw [hgm] at h; exact Option.noConfusion h
          | some p =>
            obtain ⟨stx, emx⟩ := p
            rw [hgm] at h
            simp only [] at h
            refine step1 _ _ _ _ h ?_
            rw [gen_mov_em hgm]
            exact le_trans (by simp) (argCount_ge args (by simp [c2.1]))
      · rw [if_neg c2] at h
        by_cases c3 : op.isZeroRightMovi = true ∧
            (st (a.getD 2 0)).state = TempState.const ∧
            (st (a.getD 2 0)).val = 0
        · rw [if_pos c3] at h
          refine step1 _ _ _ _ h ?_
          rw [gen_movi_em]
          exact le_trans (by simp) (argCount_ge args (by simp [c3.1]))
        · rw [if_neg c3] at h
          by_cases c4 : op.isOrAnd = true ∧
              temps_are_copies st (a.getD 1 0) (a.getD 2 0) = true
          · rw [if_pos c4] at h
            by_cases t2 : temps_are_copies st (a.getD 0 0) (a.getD 1 0) =
                true
            · rw [if_pos t2] at h
              exact step1 _ _ _ _ h (by simp)
            · rw [if_neg t2] at h
              cases hgm : tcg_opt_gen_mov ctx st (a.getD 0 0)
                  (a.getD 1 0) with
              | none => rw [hgm] at h; exact Option.noConfusion h
              | some p =>
                obtain ⟨stx, emx⟩ := p
                rw [hgm] at h
                simp only [] at h
                refine step1 _ _ _ _ h ?_
                rw [gen_mov_em hgm]
                exact le_trans (by simp)
                  (argCount_ge args (by simp [c4.1]))
          · rw [if_neg c4] at h
            by_cases c5 : op.isSubXor = true ∧
                temps_are_copies st (a.getD 1 0) (a.getD 2 0) = true
            · rw [if_pos c5] at h
              refine step1 _ _ _ _ h ?_
              rw [gen_movi_em]
              exact le_trans (by simp)
                (argCount_ge args (by simp [c5.1]))
            · rw [if_neg c5] at h
              have hk : ¬ op = TCGOpcode.call →
                  argCount op args = op.nb_args := by
                intro hnc
                rw [argCount, if_neg hnc]
              obtain ⟨h1, h2⟩ := bigSwitch_len ha hk h
              exact ⟨h2 ▸ h1, h2 ▸ hka, h2⟩

theorem optrun_len (ctx : Ctx) : ∀ (fuel : Nat) (ops : List TCGOpcode)
    (st : Temps) (args : List Nat) {stF : Temps} {opsF : List TCGOpcode}
    {emF leftover : List Nat},
    optrun ctx fuel st ops args = some (stF, opsF, emF, leftover) →
    emF.length + leftover.length ≤ args.length := by
  intro fuel
  induction fuel with
  | zero =>
    intro ops st args stF opsF emF leftover h
    cases ops with
    | nil =>
      simp only [optrun, Option.some.injEq, Prod.mk.injEq] at h
      rw [← h.2.2.1, ← h.2.2.2]
      simp
    | cons op rest =>
      simp only [optrun] at h
      exact Option.noConfusion h
  | succ fuel ih =>
    intro ops st args stF opsF emF leftover h
    cases ops with
    | nil =>
      simp only [optrun, Option.some.injEq, Prod.mk.injEq] at h
      rw [← h.2.2.1, ← h.2.2.2]
      simp
    | cons op rest =>
      simp only [optrun] at h
      cases hs : step ctx st op rest.head? args with
      | none => rw [hs] at h; exact Option.noConfusion h
      | some r =>
        obtain ⟨st1, opsO, em, k, extra⟩ := r
        rw [hs] at h
        simp only [] at h
        cases hr : optrun ctx fuel st1 (rest.drop extra) (args.drop k) with
        | none => rw [hr] at h; exact Option.noConfusion h
        | some r2 =>
          obtain ⟨st2, opsF2, emF2, left2⟩ := r2
          rw [hr] at h
          simp only [] at h
          rw [Option.some.injEq, Prod.mk.injEq, Prod.mk.injEq,
            Prod.mk.injEq] at h
          obtain ⟨h1, h2, h3, h4⟩ := h
          obtain ⟨hs1, hs2, -⟩ := step_len hs
          have hrec := ih (rest.drop extra) st1 (args.drop k) hr
          rw [List.length_drop] at hrec
          rw [← h3, ← h4, List.length_append]
          omega

/-- C5: the write cursor never passes the read cursor.  For every input
stream and every prefix of it (i.e. at every step of the driver's scan),
a successful run of the pass returns an emitted output-argument list
`emF` and an unconsumed input suffix `leftover` such that the output
cursor `emF.length` is at most the number of input arguments consumed,
`args.length - leftover.length`; hence the total output argument count
never exceeds the input argument count. -/
theorem claim_C5_cursor (ctx : Ctx) (ops : List TCGOpcode)
    (args : List Nat) (n : Nat) {stF : Temps} {opsF : List TCGOpcode}
    {emF leftover : List Nat}
    (h : tcg_optimize ctx (ops.take n) args =
      some (stF, opsF, emF, leftover)) :
    emF.length ≤ args.length - leftover.length ∧
    emF.length + leftover.length ≤ args.length := by
  rw [tcg_optimize] at h
  have := optrun_len ctx (ops.take n).length (ops.take n) initTemps args h
  omega

theorem claim_C5_cursor_witness :
    tcg_optimize (⟨0, 3, fun _ => false, fun _ => false⟩ : Ctx)
        ([TCGOpcode.movi_i32, TCGOpcode.add_i32].take 2) [0, 7, 2, 0, 0] =
      some ((tcg_optimize (⟨0, 3, fun _ => false, fun _ => false⟩ : Ctx)
          ([TCGOpcode.movi_i32, TCGOpcode.add_i32].take 2)
          [0, 7, 2, 0, 0]).elim initTemps (fun r => r.1),
        [TCGOpcode.movi_i32, TCGOpcode.movi_i32], [0, 7, 2, 14], []) ∧
    ([0, 7, 2, 14] : List Nat).length ≤
      ([0, 7, 2, 0, 0] : List Nat).length - ([] : List Nat).length ∧
    ([0, 7, 2, 14] : List Nat).length + ([] : List Nat).length ≤
      ([0, 7, 2, 0, 0] : List Nat).length := by
  have hres : tcg_optimize (⟨0, 3, fun _ => false, fun _ => false⟩ : Ctx)
        ([TCGOpcode.movi_i32, TCGOpcode.add_i32].take 2) [0, 7, 2, 0, 0] =
      some ((tcg_optimize (⟨0, 3, fun _ => false, fun _ => false⟩ : Ctx)
          ([TCGOpcode.movi_i32, TCGOpcode.add_i32].take 2)
          [0, 7, 2, 0, 0]).elim initTemps (fun r => r.1),
        [TCGOpcode.movi_i32, TCGOpcode.movi_i32], [0, 7, 2, 14], []) := rfl
  exact ⟨hres,
    claim_C5_cursor (⟨0, 3, fun _ => false, fun _ => false⟩ : Ctx)
      [TCGOpcode.movi_i32, TCGOpcode.add_i32] [0, 7, 2, 0, 0] 2 hres⟩

set_option maxHeartbeats 1600000 in
/-- C10: processing a `brcond` whose condition folds to false replaces
the operation by `nop`, emits no output arguments, and returns the temp
state table exactly unchanged — no temp is reset, so every `CONST` and
`COPY` fact survives for later operations.  In contrast (second
conjunct) a condition folding to a nonzero value emits `br` and wipes
the whole table with `memset`. -/
theorem claim_C10_brcond_false {ctx : Ctx} {st : Temps} {op : TCGOpcode}
    {nx : Option TCGOpcode} {args a : List Nat}
    (hb : op.isBrcond = true)
    (hlen : argCount op args ≤ args.length)
    (ha : canonicalize st op
      (copy_propagate ctx st op (args.take (argCount op args))) = a) :
    (do_constant_folding_cond st op (a.getD 0 0) (a.getD 1 0)
        (a.getD 2 0) = some 0 →
      step ctx st op nx args =
        some (st, [TCGOpcode.nop], [], argCount op args, 0)) ∧
    (∀ t, do_constant_folding_cond st op (a.getD 0 0) (a.getD 1 0)
        (a.getD 2 0) = some t → ¬ t = 0 → ¬ t = 2 →
      step ctx st op nx args =
        some (memsetTemps ctx.nb_temps st, [TCGOpcode.br],
          [a.getD 3 0], argCount op args, 0)) := by
  cases op <;> try exact Bool.noConfusion hb
  all_goals constructor
  all_goals first
    | (intro hf
       simp [step, bigSwitch, ha, hf, if_neg (not_lt.mpr hlen),
         TCGOpcode.isShiftRot, TCGOpcode.isZeroRightMov,
         TCGOpcode.isZeroRightMovi, TCGOpcode.isOrAnd,
         TCGOpcode.isSubXor, TCGOpcode.isMov, TCGOpcode.isMovi,
         TCGOpcode.isUnaryFold, TCGOpcode.isBinaryFold,
         TCGOpcode.isDeposit, TCGOpcode.isSetcond, TCGOpcode.isBrcond,
         TCGOpcode.isMovcond, -List.getD_eq_getElem?_getD])
    | (intro t hf ht0 ht2
       simp [step, bigSwitch, ha, hf, if_neg (not_lt.mpr hlen),
         TCGOpcode.isShiftRot, TCGOpcode.isZeroRightMov,
         TCGOpcode.isZeroRightMovi, TCGOpcode.isOrAnd,
         TCGOpcode.isSubXor, TCGOpcode.isMov, TCGOpcode.isMovi,
         TCGOpcode.isUnaryFold, TCGOpcode.isBinaryFold,
         TCGOpcode.isDeposit, TCGOpcode.isSetcond, TCGOpcode.isBrcond,
         TCGOpcode.isMovcond, ht0, ht2, -List.getD_eq_getElem?_getD])

theorem claim_C10_brcond_false_witness :
    do_constant_folding_cond
        (tcg_opt_gen_movi (tcg_opt_gen_movi initTemps 0 5).1 1 7).1
        TCGOpcode.brcond_i32 0 1 8 = some 0 ∧
    step (⟨0, 3, fun _ => false, fun _ => false⟩ : Ctx)
        (tcg_opt_gen_movi (tcg_opt_gen_movi initTemps 0 5).1 1 7).1
        TCGOpcode.brcond_i32 none [0, 1, 8, 9] =
      some ((tcg_opt_gen_movi (tcg_opt_gen_movi initTemps 0 5).1 1 7).1,
        [TCGOpcode.nop], [],
        argCount TCGOpcode.brcond_i32 [0, 1, 8, 9], 0) := by
  have hf : do_constant_folding_cond
      (tcg_opt_gen_movi (tcg_opt_gen_movi initTemps 0 5).1 1 7).1
      TCGOpcode.brcond_i32 0 1 8 = some 0 := rfl
  exact ⟨hf,
    (claim_C10_brcond_false (by decide) (by decide) rfl).1 hf⟩

/-- C7: when a double-word `brcond2_i32` (resp. `setcond2_i32`) cannot
be folded outright but the predicate is `LT` or `GE` and both
right-hand-side halves are constant zero, the operation is rewritten to
a single-word `brcond_i32` (resp. `setcond_i32`) comparing only the
high halves — left high half against right high half — with the
predicate and the label (resp. destination temp) unchanged. -/
theorem claim_C7_highhalf {ctx : Ctx} {st : Temps}
    {nx : Option TCGOpcode} {args a : List Nat} :
    (argCount TCGOpcode.brcond2_i32 args ≤ args.length →
     canonicalize st TCGOpcode.brcond2_i32 (copy_propagate ctx st
       TCGOpcode.brcond2_i32
       (args.take (argCount TCGOpcode.brcond2_i32 args))) = a →
     do_constant_folding_cond2 st (a.getD 0 0) (a.getD 1 0) (a.getD 2 0)
       (a.getD 3 0) (a.getD 4 0) = some 2 →
     (a.getD 4 0 = TCG_COND_LT ∨ a.getD 4 0 = TCG_COND_GE) →
     (st (a.getD 2 0)).state = TempState.const →
     (st (a.getD 3 0)).state = TempState.const →
     (st (a.getD 2 0)).val = 0 → (st (a.getD 3 0)).val = 0 →
     step ctx st TCGOpcode.brcond2_i32 nx args =
       some (memsetTemps ctx.nb_temps st, [TCGOpcode.brcond_i32],
         [a.getD 1 0, a.getD 3 0, a.getD 4 0, a.getD 5 0],
         argCount TCGOpcode.brcond2_i32 args, 0)) ∧
    (argCount TCGOpcode.setcond2_i32 args ≤ args.length →
     canonicalize st TCGOpcode.setcond2_i32 (copy_propagate ctx st
       TCGOpcode.setcond2_i32
       (args.take (argCount TCGOpcode.setcond2_i32 args))) = a →
     do_constant_folding_cond2 st (a.getD 1 0) (a.getD 2 0) (a.getD 3 0)
       (a.getD 4 0) (a.getD 5 0) = some 2 →
     (a.getD 5 0 = TCG_COND_LT ∨ a.getD 5 0 = TCG_COND_GE) →
     (st (a.getD 3 0)).state = TempState.const →
     (st (a.getD 4 0)).state = TempState.const →
     (st (a.getD 3 0)).val = 0 → (st (a.getD 4 0)).val = 0 →
     step ctx st TCGOpcode.setcond2_i32 nx args =
       some (st, [TCGOpcode.setcond_i32],
         [a.getD 0 0, a.getD 2 0, a.getD 4 0, a.getD 5 0],
         argCount TCGOpcode.setcond2_i32 args, 0)) := by
  constructor
  · intro hlen ha hf hc h2 h3 h4 h5
    have hz : (a.getD 4 0 = TCG_COND_LT ∨ a.getD 4 0 = TCG_COND_GE) ∧
        (st (a.getD 2 0)).state = TempState.const ∧
        (st (a.getD 3 0)).state = TempState.const ∧
        (st (a.getD 2 0)).val = 0 ∧ (st (a.getD 3 0)).val = 0 :=
      ⟨hc, h2, h3, h4, h5⟩
    simp [step, bigSwitch, ha, hf, if_neg (not_lt.mpr hlen),
      if_pos hz, TCGOpcode.isShiftRot, TCGOpcode.isZeroRightMov,
      TCGOpcode.isZeroRightMovi, TCGOpcode.isOrAnd, TCGOpcode.isSubXor,
      TCGOpcode.isMov, TCGOpcode.isMovi, TCGOpcode.isUnaryFold,
      TCGOpcode.isBinaryFold, TCGOpcode.isDeposit, TCGOpcode.isSetcond,
      TCGOpcode.isBrcond, TCGOpcode.isMovcond,
      -List.getD_eq_getElem?_getD]
  · intro hlen ha hf hc h2 h3 h4 h5
    have hz : (a.getD 5 0 = TCG_COND_LT ∨ a.getD 5 0 = TCG_COND_GE) ∧
        (st (a.getD 3 0)).state = TempState.const ∧
        (st (a.getD 4 0)).state = TempState.const ∧
        (st (a.getD 3 0)).val = 0 ∧ (st (a.getD 4 0)).val = 0 :=
      ⟨hc, h2, h3, h4, h5⟩
    simp [step, bigSwitch, ha, hf, if_neg (not_lt.mpr hlen),
      if_pos hz, TCGOpcode.isShiftRot, TCGOpcode.isZeroRightMov,
      TCGOpcode.isZeroRightMovi, TCGOpcode.isOrAnd, TCGOpcode.isSubXor,
      TCGOpcode.isMov, TCGOpcode.isMovi, TCGOpcode.isUnaryFold,
      TCGOpcode.isBinaryFold, TCGOpcode.isDeposit, TCGOpcode.isSetcond,
      TCGOpcode.isBrcond, TCGOpcode.isMovcond,
      -List.getD_eq_getElem?_getD]

theorem claim_C7_highhalf_witness :
    step (⟨0, 4, fun _ => false, fun _ => false⟩ : Ctx)
        (tcg_opt_gen_movi (tcg_opt_gen_movi initTemps 2 0).1 3 0).1
        TCGOpcode.brcond2_i32 none [0, 1, 2, 3, 2, 9] =
      some (memsetTemps
          (⟨0, 4, fun _ => false, fun _ => false⟩ : Ctx).nb_temps
          (tcg_opt_gen_movi (tcg_opt_gen_movi initTemps 2 0).1 3 0).1,
        [TCGOpcode.brcond_i32], [1, 3, 2, 9],
        argCount TCGOpcode.brcond2_i32 [0, 1, 2, 3, 2, 9], 0) ∧
    step (⟨0, 5, fun _ => false, fun _ => false⟩ : Ctx)
        (tcg_opt_gen_movi (tcg_opt_gen_movi initTemps 3 0).1 4 0).1
        TCGOpcode.setcond2_i32 none [0, 1, 2, 3, 4, 2] =
      some ((tcg_opt_gen_movi (tcg_opt_gen_movi initTemps 3 0).1 4 0).1,
        [TCGOpcode.setcond_i32], [0, 2, 4, 2],
        argCount TCGOpcode.setcond2_i32 [0, 1, 2, 3, 4, 2], 0) :=
  ⟨claim_C7_highhalf.1 (by decide) rfl rfl (Or.inl rfl) rfl rfl rfl rfl,
   claim_C7_highhalf.2 (by decide) rfl rfl (Or.inl rfl) rfl rfl rfl rfl⟩

/-- C9: REFUTED.  The driver can call `tcg_opt_gen_mov` with a `CONST`
source, firing its assertion.  On the two-operation stream
`movi_i32 t1, 5; and_i32 t2, t1, t1`, temp 1 is in `CONST` state after
the movi, yet the `or/and r, a, a => mov r, a` rewrite calls
`tcg_opt_gen_mov` with source temp 1; the assertion (modelled as
`none`) fires, shown both at the call itself, at the offending `step`,
and for the whole pass. -/
theorem claim_C9_assert_fires :
    ((tcg_opt_gen_movi initTemps 1 5).1 1).state = TempState.const ∧
    tcg_opt_gen_mov (⟨0, 3, fun _ => false, fun _ => false⟩ : Ctx)
      (tcg_opt_gen_movi initTemps 1 5).1 2 1 = none ∧
    step (⟨0, 3, fun _ => false, fun _ => false⟩ : Ctx)
      (tcg_opt_gen_movi initTemps 1 5).1 TCGOpcode.and_i32 none
      [2, 1, 1] = none ∧
    tcg_optimize (⟨0, 3, fun _ => false, fun _ => false⟩ : Ctx)
      [TCGOpcode.movi_i32, TCGOpcode.and_i32] [1, 5, 2, 1, 1] = none :=
  ⟨rfl, rfl, rfl, rfl⟩

/-- C1: REFUTED.  Semantics preservation fails.  On the stream
`movi_i32 t4, 0; movi_i32 t5, 0; movi_i32 t3, 7;
setcond2_i32 t3, t1, t2, t4, t5, LT; mov_i32 t0, t3` (temps 0..2
global), the `setcond2_i32` LT-versus-zero rewrite emits
`setcond_i32` but fails to reset the output temp t3, so its stale
`CONST 7` propagates into the final mov.  With all globals 0, the
input stream leaves 0 in the output temp t0 while the optimized
output stream leaves 7. -/
theorem claim_C1_semantics_bug :
    (tcg_optimize (⟨3, 6, fun _ => false, fun _ => false⟩ : Ctx)
        [TCGOpcode.movi_i32, TCGOpcode.movi_i32, TCGOpcode.movi_i32,
         TCGOpcode.setcond2_i32, TCGOpcode.mov_i32]
        [4, 0, 5, 0, 3, 7, 3, 1, 2, 4, 5, 2, 0, 3]).map
      (fun r => (r.2.1, r.2.2.1, r.2.2.2)) =
      some ([TCGOpcode.movi_i32, TCGOpcode.movi_i32, TCGOpcode.movi_i32,
             TCGOpcode.setcond_i32, TCGOpcode.movi_i32],
            [4, 0, 5, 0, 3, 7, 3, 2, 5, 2, 0, 7], []) ∧
    (evalStream 5 (fun _ => 0)
        [TCGOpcode.movi_i32, TCGOpcode.movi_i32, TCGOpcode.movi_i32,
         TCGOpcode.setcond2_i32, TCGOpcode.mov_i32]
        [4, 0, 5, 0, 3, 7, 3, 1, 2, 4, 5, 2, 0, 3]).map (fun e => e 0) =
      some 0 ∧
    (evalStream 5 (fun _ => 0)
        [TCGOpcode.movi_i32, TCGOpcode.movi_i32, TCGOpcode.movi_i32,
         TCGOpcode.setcond_i32, TCGOpcode.movi_i32]
        [4, 0, 5, 0, 3, 7, 3, 2, 5, 2, 0, 7]).map (fun e => e 0) =
      some 7 :=
  ⟨rfl, rfl, rfl⟩

theorem ring_find_copy {st : Temps} (hW : WfRing st) (t : Nat)
    (p : Nat → Bool) : ∀ fuel i, (st i).state = TempState.copy →
    ∀ j, ring_find st t p fuel i = some j →
    (st j).state = TempState.copy := by
  intro fuel
  induction fuel with
  | zero =>
    intro i hi j hj
    simp only [ring_find] at hj
    exact Option.noConfusion hj
  | succ fuel ih =>
    intro i hi j hj
    rw [ring_find] at hj
    by_cases h1 : i = t
    · rw [if_pos h1] at hj
      exact Option.noConfusion hj
    · rw [if_neg h1] at hj
      by_cases h2 : p i = true
      · rw [if_pos h2] at hj
        rw [Option.some.injEq] at hj
        rw [← hj]
        exact hi
      · rw [if_neg h2] at hj
        exact ih ((st i).next_copy) (hW i hi).1 j hj

theorem find_better_copy_lt {N : Nat} {ctx : Ctx} {st : Temps}
    (h : Inv N st) {t : Nat} (ht : (st t).state = TempState.copy) :
    find_better_copy ctx st t < N := by
  obtain ⟨hW, hB⟩ := h
  have htN : t < N := hB t ht
  have hnc : (st ((st t).next_copy)).state = TempState.copy := (hW t ht).1
  rw [find_better_copy]
  by_cases h1 : t < ctx.nb_globals
  · rw [if_pos h1]
    exact htN
  · rw [if_neg h1]
    cases hr1 : ring_find st t (fun i => i < ctx.nb_globals)
        TCG_MAX_TEMPS ((st t).next_copy) with
    | some i =>
      exact hB i (ring_find_copy hW t _ _ _ hnc i hr1)
    | none =>
      simp only []
      by_cases h2 : ¬ ctx.temp_local t = true
      · rw [if_pos h2]
        cases hr2 : ring_find st t (fun i => ctx.temp_local i)
            TCG_MAX_TEMPS ((st t).next_copy) with
        | some i =>
          exact hB i (ring_find_copy hW t _ _ _ hnc i hr2)
        | none => exact htN
      · rw [if_neg h2]
        exact htN

theorem region_le_nb_args (op : TCGOpcode) :
    (opdef op).nb_oargs + (opdef op).nb_iargs ≤ op.nb_args := by
  cases op <;> simp [TCGOpcode.nb_args, opdef]

theorem class_region2 (op : TCGOpcode)
    (h : (op.isMov || op.isZeroRightMov || op.isOrAnd) = true) :
    ¬ op = TCGOpcode.call ∧
    2 ≤ (opdef op).nb_oargs + (opdef op).nb_iargs := by
  cases op <;> first
    | exact ⟨by decide, by decide⟩
    | exact Bool.noConfusion h

theorem movcond_region5 (op : TCGOpcode) (h : op.isMovcond = true) :
    ¬ op = TCGOpcode.call ∧
    (opdef op).nb_oargs + (opdef op).nb_iargs = 5 := by
  cases op <;> first
    | exact ⟨by decide, by decide⟩
    | exact Bool.noConfusion h

theorem commut_region3 {op : TCGOpcode} (h : op.isCommut = true) :
    (opdef op).nb_oargs + (opdef op).nb_iargs = 3 := by
  cases op <;> first | rfl | exact Bool.noConfusion h

theorem brcond_region2 {op : TCGOpcode} (h : op.isBrcond = true) :
    (opdef op).nb_oargs + (opdef op).nb_iargs = 2 := by
  cases op <;> first | rfl | exact Bool.noConfusion h

theorem setcond_region3 {op : TCGOpcode} (h : op.isSetcond = true) :
    (opdef op).nb_oargs + (opdef op).nb_iargs = 3 := by
  cases op <;> first | rfl | exact Bool.noConfusion h

theorem swap_commutative_mem (st : Temps) (d x y : Nat) :
    ((swap_commutative st d x y).2.1 = x ∨
     (swap_commutative st d x y).2.1 = y) ∧
    ((swap_commutative st d x y).2.2 = x ∨
     (swap_commutative st d x y).2.2 = y) := by
  simp only [swap_commutative]
  split_ifs <;> simp

theorem swap_commutative2_mem (st : Temps) (x0 x1 y0 y1 : Nat) :
    ((swap_commutative2 st x0 x1 y0 y1).2.1 = x0 ∨
     (swap_commutative2 st x0 x1 y0 y1).2.1 = y0) ∧
    ((swap_commutative2 st x0 x1 y0 y1).2.2.1 = x1 ∨
     (swap_commutative2 st x0 x1 y0 y1).2.2.1 = y1) ∧
    ((swap_commutative2 st x0 x1 y0 y1).2.2.2.1 = x0 ∨
     (swap_commutative2 st x0 x1 y0 y1).2.2.2.1 = y0) ∧
    ((swap_commutative2 st x0 x1 y0 y1).2.2.2.2 = x1 ∨
     (swap_commutative2 st x0 x1 y0 y1).2.2.2.2 = y1) := by
  simp only [swap_commutative2]
  split_ifs <;> simp

theorem getD_take {l : List Nat} {n i : Nat} (h : i < n) :
    (l.take n).getD i 0 = l.getD i 0 := by
  rw [List.getD_eq_getElem?_getD, List.getD_eq_getElem?_getD,
    List.getElem?_take, if_pos h]

theorem copy_propagate_getD_lt {N : Nat} {ctx : Ctx} {st : Temps}
    (hI : Inv N st) (op : TCGOpcode) (a : List Nat) (i : Nat)
    (hb : a.getD i 0 < N) :
    (copy_propagate ctx st op a).getD i 0 < N := by
  rw [copy_propagate]
  simp only [List.getD_eq_getElem?_getD, List.getElem?_mapIdx]
  rw [List.getD_eq_getElem?_getD] at hb
  cases hx : a[i]? with
  | none =>
    rw [hx] at hb
    simpa using hb
  | some x =>
    rw [hx] at hb
    simp only [Option.map_some', Option.getD_some] at hb ⊢
    by_cases hc : ((if op = TCGOpcode.call then
          ((a.headD 0 >>> 16) + 1,
           (a.headD 0 >>> 16) + (a.headD 0 &&& 65535) + 1)
        else ((opdef op).nb_oargs,
          (opdef op).nb_oargs + (opdef op).nb_iargs)).1 ≤ i ∧
        i < (if op = TCGOpcode.call then
          ((a.headD 0 >>> 16) + 1,
           (a.headD 0 >>> 16) + (a.headD 0 &&& 65535) + 1)
        else ((opdef op).nb_oargs,
          (opdef op).nb_oargs + (opdef op).nb_iargs)).2 ∧
        (st x).state = TempState.copy)
    · rw [if_pos hc]
      exact find_better_copy_lt hI hc.2.2
    · rw [if_neg hc]
      exact hb

set_option maxHeartbeats 3200000 in
theorem canonicalize_getD_lt {N : Nat} (st : Temps) (op : TCGOpcode)
    (a : List Nat)
    (hb : ∀ j, j < (opdef op).nb_oargs + (opdef op).nb_iargs →
      a.getD j 0 < N) :
    ∀ i, i < (opdef op).nb_oargs + (opdef op).nb_iargs →
      (canonicalize st op a).getD i 0 < N := by
  delta canonicalize
  split_ifs with hc1 hc2 hc3 hc4 hc5 hc6 hc7 hc8
  · rw [commut_region3 hc1] at hb ⊢
    rcases a with _ | ⟨a0, _ | ⟨a1, _ | ⟨a2, rest⟩⟩⟩
    · exact fun i hi => hb i hi
    · exact fun i hi => hb i hi
    · exact fun i hi => hb i hi
    · intro i hi
      interval_cases i
      · exact hb 0 (by omega)
      · show (swap_commutative st a0 a1 a2).2.1 < N
        rcases (swap_commutative_mem st a0 a1 a2).1 with hv | hv <;>
          rw [hv]
        · exact hb 1 (by omega)
        · exact hb 2 (by omega)
      · show (swap_commutative st a0 a1 a2).2.2 < N
        rcases (swap_commutative_mem st a0 a1 a2).2 with hv | hv <;>
          rw [hv]
        · exact hb 1 (by omega)
        · exact hb 2 (by omega)
  · rw [brcond_region2 hc2] at hb ⊢
    rcases a with _ | ⟨a0, _ | ⟨a1, _ | ⟨c, rest⟩⟩⟩
    · exact fun i hi => hb i hi
    · exact fun i hi => hb i hi
    · exact fun i hi => hb i hi
    · intro i hi
      interval_cases i
      · show (swap_commutative st NEG1 a0 a1).2.1 < N
        rcases (swap_commutative_mem st NEG1 a0 a1).1 with hv | hv <;>
          rw [hv]
        · exact hb 0 (by omega)
        · exact hb 1 (by omega)
      · show (swap_commutative st NEG1 a0 a1).2.2 < N
        rcases (swap_commutative_mem st NEG1 a0 a1).2 with hv | hv <;>
          rw [hv]
        · exact hb 0 (by omega)
        · exact hb 1 (by omega)
  · rw [setcond_region3 hc3] at hb ⊢
    rcases a with _ | ⟨a0, _ | ⟨a1, _ | ⟨a2, _ | ⟨c, rest⟩⟩⟩⟩
    · exact fun i hi => hb i hi
    · exact fun i hi => hb i hi
    · exact fun i hi => hb i hi
    · exact fun i hi => hb i hi
    · intro i hi
      interval_cases i
      · exact hb 0 (by omega)
      · show (swap_commutative st a0 a1 a2).2.1 < N
        rcases (swap_commutative_mem st a0 a1 a2).1 with hv | hv <;>
          rw [hv]
        · exact hb 1 (by omega)
        · exact hb 2 (by omega)
      · show (swap_commutative st a0 a1 a2).2.2 < N
        rcases (swap_commutative_mem st a0 a1 a2).2 with hv | hv <;>
          rw [hv]
        · exact hb 1 (by omega)
        · exact hb 2 (by omega)
  · rw [(movcond_region5 op hc4).2] at hb ⊢
    rcases a with _ | ⟨a0, _ | ⟨a1, _ | ⟨a2, _ | ⟨a3, _ | ⟨a4, _ |
      ⟨c, rest⟩⟩⟩⟩⟩⟩
    · exact fun i hi => hb i hi
    · exact fun i hi => hb i hi
    · exact fun i hi => hb i hi
    · exact fun i hi => hb i hi
    · exact fun i hi => hb i hi
    · exact fun i hi => hb i hi
    · intro i hi
      interval_cases i
      · exact hb 0 (by omega)
      · show (swap_commutative st NEG1 a1 a2).2.1 < N
        rcases (swap_commutative_mem st NEG1 a1 a2).1 with hv | hv <;>
          rw [hv]
        · exact hb 1 (by omega)
        · exact hb 2 (by omega)
      · show (swap_commutative st NEG1 a1 a2).2.2 < N
        rcases (swap_commutative_mem st NEG1 a1 a2).2 with hv | hv <;>
          rw [hv]
        · exact hb 1 (by omega)
        · exact hb 2 (by omega)
      · show (swap_commutative st a0 a4 a3).2.2 < N
        rcases (swap_commutative_mem st a0 a4 a3).2 with hv | hv <;>
          rw [hv]
        · exact hb 4 (by omega)
        · exact hb 3 (by omega)
      · show (swap_commutative st a0 a4 a3).2.1 < N
        rcases (swap_commutative_mem st a0 a4 a3).1 with hv | hv <;>
          rw [hv]
        · exact hb 4 (by omega)
        · exact hb 3 (by omega)
  · subst hc5
    rcases a with _ | ⟨a0, _ | ⟨a1, _ | ⟨a2, _ | ⟨a3, _ | ⟨a4, _ |
      ⟨a5, rest⟩⟩⟩⟩⟩⟩
    · exact fun i hi => hb i hi
    · exact fun i hi => hb i hi
    · exact fun i hi => hb i hi
    · exact fun i hi => hb i hi
    · exact fun i hi => hb i hi
    · exact fun i hi => hb i hi
    · intro i hi
      simp only [opdef] at hb hi
      interval_cases i
      · exact hb 0 (by omega)
      · exact hb 1 (by omega)
      · show (swap_commutative st a0 a2 a4).2.1 < N
        rcases (swap_commutative_mem st a0 a2 a4).1 with hv | hv <;>
          rw [hv]
        · exact hb 2 (by omega)
        · exact hb 4 (by omega)
      · show (swap_commutative st a1 a3 a5).2.1 < N
        rcases (swap_commutative_mem st a1 a3 a5).1 with hv | hv <;>
          rw [hv]
        · exact hb 3 (by omega)
        · exact hb 5 (by omega)
      · show (swap_commutative st a0 a2 a4).2.2 < N
        rcases (swap_commutative_mem st a0 a2 a4).2 with hv | hv <;>
          rw [hv]
        · exact hb 2 (by omega)
        · exact hb 4 (by omega)
      · show (swap_commutative st a1 a3 a5).2.2 < N
        rcases (swap_commutative_mem st a1 a3 a5).2 with hv | hv <;>
          rw [hv]
        · exact hb 3 (by omega)
        · exact hb 5 (by omega)
  · subst hc6
    rcases a with _ | ⟨a0, _ | ⟨a1, _ | ⟨a2, _ | ⟨a3, rest⟩⟩⟩⟩
    · exact fun i hi => hb i hi
    · exact fun i hi => hb i hi
    · exact fun i hi => hb i hi
    · exact fun i hi => hb i hi
    · intro i hi
      simp only [opdef] at hb hi
      interval_cases i
      · exact hb 0 (by omega)
      · exact hb 1 (by omega)
      · show (swap_commutative st a0 a2 a3).2.1 < N
        rcases (swap_commutative_mem st a0 a2 a3).1 with hv | hv <;>
          rw [hv]
        · exact hb 2 (by omega)
        · exact hb 3 (by omega)
      · show (swap_commutative st a0 a2 a3).2.2 < N
        rcases (swap_commutative_mem st a0 a2 a3).2 with hv | hv <;>
          rw [hv]
        · exact hb 2 (by omega)
        · exact hb 3 (by omega)
  · subst hc7
    rcases a with _ | ⟨a0, _ | ⟨a1, _ | ⟨a2, _ | ⟨a3, _ | ⟨c, rest⟩⟩⟩⟩⟩
    · exact fun i hi => hb i hi
    · exact fun i hi => hb i hi
    · exact fun i hi => hb i hi
    · exact fun i hi => hb i hi
    · exact fun i hi => hb i hi
    · intro i hi
      simp only [opdef] at hb hi
      interval_cases i
      · show (swap_commutative2 st a0 a1 a2 a3).2.1 < N
        rcases (swap_commutative2_mem st a0 a1 a2 a3).1 with hv | hv <;>
          rw [hv]
        · exact hb 0 (by omega)
        · exact hb 2 (by omega)
      · show (swap_commutative2 st a0 a1 a2 a3).2.2.1 < N
        rcases (swap_commutative2_mem st a0 a1 a2 a3).2.1 with hv | hv <;>
          rw [hv]
        · exact hb 1 (by omega)
        · exact hb 3 (by omega)
      · show (swap_commutative2 st a0 a1 a2 a3).2.2.2.1 < N
        rcases (swap_commutative2_mem st a0 a1 a2 a3).2.2.1 with
          hv | hv <;> rw [hv]
        · exact hb 0 (by omega)
        · exact hb 2 (by omega)
      · show (swap_commutative2 st a0 a1 a2 a3).2.2.2.2 < N
        rcases (swap_commutative2_mem st a0 a1 a2 a3).2.2.2 with
          hv | hv <;> rw [hv]
        · exact hb 1 (by omega)
        · exact hb 3 (by omega)
  · subst hc8
    rcases a with _ | ⟨a0, _ | ⟨a1, _ | ⟨a2, _ | ⟨a3, _ | ⟨a4, _ |
      ⟨c, rest⟩⟩⟩⟩⟩⟩
    · exact fun i hi => hb i hi
    · exact fun i hi => hb i hi
    · exact fun i hi => hb i hi
    · exact fun i hi => hb i hi
    · exact fun i hi => hb i hi
    · exact fun i hi => hb i hi
    · intro i hi
      simp only [opdef] at hb hi
      interval_cases i
      · exact hb 0 (by omega)
      · show (swap_commutative2 st a1 a2 a3 a4).2.1 < N
        rcases (swap_commutative2_mem st a1 a2 a3 a4).1 with hv | hv <;>
          rw [hv]
        · exact hb 1 (by omega)
        · exact hb 3 (by omega)
      · show (swap_commutative2 st a1 a2 a3 a4).2.2.1 < N
        rcases (swap_commutative2_mem st a1 a2 a3 a4).2.1 with hv | hv <;>
          rw [hv]
        · exact hb 2 (by omega)
        · exact hb 4 (by omega)
      · show (swap_commutative2 st a1 a2 a3 a4).2.2.2.1 < N
        rcases (swap_commutative2_mem st a1 a2 a3 a4).2.2.1 with
          hv | hv <;> rw [hv]
        · exact hb 1 (by omega)
        · exact hb 3 (by omega)
      · show (swap_commutative2 st a1 a2 a3 a4).2.2.2.2 < N
        rcases (swap_commutative2_mem st a1 a2 a3 a4).2.2.2 with
          hv | hv <;> rw [hv]
        · exact hb 2 (by omega)
        · exact hb 4 (by omega)
  · exact fun i hi => hb i hi

theorem bigSwitch_inv {ctx : Ctx} {st : Temps} {op : TCGOpcode}
    {nx : Option TCGOpcode} {a : List Nat} {k : Nat} {st' : Temps}
    {opsO : List TCGOpcode} {em : List Nat} {k' extra : Nat}
    (hInv : Inv ctx.nb_temps st)
    (hreg : ¬ op = TCGOpcode.call →
      ∀ i, i < (opdef op).nb_oargs + (opdef op).nb_iargs →
        a.getD i 0 < ctx.nb_temps)
    (h : bigSwitch ctx st op nx a k = some (st', opsO, em, k', extra)) :
    Inv ctx.nb_temps st' := by
  have getSt : ∀ (X1 : Temps) (X2 : List TCGOpcode) (X3 : List Nat)
      (X4 X5 : Nat),
      (some (X1, X2, X3, X4, X5) :
        Option (Temps × List TCGOpcode × List Nat × Nat × Nat)) =
        some (st', opsO, em, k', extra) →
      Inv ctx.nb_temps X1 → Inv ctx.nb_temps st' := by
    intro X1 X2 X3 X4 X5 he hI
    rw [Option.some.injEq, Prod.mk.injEq, Prod.mk.injEq, Prod.mk.injEq,
      Prod.mk.injEq] at he
    exact he.1 ▸ hI
  have hdd : Inv ctx.nb_temps
      (if (opdef op).bbEnd = true then memsetTemps ctx.nb_temps st
       else reset_list st (a.take (opdef op).nb_oargs)) := by
    split_ifs
    · exact inv_memset hInv.2
    · exact inv_reset_list hInv _
  have hdef : ∀ st0 : Temps, Inv ctx.nb_temps st0 →
      (some (st0, [op], a, k, 0) :
        Option (Temps × List TCGOpcode × List Nat × Nat × Nat)) =
        some (st', opsO, em, k', extra) → Inv ctx.nb_temps st' :=
    fun st0 hI he => getSt _ _ _ _ _ he hI
  simp only [bigSwitch] at h
  by_cases c1 : op.isMov = true
  · rw [if_pos c1] at h
    by_cases t1 : temps_are_copies st (a.getD 0 0) (a.getD 1 0) = true
    · rw [if_pos t1] at h
      exact getSt _ _ _ _ _ h hInv
    · rw [if_neg t1] at h
      by_cases t2 : (st (a.getD 1 0)).state ≠ TempState.const
      · rw [if_pos t2] at h
        have hr2 := class_region2 op (by simp [c1])
        have hd := hreg hr2.1 0 (by omega)
        have hs := hreg hr2.1 1 (by omega)
        cases hgm : tcg_opt_gen_mov ctx st (a.getD 0 0) (a.getD 1 0) with
        | none => rw [hgm] at h; exact Option.noConfusion h
        | some p =>
          obtain ⟨stx, emx⟩ := p
          rw [hgm] at h
          simp only [] at h
          exact getSt _ _ _ _ _ h (inv_mov hInv hd hs hgm).1
      · rw [if_neg t2] at h
        exact getSt _ _ _ _ _ h (inv_movi hInv _ _)
  · rw [if_neg c1] at h
    by_cases c2 : op.isMovi = true
    · rw [if_pos c2] at h
      exact getSt _ _ _ _ _ h (inv_movi hInv _ _)
    · rw [if_neg c2] at h
      by_cases c3 : op.isUnaryFold = true
      · rw [if_pos c3] at h
        by_cases t3 : (st (a.getD 1 0)).state = TempState.const
        · rw [if_pos t3] at h
          cases hdc : do_constant_folding op ((st (a.getD 1 0)).val) 0 with
          | none => rw [hdc] at h; exact Option.noConfusion h
          | some tmp =>
            rw [hdc] at h
            simp only [] at h
            exact getSt _ _ _ _ _ h (inv_movi hInv _ _)
        · rw [if_neg t3] at h
          exact hdef _ hdd h
      · rw [if_neg c3] at h
        by_cases c4 : op.isBinaryFold = true
        · rw [if_pos c4] at h
          by_cases t4 : (st (a.getD 1 0)).state = TempState.const ∧
              (st (a.getD 2 0)).state = TempState.const
          · rw [if_pos t4] at h
            cases hdc : do_constant_folding op ((st (a.getD 1 0)).val)
                ((st (a.getD 2 0)).val) with
            | none => rw [hdc] at h; exact Option.noConfusion h
            | some tmp =>
              rw [hdc] at h
              simp only [] at h
              exact getSt _ _ _ _ _ h (inv_movi hInv _ _)
          · rw [if_neg t4] at h
            exact hdef _ hdd h
        · rw [if_neg c4] at h
          by_cases c5 : op.isDeposit = true
          · rw [if_pos c5] at h
            by_cases t5 : (st (a.getD 1 0)).state = TempState.const ∧
                (st (a.getD 2 0)).state = TempState.const
            · rw [if_pos t5] at h
              exact getSt _ _ _ _ _ h (inv_movi hInv _ _)
            · rw [if_neg t5] at h
              exact hdef _ hdd h
          · rw [if_neg c5] at h
            by_cases c6 : op.isSetcond = true
            · rw [if_pos c6] at h
              cases hdc : do_constant_folding_cond st op (a.getD 1 0)
                  (a.getD 2 0) (a.getD 3 0) with
              | none => rw [hdc] at h; exact Option.noConfusion h
              | some tmp =>
                rw [hdc] at h
                simp only [] at h
                by_cases t6 : tmp ≠ 2
                · rw [if_pos t6] at h
                  exact getSt _ _ _ _ _ h (inv_movi hInv _ _)
                · rw [if_neg t6] at h
                  exact hdef _ hdd h
            · rw [if_neg c6] at h
              by_cases c7 : op.isBrcond = true
              · rw [if_pos c7] at h
                cases hdc : do_constant_folding_cond st op (a.getD 0 0)
                    (a.getD 1 0) (a.getD 2 0) with
                | none => rw [hdc] at h; exact Option.noConfusion h
                | some tmp =>
                  rw [hdc] at h
                  simp only [] at h
                  by_cases t7 : tmp ≠ 2
                  · rw [if_pos t7] at h
                    by_cases t8 : tmp ≠ 0
                    · rw [if_pos t8] at h
                      exact getSt _ _ _ _ _ h (inv_memset hInv.2)
                    · rw [if_neg t8] at h
                      exact getSt _ _ _ _ _ h hInv
                  · rw [if_neg t7] at h
                    exact hdef _ hdd h
              · rw [if_neg c7] at h
                by_cases c8 : op.isMovcond = true
                · rw [if_pos c8] at h
                  have hr5 := movcond_region5 op c8
                  cases hdc : do_constant_folding_cond st op (a.getD 1 0)
                      (a.getD 2 0) (a.getD 5 0) with
                  | none => rw [hdc] at h; exact Option.noConfusion h
                  | some tmp =>
                    rw [hdc] at h
                    simp only [] at h
                    by_cases t9 : tmp ≠ 2
                    · rw [if_pos t9] at h
                      by_cases t10 : temps_are_copies st (a.getD 0 0)
                          (a.getD (4 - tmp) 0) = true
                      · rw [if_pos t10] at h
                        exact getSt _ _ _ _ _ h hInv
                      · rw [if_neg t10] at h
                        by_cases t11 : (st (a.getD (4 - tmp) 0)).state =
                            TempState.const
                        · rw [if_pos t11] at h
                          exact getSt _ _ _ _ _ h (inv_movi hInv _ _)
                        · rw [if_neg t11] at h
                          have hd := hreg hr5.1 0 (by rw [hr5.2]; omega)
                          have hs := hreg hr5.1 (4 - tmp)
                            (by rw [hr5.2]; omega)
                          cases hgm : tcg_opt_gen_mov ctx st (a.getD 0 0)
                              (a.getD (4 - tmp) 0) with
                          | none => rw [hgm] at h; exact Option.noConfusion h
                          | some p =>
                            obtain ⟨stx, emx⟩ := p
                            rw [hgm] at h
                            simp only [] at h
                            exact getSt _ _ _ _ _ h
                              (inv_mov hInv hd hs hgm).1
                    · rw [if_neg t9] at h
                      exact hdef _ hdd h
                · rw [if_neg c8] at h
                  by_cases c9 : op = TCGOpcode.add2_i32 ∨
                      op = TCGOpcode.sub2_i32
                  · rw [if_pos c9] at h
                    by_cases t12 : (st (a.getD 2 0)).state =
                          TempState.const ∧
                        (st (a.getD 3 0)).state = TempState.const ∧
                        (st (a.getD 4 0)).state = TempState.const ∧
                        (st (a.getD 5 0)).state = TempState.const
                    · rw [if_pos t12] at h
                      by_cases t13 : nx = some TCGOpcode.nop
                      · rw [if_pos t13] at h
                        exact getSt _ _ _ _ _ h
                          (inv_movi (inv_movi hInv _ _) _ _)
                      · rw [if_neg t13] at h
                        exact Option.noConfusion h
                    · rw [if_neg t12] at h
                      exact hdef _ hdd h
                  · rw [if_neg c9] at h
                    by_cases c10 : op = TCGOpcode.mulu2_i32
                    · rw [if_pos c10] at h
                      by_cases t14 : (st (a.getD 2 0)).state =
                            TempState.const ∧
                          (st (a.getD 3 0)).state = TempState.const
                      · rw [if_pos t14] at h
                        by_cases t15 : nx = some TCGOpcode.nop
                        · rw [if_pos t15] at h
                          exact getSt _ _ _ _ _ h
                            (inv_movi (inv_movi hInv _ _) _ _)
                        · rw [if_neg t15] at h
                          exact Option.noConfusion h
                      · rw [if_neg t14] at h
                        exact hdef _ hdd h
                    · rw [if_neg c10] at h
                      by_cases c11 : op = TCGOpcode.brcond2_i32
                      · rw [if_pos c11] at h
                        cases hdc : do_constant_folding_cond2 st
                            (a.getD 0 0) (a.getD 1 0) (a.getD 2 0)
                            (a.getD 3 0) (a.getD 4 0) with
                        | none => rw [hdc] at h; exact Option.noConfusion h
                        | some tmp =>
                          rw [hdc] at h
                          simp only [] at h
                          by_cases t16 : tmp ≠ 2
                          · rw [if_pos t16] at h
                            by_cases t17 : tmp ≠ 0
                            · rw [if_pos t17] at h
                              exact getSt _ _ _ _ _ h (inv_memset hInv.2)
                            · rw [if_neg t17] at h
                              exact getSt _ _ _ _ _ h hInv
                          · rw [if_neg t16] at h
                            by_cases t18 : (a.getD 4 0 = TCG_COND_LT ∨
                                  a.getD 4 0 = TCG_COND_GE) ∧
                                (st (a.getD 2 0)).state = TempState.const ∧
                                (st (a.getD 3 0)).state = TempState.const ∧
                                (st (a.getD 2 0)).val = 0 ∧
                                (st (a.getD 3 0)).val = 0
                            · rw [if_pos t18] at h
                              exact getSt _ _ _ _ _ h (inv_memset hInv.2)
                            · rw [if_neg t18] at h
                              exact hdef _ hdd h
                      · rw [if_neg c11] at h
                        by_cases c12 : op = TCGOpcode.setcond2_i32
                        · rw [if_pos c12] at h
                          cases hdc : do_constant_folding_cond2 st
                              (a.getD 1 0) (a.getD 2 0) (a.getD 3 0)
                              (a.getD 4 0) (a.getD 5 0) with
                          | none =>
                            rw [hdc] at h; exact Option.noConfusion h
                          | some tmp =>
                            rw [hdc] at h
                            simp only [] at h
                            by_cases t19 : tmp ≠ 2
                            · rw [if_pos t19] at h
                              exact getSt _ _ _ _ _ h (inv_movi hInv _ _)
                            · rw [if_neg t19] at h
                              by_cases t20 : (a.getD 5 0 = TCG_COND_LT ∨
                                    a.getD 5 0 = TCG_COND_GE) ∧
                                  (st (a.getD 3 0)).state =
                                    TempState.const ∧
                                  (st (a.getD 4 0)).state =
                                    TempState.const ∧
                                  (st (a.getD 3 0)).val = 0 ∧
                                  (st (a.getD 4 0)).val = 0
                              · rw [if_pos t20] at h
                                exact getSt _ _ _ _ _ h hInv
                              · rw [if_neg t20] at h
                                exact hdef _ hdd h
                        · rw [if_neg c12] at h
                          by_cases c13 : op = TCGOpcode.call
                          · rw [if_pos c13] at h
                            refine getSt _ _ _ _ _ h
                              (inv_reset_list ?_ _)
                            split_ifs
                            · exact inv_reset_list hInv _
                            · exact hInv
                          · rw [if_neg c13] at h
                            exact hdef _ hdd h

theorem step_inv {ctx : Ctx} {st : Temps} {op : TCGOpcode}
    {nx : Option TCGOpcode} {args : List Nat} {st' : Temps}
    {opsO : List TCGOpcode} {em : List Nat} {k' extra : Nat}
    (hInv : Inv ctx.nb_temps st)
    (hargs : ¬ op = TCGOpcode.call →
      ∀ i, i < (opdef op).nb_oargs + (opdef op).nb_iargs →
        args.getD i 0 < ctx.nb_temps)
    (h : step ctx st op nx args = some (st', opsO, em, k', extra)) :
    Inv ctx.nb_temps st' := by
  simp only [step] at h
  by_cases hl : args.length < argCount op args
  · rw [if_pos hl] at h
    exact Option.noConfusion h
  · rw [if_neg hl] at h
    have getSt : ∀ (X1 : Temps) (X2 : List TCGOpcode) (X3 : List Nat)
        (X4 X5 : Nat),
        (some (X1, X2, X3, X4, X5) :
          Option (Temps × List TCGOpcode × List Nat × Nat × Nat)) =
          some (st', opsO, em, k', extra) →
        Inv ctx.nb_temps X1 → Inv ctx.nb_temps st' := by
      intro X1 X2 X3 X4 X5 he hI
      rw [Option.some.injEq, Prod.mk.injEq, Prod.mk.injEq, Prod.mk.injEq,
        Prod.mk.injEq] at he
      exact he.1 ▸ hI
    generalize hA : canonicalize st op
      (copy_propagate ctx st op (args.take (argCount op args))) = a at h
    have hreg : ¬ op = TCGOpcode.call →
        ∀ i, i < (opdef op).nb_oargs + (opdef op).nb_iargs →
          a.getD i 0 < ctx.nb_temps := by
      intro hnc
      have hrk : (opdef op).nb_oargs + (opdef op).nb_iargs ≤
          argCount op args := by
        rw [argCount, if_neg hnc]
        exact region_le_nb_args op
      have hb2 : ∀ j, j < (opdef op).nb_oargs + (opdef op).nb_iargs →
          (copy_propagate ctx st op
            (args.take (argCount op args))).getD j 0 < ctx.nb_temps := by
        intro j hj
        refine copy_propagate_getD_lt hInv _ _ j ?_
        rw [getD_take (lt_of_lt_of_le hj hrk)]
        exact hargs hnc j hj
      have hb3 := canonicalize_getD_lt st op _ hb2
      rw [hA] at hb3
      exact hb3
    by_cases c1 : op.isShiftRot = true ∧
        (st (a.getD 1 0)).state = TempState.const ∧
        (st (a.getD 1 0)).val = 0
    · rw [if_pos c1] at h
      exact getSt _ _ _ _ _ h (inv_movi hInv _ _)
    · rw [if_neg c1] at h
      by_cases c2 : op.isZeroRightMov = true ∧
          (st (a.getD 1 0)).state ≠ TempState.const ∧
          (st (a.getD 2 0)).state = TempState.const ∧
          (st (a.getD 2 0)).val = 0
      · rw [if_pos c2] at h
        have hr2 := class_region2 op (by simp [c2.1])
        have hd := hreg hr2.1 0 (by omega)
        have hs := hreg hr2.1 1 (by omega)
        by_cases t1 : temps_are_copies st (a.getD 0 0) (a.getD 1 0) = true
        · rw [if_pos t1] at h
          exact getSt _ _ _ _ _ h hInv
        · rw [if_neg t1] at h
          cases hgm : tcg_opt_gen_mov ctx st (a.getD 0 0) (a.getD 1 0) with
          | none => rw [hgm] at h; exact Option.noConfusion h
          | some p =>
            obtain ⟨stx, emx⟩ := p
            rw [hgm] at h
            simp only [] at h
            exact getSt _ _ _ _ _ h (inv_mov hInv hd hs hgm).1
      · rw [if_neg c2] at h
        by_cases c3 : op.isZeroRightMovi = true ∧
            (st (a.getD 2 0)).state = TempState.const ∧
            (st (a.getD 2 0)).val = 0
        · rw [if_pos c3] at h
          exact getSt _ _ _ _ _ h (inv_movi hInv _ _)
        · rw [if_neg c3] at h
          by_cases c4 : op.isOrAnd = true ∧
              temps_are_copies st (a.getD 1 0) (a.getD 2 0) = true
          · rw [if_pos c4] at h
            have hr2 := class_region2 op (by simp [c4.1])
            have hd := hreg hr2.1 0 (by omega)
            have hs := hreg hr2.1 1 (by omega)
            by_cases t2 : temps_are_copies st (a.getD 0 0) (a.getD 1 0) =
                true
            · rw [if_pos t2] at h
              exact getSt _ _ _ _ _ h hInv
            · rw [if_neg t2] at h
              cases hgm : tcg_opt_gen_mov ctx st (a.getD 0 0)
                  (a.getD 1 0) with
              | none => rw [hgm] at h; exact Option.noConfusion h
              | some p =>
                obtain ⟨stx, emx⟩ := p
                rw [hgm] at h
                simp only [] at h
                exact getSt _ _ _ _ _ h (inv_mov hInv hd hs hgm).1
          · rw [if_neg c4] at h
            by_cases c5 : op.isSubXor = true ∧
                temps_are_copies st (a.getD 1 0) (a.getD 2 0) = true
            · rw [if_pos c5] at h
              exact getSt _ _ _ _ _ h (inv_movi hInv _ _)
            · rw [if_neg c5] at h
              exact bigSwitch_inv hInv hreg h

theorem optrun_inv (ctx : Ctx) : ∀ (fuel : Nat) (ops : List TCGOpcode)
    (st : Temps) (args : List Nat) {stF : Temps} {opsF : List TCGOpcode}
    {emF leftover : List Nat},
    Inv ctx.nb_temps st →
    WfArgsStream ctx.nb_temps fuel ops args →
    optrun ctx fuel st ops args = some (stF, opsF, emF, leftover) →
    Inv ctx.nb_temps stF := by
  intro fuel
  induction fuel with
  | zero =>
    intro ops st args stF opsF emF leftover hI hwf h
    cases ops with
    | nil =>
      simp only [optrun, Option.some.injEq, Prod.mk.injEq] at h
      exact h.1 ▸ hI
    | cons op rest =>
      simp only [optrun] at h
      exact Option.noConfusion h
  | succ fuel ih =>
    intro ops st args stF opsF emF leftover hI hwf h
    cases ops with
    | nil =>
      simp only [optrun, Option.some.injEq, Prod.mk.injEq] at h
      exact h.1 ▸ hI
    | cons op rest =>
      simp only [optrun] at h
      obtain ⟨hwf1, hwf2⟩ := hwf
      cases hs : step ctx st op rest.head? args with
      | none => rw [hs] at h; exact Option.noConfusion h
      | some r =>
        obtain ⟨st1, opsO, em, k, extra⟩ := r
        rw [hs] at h
        simp only [] at h
        cases hr : optrun ctx fuel st1 (rest.drop extra) (args.drop k) with
        | none => rw [hr] at h; exact Option.noConfusion h
        | some r2 =>
          obtain ⟨st2, opsF2, emF2, left2⟩ := r2
          rw [hr] at h
          simp only [] at h
          rw [Option.some.injEq, Prod.mk.injEq, Prod.mk.injEq,
            Prod.mk.injEq] at h
          have hI1 : Inv ctx.nb_temps st1 := step_inv hI hwf1 hs
          have hk : k = argCount op args := (step_len hs).2.2
          have := ih (rest.drop extra) st1 (args.drop k) hI1
            (hk ▸ hwf2 extra) hr
          exact h.1 ▸ this

theorem nextIter_copy {st : Temps} (hW : WfRing st) {u : Nat}
    (hu : (st u).state = TempState.copy) :
    ∀ m, (st (nextIter st m u)).state = TempState.copy := by
  intro m
  induction m with
  | zero => exact hu
  | succ m ih => exact (hW _ ih).1

theorem nextIter_add (st : Temps) (a b t : Nat) :
    nextIter st (a + b) t = nextIter st a (nextIter st b t) := by
  induction a with
  | zero =>
    rw [Nat.zero_add]
    rfl
  | succ a ih =>
    rw [Nat.succ_add]
    show (st (nextIter st (a + b) t)).next_copy = _
    rw [ih]
    rfl

theorem nextIter_inj {st : Temps} (hW : WfRing st) :
    ∀ m u v, (st u).state = TempState.copy →
    (st v).state = TempState.copy →
    nextIter st m u = nextIter st m v → u = v := by
  intro m
  induction m with
  | zero => intro u v _ _ h; exact h
  | succ m ih =>
    intro u v hu hv h
    have hx : (st (nextIter st m u)).state = TempState.copy :=
      nextIter_copy hW hu m
    have hy : (st (nextIter st m v)).state = TempState.copy :=
      nextIter_copy hW hv m
    have h' : (st (nextIter st m u)).next_copy =
        (st (nextIter st m v)).next_copy := h
    have : nextIter st m u = nextIter st m v := by
      have e1 := (hW _ hx).2.2.1
      have e2 := (hW _ hy).2.2.1
      rw [← e1, ← e2, h']
    exact ih u v hu hv this

theorem ring_cycle {N : Nat} {st : Temps} (hW : WfRing st)
    (hB : BoundedCopy N st) {t : Nat}
    (ht : (st t).state = TempState.copy) :
    ∃ k, 0 < k ∧ k ≤ N ∧ nextIter st k t = t := by
  have hlt : ∀ m : Nat, nextIter st m t < N :=
    fun m => hB _ (nextIter_copy hW ht m)
  obtain ⟨m1, hm1, m2, hm2, hne, heq⟩ :=
    Finset.exists_ne_map_eq_of_card_lt_of_maps_to
      (s := Finset.range (N + 1)) (t := Finset.range N)
      (by simp) (fun m _ => Finset.mem_range.mpr (hlt m))
  rw [Finset.mem_range] at hm1 hm2
  rcases Nat.lt_or_ge m1 m2 with hlt12 | hge12
  · refine ⟨m2 - m1, by omega, by omega, ?_⟩
    have : nextIter st (m1 + (m2 - m1)) t = nextIter st m1 t := by
      rw [show m1 + (m2 - m1) = m2 by omega]
      exact heq.symm
    rw [nextIter_add] at this
    exact nextIter_inj hW m1 _ _ (nextIter_copy hW ht (m2 - m1)) ht this
  · have hlt21 : m2 < m1 := by omega
    refine ⟨m1 - m2, by omega, by omega, ?_⟩
    have : nextIter st (m2 + (m1 - m2)) t = nextIter st m2 t := by
      rw [show m2 + (m1 - m2) = m1 by omega]
      exact heq
    rw [nextIter_add] at this
    exact nextIter_inj hW m2 _ _ (nextIter_copy hW ht (m1 - m2)) ht this

/-- C4: the copy-ring invariant after every processed operation.  For
every prefix of a positionally well-formed stream (temp-argument words
below the temp count), a successful run leaves a table in which every
`COPY` temp `t` has symmetric links (`prev(next(t)) = t` and
`next(prev(t)) = t`), every `next_copy`-walk from `t` stays inside
`COPY` temps and comes back to `t` within `nb_temps` steps, and no
walk from a `COPY` temp ever reaches a `CONST` temp — so no `CONST`
temp is a member of any copy ring. -/
theorem claim_C4_ring (ctx : Ctx) (ops : List TCGOpcode)
    (args : List Nat) (n : Nat) {stF : Temps} {opsF : List TCGOpcode}
    {emF leftover : List Nat}
    (hwf : WfArgsStream ctx.nb_temps (ops.take n).length (ops.take n)
      args)
    (hrun : tcg_optimize ctx (ops.take n) args =
      some (stF, opsF, emF, leftover)) :
    ∀ t, (stF t).state = TempState.copy →
      ((stF ((stF t).next_copy)).prev_copy = t ∧
       (stF ((stF t).prev_copy)).next_copy = t) ∧
      (∀ m, (stF (nextIter stF m t)).state = TempState.copy) ∧
      (∃ k, 0 < k ∧ k ≤ ctx.nb_temps ∧ nextIter stF k t = t) ∧
      (∀ m, ¬ (stF (nextIter stF m t)).state = TempState.const) := by
  have hI : Inv ctx.nb_temps stF := by
    rw [tcg_optimize] at hrun
    exact optrun_inv ctx _ _ _ _ (inv_init _) hwf hrun
  obtain ⟨hW, hB⟩ := hI
  intro t ht
  refine ⟨⟨(hW t ht).2.2.1, (hW t ht).2.2.2⟩, nextIter_copy hW ht,
    ring_cycle hW hB ht, ?_⟩
  intro m hc
  have := nextIter_copy hW ht m
  rw [hc] at this
  exact TempState.noConfusion this

theorem claim_C4_ring_witness :
    tcg_optimize (⟨1, 2, fun _ => false, fun _ => false⟩ : Ctx)
        ([TCGOpcode.mov_i32].take 1) [1, 0] =
      some ((tcg_optimize (⟨1, 2, fun _ => false, fun _ => false⟩ : Ctx)
          ([TCGOpcode.mov_i32].take 1) [1, 0]).elim initTemps
          (fun r => r.1), [TCGOpcode.mov_i32], [1, 0], []) ∧
    (((tcg_optimize (⟨1, 2, fun _ => false, fun _ => false⟩ : Ctx)
        ([TCGOpcode.mov_i32].take 1) [1, 0]).elim initTemps
        (fun r => r.1)) 1).state = TempState.copy ∧
    ((((tcg_optimize (⟨1, 2, fun _ => false, fun _ => false⟩ : Ctx)
          ([TCGOpcode.mov_i32].take 1) [1, 0]).elim initTemps
          (fun r => r.1))
        ((((tcg_optimize (⟨1, 2, fun _ => false, fun _ => false⟩ : Ctx)
            ([TCGOpcode.mov_i32].take 1) [1, 0]).elim initTemps
            (fun r => r.1)) 1).next_copy)).prev_copy = 1 ∧
     (((tcg_optimize (⟨1, 2, fun _ => false, fun _ => false⟩ : Ctx)
          ([TCGOpcode.mov_i32].take 1) [1, 0]).elim initTemps
          (fun r => r.1))
        ((((tcg_optimize (⟨1, 2, fun _ => false, fun _ => false⟩ : Ctx)
            ([TCGOpcode.mov_i32].take 1) [1, 0]).elim initTemps
            (fun r => r.1)) 1).prev_copy)).next_copy = 1) ∧
    (∀ m, (((tcg_optimize (⟨1, 2, fun _ => false, fun _ => false⟩ : Ctx)
        ([TCGOpcode.mov_i32].take 1) [1, 0]).elim initTemps
        (fun r => r.1))
        (nextIter ((tcg_optimize
            (⟨1, 2, fun _ => false, fun _ => false⟩ : Ctx)
            ([TCGOpcode.mov_i32].take 1) [1, 0]).elim initTemps
            (fun r => r.1)) m 1)).state = TempState.copy) ∧
    (∃ k, 0 < k ∧ k ≤ (⟨1, 2, fun _ => false, fun _ => false⟩ :
        Ctx).nb_temps ∧
      nextIter ((tcg_optimize (⟨1, 2, fun _ => false, fun _ => false⟩ :
          Ctx) ([TCGOpcode.mov_i32].take 1) [1, 0]).elim initTemps
          (fun r => r.1)) k 1 = 1) ∧
    (∀ m, ¬ (((tcg_optimize (⟨1, 2, fun _ => false, fun _ => false⟩ :
        Ctx) ([TCGOpcode.mov_i32].take 1) [1, 0]).elim initTemps
        (fun r => r.1))
        (nextIter ((tcg_optimize
            (⟨1, 2, fun _ => false, fun _ => false⟩ : Ctx)
            ([TCGOpcode.mov_i32].take 1) [1, 0]).elim initTemps
            (fun r => r.1)) m 1)).state = TempState.const) := by
  have hwf : WfArgsStream (⟨1, 2, fun _ => false, fun _ => false⟩ :
      Ctx).nb_temps ([TCGOpcode.mov_i32].take 1).length
      ([TCGOpcode.mov_i32].take 1) [1, 0] := by
    refine ⟨fun _ i hi => ?_, fun e => ?_⟩
    · simp only [opdef] at hi
      interval_cases i <;> decide
    · rw [List.take_nil, List.drop_nil]
      exact trivial
  have hres : tcg_optimize (⟨1, 2, fun _ => false, fun _ => false⟩ : Ctx)
      ([TCGOpcode.mov_i32].take 1) [1, 0] =
      some ((tcg_optimize (⟨1, 2, fun _ => false, fun _ => false⟩ : Ctx)
          ([TCGOpcode.mov_i32].take 1) [1, 0]).elim initTemps
          (fun r => r.1), [TCGOpcode.mov_i32], [1, 0], []) := rfl
  have hcopy : (((tcg_optimize (⟨1, 2, fun _ => false, fun _ => false⟩ :
      Ctx) ([TCGOpcode.mov_i32].take 1) [1, 0]).elim initTemps
      (fun r => r.1)) 1).state = TempState.copy := rfl
  exact ⟨hres, hcopy,
    claim_C4_ring (⟨1, 2, fun _ => false, fun _ => false⟩ : Ctx)
      [TCGOpcode.mov_i32] [1, 0] 1 hwf hres 1 hcopy⟩

end TCGOpt
